import Mathlib

/-!
# lightlimit: the process table and the interactive monitor

A shallow embedding of `lightlimit.c`: the ranking comparator
`compare_cpu_usage`, the `/proc` scan of `get_process_list` (reading of the
stat line, the derived metrics, the final `qsort`), `kill_process`, and the
selection / viewport logic of `monitor`.

Conventions of the embedding.

* `int` values are integers reduced by `wrapInt` after every arithmetic
  operation (two's complement, 32 bits); `unsigned long` values are naturals
  reduced modulo `2 ^ 64`.
* A `double` is a finite rational number, an infinity or a NaN (`Double`); every
  conversion and operation rounds to the nearest number with a 53-bit significand,
  ties to even (`fl`).  The exponent range is not modelled, and the two zeros are
  one.  The fields `cpu_percent` and `mem_percent` of a table entry hold the number
  of the `double` stored.
* A `char` array is the list of its bytes; the C string stored at an offset
  is the run of bytes from there up to the first NUL (`cstrAt`).
* Library functions (`qsort`, `sscanf`, `fgets`, `kill`, `getch`, the curses
  key codes) are not part of the program.  `kill`, `getch` and the key codes
  are inputs of the model; `sscanf`, `fgets`, `strchr`, `strrchr`, `atoi` are
  modelled after the C library.  `qsort` is a parameter of `get_process_list`:
  the sortedness of the table is proved for every function meeting the contract
  of ISO C, the order of ties for the merge sort that glibc runs (`glibc_msort`).
* A computation returns `none` where the C program reads outside an array or
  divides an integer by zero.
-/

namespace LightLimit

/-! ## Machine integers -/

/-- Largest value of `int`. -/
def INT_MAX : Int := 2147483647

/-- Smallest value of `int`. -/
def INT_MIN : Int := -2147483648

/-- The `int` that a 32 bit two's complement machine stores for the
mathematical result `x`. -/
def wrapInt (x : Int) : Int := (x + 2147483648) % 4294967296 - 2147483648

/-- Largest value of `unsigned long` and of `unsigned long long` (LP64). -/
def ULONG_MAX : Nat := 18446744073709551615

/-- The `unsigned long` that is stored for the mathematical result `x`. -/
def wrapULong (x : Nat) : Nat := x % 18446744073709551616

/-- Code of a character constant such as `'q'`. -/
def ord (c : Char) : Int := Int.ofNat c.toNat

/-! ## Data model -/

/-- The constant `MAX_PROCESSES` (`#define MAX_PROCESSES 500`). -/
def MAX_PROCESSES : Nat := 500

/-- The record `process_info_t`.  `vsize` holds megabytes once
`get_process_list` has filled it in. -/
structure process_info_t where
  pid : Int
  command : List Char
  cpu_percent : ℚ
  mem_percent : ℚ
  vsize : Nat
deriving DecidableEq

/-- Element `processes[i]` of the table, for an `int` index; `none` when the
read falls outside the filled part of the array. -/
def processes_at (processes : List process_info_t) (i : Int) : Option process_info_t :=
  if 0 ≤ i then processes.get? i.toNat else none

/-! ## Ranking -/

/-- The comparator handed to `qsort`: CPU usage, descending. -/
def compare_cpu_usage (p1 p2 : process_info_t) : Int :=
  if p1.cpu_percent > p2.cpu_percent then -1
  else if p1.cpu_percent < p2.cpu_percent then 1
  else 0

/-! ## Terminating a process -/

/-- The two signals `kill_process` uses. -/
inductive Signal where
  | SIGTERM
  | SIGKILL
deriving DecidableEq, Repr

/-- What `kill_process` does that is visible outside the program. -/
inductive KillEvent where
  | sent (pid : Int) (sig : Signal)
  | reported_failure (pid : Int)
deriving DecidableEq, Repr

/-- The function `kill_process`; `sys_kill pid sig` is the return value of the
system call `kill(pid, sig)`. -/
def kill_process (sys_kill : Int → Signal → Int) (pid : Int) : List KillEvent :=
  if sys_kill pid Signal.SIGTERM ≠ 0 then
    if sys_kill pid Signal.SIGKILL ≠ 0 then
      [KillEvent.sent pid Signal.SIGTERM, KillEvent.sent pid Signal.SIGKILL,
        KillEvent.reported_failure pid]
    else
      [KillEvent.sent pid Signal.SIGTERM, KillEvent.sent pid Signal.SIGKILL]
  else
    [KillEvent.sent pid Signal.SIGTERM]

/-! ## The monitor: viewport -/

/-- The page size of a frame, `int display_rows = rows - 4`. -/
def display_rows_of (rows : Int) : Int := wrapInt (rows - 4)

/-- The first index shown, `(selected_row / display_rows) * display_rows` with
the truncating division of C; `none` when the division traps (divisor zero, or
`INT_MIN / -1`). -/
def start_idx (selected_row display_rows : Int) : Option Int :=
  if display_rows = 0 ∨ (selected_row = INT_MIN ∧ display_rows = -1) then none
  else some (wrapInt (wrapInt (selected_row.tdiv display_rows) * display_rows))

/-- The loop that draws the rows, started at `i`:
`for (; i < display_rows && (i + start_idx) < process_count; i++)`, each
iteration reading `processes[i + start_idx]`.  The result lists the indices
drawn.  `fuel` bounds the number of iterations; `none` when it runs out or
when an index falls outside the table. -/
def draw_loop (processes : List process_info_t) (display_rows start : Int) :
    Nat → Int → Option (List Int)
  | 0, _ => none
  | fuel + 1, i =>
    if i < display_rows ∧ wrapInt (i + start) < (processes.length : Int) then
      match processes_at processes (wrapInt (i + start)) with
      | none => none
      | some _ =>
        (draw_loop processes display_rows start fuel (wrapInt (i + 1))).map
          (fun rest => wrapInt (i + start) :: rest)
    else some []

/-- The rows drawn in one frame.  The loop body runs at most `display_rows`
times, so `display_rows + 1` steps of fuel always suffice. -/
def drawn_rows (processes : List process_info_t) (display_rows start : Int) :
    Option (List Int) :=
  draw_loop processes display_rows start (display_rows.toNat + 1) 0

/-- What one frame shows of the selection. -/
structure View where
  selected_row : Int
  process_count : Int
  start_idx : Int
  drawn : List Int
  /-- Entry named in the bottom line; `none` stands for `0 (none)`. -/
  footer : Option process_info_t
deriving DecidableEq

/-- The bottom line: `selected_row < process_count ? processes[selected_row] : none`. -/
def footer_entry (processes : List process_info_t) (selected_row : Int) :
    Option (Option process_info_t) :=
  if selected_row < (processes.length : Int) then
    match processes_at processes selected_row with
    | none => none
    | some p => some (some p)
  else some none

/-- The drawing part of one iteration of the loop of `monitor`. -/
def render (processes : List process_info_t) (rows selected_row : Int) : Option View :=
  match start_idx selected_row (display_rows_of rows) with
  | none => none
  | some start =>
    match drawn_rows processes (display_rows_of rows) start with
    | none => none
    | some drawn =>
      match footer_entry processes selected_row with
      | none => none
      | some footer =>
        some { selected_row := selected_row, process_count := processes.length,
               start_idx := start, drawn := drawn, footer := footer }

/-! ## The monitor: keyboard -/

/-- The curses key codes the monitor tests for.  Their values come from
`<ncurses.h>`, which is not part of the repository. -/
structure KeyCodes where
  KEY_UP : Int
  KEY_DOWN : Int
  KEY_HOME : Int
  KEY_END : Int
  KEY_PPAGE : Int
  KEY_NPAGE : Int
deriving DecidableEq

/-- The key codes of ncurses 6 (`0403`, `0402`, `0406`, `0550`, `0523`, `0522`). -/
def ncursesKeys : KeyCodes :=
  { KEY_UP := 259, KEY_DOWN := 258, KEY_HOME := 262, KEY_END := 360,
    KEY_PPAGE := 339, KEY_NPAGE := 338 }

/-- The codes the monitor tests for, in the order of its `if` chain. -/
def KeyCodes.chain (K : KeyCodes) : List Int :=
  [ord 'q', ord 'Q', ord 'k', ord 'K', K.KEY_UP, K.KEY_DOWN, K.KEY_HOME, K.KEY_END,
    K.KEY_PPAGE, K.KEY_NPAGE]

/-- No two tests of the `if` chain answer to the same code. -/
def KeyCodes.Distinct (K : KeyCodes) : Prop := K.chain.Nodup

instance (K : KeyCodes) : Decidable K.Distinct := by
  unfold KeyCodes.Distinct; infer_instance

/-- The navigation branches of the `if` chain (`KEY_UP` … `KEY_NPAGE`, then
`'r'` and every other key, which change nothing): the new `selected_row`. -/
def navigate (K : KeyCodes) (process_count display_rows selected_row ch : Int) : Int :=
  if ch = K.KEY_UP then
    if selected_row > 0 then wrapInt (selected_row - 1) else selected_row
  else if ch = K.KEY_DOWN then
    if selected_row < wrapInt (process_count - 1) then wrapInt (selected_row + 1)
    else selected_row
  else if ch = K.KEY_HOME then 0
  else if ch = K.KEY_END then wrapInt (process_count - 1)
  else if ch = K.KEY_PPAGE then
    if wrapInt (selected_row - display_rows) < 0 then 0
    else wrapInt (selected_row - display_rows)
  else if ch = K.KEY_NPAGE then
    if wrapInt (selected_row + display_rows) ≥ process_count then wrapInt (process_count - 1)
    else wrapInt (selected_row + display_rows)
  else selected_row

/-- Outcome of the input handling of one iteration. -/
structure InputResult where
  selected_row : Int
  /-- Whether the loop goes on (`false` after `break`). -/
  running : Bool
  /-- Arguments of the calls of `kill_process`, in order. -/
  kill_calls : List Int
deriving DecidableEq

/-- The input handling of one iteration: `ch` is the key returned by the first
`getch()`, `answer` the key returned by the `getch()` of the confirmation
prompt (read only in the kill branch). -/
def handle_input (K : KeyCodes) (processes : List process_info_t)
    (display_rows selected_row ch answer : Int) : Option InputResult :=
  if ch = ord 'q' ∨ ch = ord 'Q' then
    some { selected_row := selected_row, running := false, kill_calls := [] }
  else if ch = ord 'k' ∨ ch = ord 'K' then
    if selected_row < (processes.length : Int) then
      match processes_at processes selected_row with
      | none => none
      | some p =>
        if answer = ord 'y' ∨ answer = ord 'Y' then
          some { selected_row := selected_row, running := true, kill_calls := [p.pid] }
        else
          some { selected_row := selected_row, running := true, kill_calls := [] }
    else
      some { selected_row := selected_row, running := true, kill_calls := [] }
  else
    some { selected_row := navigate K processes.length display_rows selected_row ch,
           running := true, kill_calls := [] }

/-- The signals and messages that the input handling causes. -/
def InputResult.events (sys_kill : Int → Signal → Int) (r : InputResult) : List KillEvent :=
  r.kill_calls.flatMap (kill_process sys_kill)

/-- One iteration of the loop: the snapshot `get_process_list` delivered, the
terminal height, and the keys typed. -/
structure Frame where
  processes : List process_info_t
  rows : Int
  ch : Int
  answer : Int

/-- The loop of `monitor` over a finite sequence of iterations, from the
current `selected_row`: the views drawn, in order.  The run ends with the list
of frames or with `q`. -/
def monitor_loop (K : KeyCodes) : Int → List Frame → Option (List View)
  | _, [] => some []
  | selected_row, f :: rest =>
    match render f.processes f.rows selected_row with
    | none => none
    | some v =>
      match handle_input K f.processes (display_rows_of f.rows) selected_row f.ch f.answer with
      | none => none
      | some r =>
        if r.running then (monitor_loop K r.selected_row rest).map (fun vs => v :: vs)
        else some [v]

/-- The function `monitor` from its start (`int selected_row = 0`). -/
def monitor (K : KeyCodes) (frames : List Frame) : Option (List View) :=
  monitor_loop K 0 frames

/-- The indices `lo, lo + 1, …` below `hi`, in increasing order. -/
def index_range (lo hi : Int) : List Int :=
  (List.range (hi - lo).toNat).map (fun (k : Nat) => lo + (k : Int))

/-- A frame in the working range of the monitor: between 1 and `MAX_PROCESSES` entries and
a page size of at least one row (small enough for `selected_row + display_rows` to be an
`int`). -/
def Frame.Good (f : Frame) : Prop :=
  1 ≤ f.processes.length ∧ f.processes.length ≤ MAX_PROCESSES
    ∧ 1 ≤ display_rows_of f.rows ∧ display_rows_of f.rows ≤ INT_MAX - MAX_PROCESSES

instance (f : Frame) : Decidable f.Good := by unfold Frame.Good; infer_instance

/-- How a frame drawn with `process_count <= selected_row` treats the selection: the bottom
line names no entry (`Selected: 0 (none)`), no row drawn is the selected one, and whatever
key follows, `kill_process` is not called; the kill key leaves `selected_row` as it is and
the loop running. -/
def ShownAsNoSelection (K : KeyCodes) (v : View) (f : Frame) : Prop :=
  v.footer = none ∧ v.selected_row ∉ v.drawn
    ∧ ∀ r, handle_input K f.processes (display_rows_of f.rows) v.selected_row f.ch f.answer
          = some r →
        r.kill_calls = []
          ∧ ((f.ch = ord 'k' ∨ f.ch = ord 'K') →
              r.selected_row = v.selected_row ∧ r.running = true)

/-- How the view `w` of the next iteration follows from the view `v` drawn for the frame
`f`: `w` is drawn with the `selected_row` that the key handling of `f` left, whatever the
refresh in between delivered; if `v` was in range that value is below the count of `v`, so
`w` is in range again unless its refresh delivered fewer entries than `v` had. -/
def CarriedOver (K : KeyCodes) (v : View) (f : Frame) (w : View) : Prop :=
  ∃ r, handle_input K f.processes (display_rows_of f.rows) v.selected_row f.ch f.answer
        = some r
    ∧ w.selected_row = r.selected_row
    ∧ (v.selected_row < v.process_count → r.selected_row < v.process_count)
    ∧ (v.selected_row < v.process_count → v.process_count ≤ w.process_count →
        w.selected_row < w.process_count)

/-! ## The library function `qsort` and the ranking -/

/-- What C requires of the comparison function given to `qsort`: the sign of `cmp a b` is
opposite to that of `cmp b a`, and "not greater" is transitive. -/
def ConsistentCompar (cmp : process_info_t → process_info_t → Int) : Prop :=
  (∀ a b, cmp a b < 0 ↔ 0 < cmp b a) ∧ (∀ a b c, cmp a b ≤ 0 → cmp b c ≤ 0 → cmp a c ≤ 0)

/-- The contract of the library function `qsort` (ISO C 7.22.5.2): with a consistent
comparison function the array ends up holding the same elements in ascending order of
`cmp`.  The order of elements that compare equal is left open. -/
def QsortContract
    (qsort : (process_info_t → process_info_t → Int) → List process_info_t → List process_info_t) :
    Prop :=
  ∀ cmp, ConsistentCompar cmp → ∀ l,
    (qsort cmp l).Perm l ∧ (qsort cmp l).Pairwise (fun a b => cmp a b ≤ 0)

/-- The last statement of `get_process_list`:
`qsort(processes, *count, sizeof(process_info_t), compare_cpu_usage)`. -/
def rank_processes
    (qsort : (process_info_t → process_info_t → Int) → List process_info_t → List process_info_t)
    (processes : List process_info_t) : List process_info_t :=
  qsort compare_cpu_usage processes

/-- The merge loop of `msort_with_tmp` in the C library (glibc, `stdlib/msort.c`):
`while (n1 > 0 && n2 > 0)` the head of the first run is taken if `cmp(b1, b2) <= 0`, the
head of the second otherwise; what is left of either run follows. -/
def merge_runs (cmp : process_info_t → process_info_t → Int) :
    List process_info_t → List process_info_t → List process_info_t
  | [], b2 => b2
  | a :: b1, [] => a :: b1
  | a :: b1, b :: b2 =>
    if cmp a b ≤ 0 then a :: merge_runs cmp b1 (b :: b2) else b :: merge_runs cmp (a :: b1) b2
termination_by b1 b2 => b1.length + b2.length

/-- The function `msort_with_tmp` of glibc, which its `qsort` runs on the array: an array of
at most one element is left alone; otherwise the first `n / 2` and the remaining
`n - n / 2` elements are sorted and the two runs merged. -/
def glibc_msort (cmp : process_info_t → process_info_t → Int) (b : List process_info_t) :
    List process_info_t :=
  if h : b.length ≤ 1 then b
  else merge_runs cmp (glibc_msort cmp (b.take (b.length / 2)))
    (glibc_msort cmp (b.drop (b.length / 2)))
termination_by b.length
decreasing_by
  · simp only [List.length_take]; omega
  · simp only [List.length_drop]; omega

/-- The readings `get_process_list` takes from the system: `sysinfo_data.uptime`,
`sysinfo_data.totalram` and `sysconf(_SC_CLK_TCK)`. -/
structure SysReadings where
  uptime : Nat
  totalram : Nat
  clk_tck : Int

/-- The five values that `sscanf` stores from the text after the command:
`state`, `utime`, `stime`, `starttime`, `vsize`. -/
structure RawStat where
  state : Char
  utime : Nat
  stime : Nat
  starttime : Nat
  vsize : Nat
deriving DecidableEq, Repr

/-- The sum `total_time = utime + stime`, computed in `unsigned long`. -/
def total_time (r : RawStat) : Nat := wrapULong (r.utime + r.stime)

/-! ### Floating point -/

/-- The integer nearest to `x`, a tie going to the even one. -/
def round_half_even (x : ℚ) : Int :=
  if x - ⌊x⌋ < 1 / 2 then ⌊x⌋
  else if 1 / 2 < x - ⌊x⌋ then ⌊x⌋ + 1
  else if ⌊x⌋ % 2 = 0 then ⌊x⌋ else ⌊x⌋ + 1

/-- Rounding to `double` (IEEE 754 binary64, round to nearest, ties to even): the number
with a significand of 53 bits nearest to `x`.  With `e = Int.log 2 |x|`, that is
`2 ^ e <= |x| < 2 ^ (e + 1)`, the result is the nearest multiple of `2 ^ (e - 52)`.  The
exponent is not limited: the operands of `get_process_list` are 64-bit integers, and no
operation on them leaves the range of the normal numbers. -/
def fl (x : ℚ) : ℚ :=
  if x = 0 then 0
  else (round_half_even (x * (2 : ℚ) ^ (52 - Int.log 2 |x|)) : ℚ)
    / (2 : ℚ) ^ (52 - Int.log 2 |x|)

/-- A value of type `double`: a finite number, an infinity or a NaN.  The two zeros are not
told apart; every zero divisor in `get_process_list` is the conversion of an integer,
which is `+0`. -/
inductive Double where
  | finite (value : ℚ)
  | inf (negative : Bool)
  | nan
deriving DecidableEq

/-- The conversion of an unsigned integer to `double`. -/
def Double.of_nat (n : Nat) : Double := Double.finite (fl (n : ℚ))

/-- The conversion of a signed integer (`long`, `int`) to `double`. -/
def Double.of_int (z : Int) : Double := Double.finite (fl (z : ℚ))

/-- The quotient `x / y` of two `double` values: rounded when both are finite and `y` is
not zero; a non-zero number over zero is an infinity, zero over zero a NaN. -/
def Double.div : Double → Double → Double
  | Double.nan, _ => Double.nan
  | _, Double.nan => Double.nan
  | Double.inf _, Double.inf _ => Double.nan
  | Double.inf s, Double.finite b => Double.inf (xor s (decide (b < 0)))
  | Double.finite _, Double.inf _ => Double.finite 0
  | Double.finite a, Double.finite b =>
    if b = 0 then (if a = 0 then Double.nan else Double.inf (decide (a < 0)))
    else Double.finite (fl (a / b))

/-- The difference `x - y` of two `double` values. -/
def Double.sub : Double → Double → Double
  | Double.nan, _ => Double.nan
  | _, Double.nan => Double.nan
  | Double.inf s, Double.inf t => if s = t then Double.nan else Double.inf s
  | Double.inf s, Double.finite _ => Double.inf s
  | Double.finite _, Double.inf t => Double.inf (!t)
  | Double.finite a, Double.finite b => Double.finite (fl (a - b))

/-- The product `x * y` of two `double` values. -/
def Double.mul : Double → Double → Double
  | Double.nan, _ => Double.nan
  | _, Double.nan => Double.nan
  | Double.inf s, Double.inf t => Double.inf (xor s t)
  | Double.inf s, Double.finite b =>
    if b = 0 then Double.nan else Double.inf (xor s (decide (b < 0)))
  | Double.finite a, Double.inf t =>
    if a = 0 then Double.nan else Double.inf (xor (decide (a < 0)) t)
  | Double.finite a, Double.finite b => Double.finite (fl (a * b))

/-- The test `x > 0` on a `double`; false for a NaN. -/
def Double.gt_zero : Double → Bool
  | Double.finite a => decide (0 < a)
  | Double.inf s => !s
  | Double.nan => false

/-- The number a `double` field holds.  The fields `cpu_percent` and `mem_percent` of
`process_info_t` are these numbers: `get_process_list` stores only finite values in
`cpu_percent` (`cpu_usage_finite`), and in `mem_percent` unless `totalram` is zero
(`mem_percent_finite`); an infinity or a NaN, which has no number, is entered as 0. -/
def Double.value : Double → ℚ
  | Double.finite a => a
  | Double.inf _ => 0
  | Double.nan => 0

/-! ### The metrics -/

/-- The CPU time in seconds: `double seconds = (double)total_time / sysconf(_SC_CLK_TCK)`. -/
def seconds (sys : SysReadings) (r : RawStat) : Double :=
  Double.div (Double.of_nat (total_time r)) (Double.of_int sys.clk_tck)

/-- The age of the process:
`double process_uptime = seconds_since_boot - ((double)starttime / sysconf(_SC_CLK_TCK))`. -/
def process_uptime (sys : SysReadings) (r : RawStat) : Double :=
  Double.sub (Double.of_nat sys.uptime)
    (Double.div (Double.of_nat r.starttime) (Double.of_int sys.clk_tck))

/-- The variable `cpu_usage`: initially 0, and `100 * (seconds / process_uptime)` if
`process_uptime > 0`. -/
def cpu_usage (sys : SysReadings) (r : RawStat) : Double :=
  if (process_uptime sys r).gt_zero then
    Double.mul (Double.of_int 100) (Double.div (seconds sys r) (process_uptime sys r))
  else Double.of_int 0

/-- The memory share: `double mem_percent = ((double)vsize / (sysinfo_data.totalram)) * 100.0`. -/
def mem_percent (sys : SysReadings) (r : RawStat) : Double :=
  Double.mul (Double.div (Double.of_nat r.vsize) (Double.of_nat sys.totalram))
    (Double.finite 100)

/-- The entry `get_process_list` stores for a process ("Save process info"); `cmd_buf` is
copied with `strncpy` into the 256 byte field `command`. -/
def make_entry (sys : SysReadings) (pid : Int) (cmd_buf : List Char) (r : RawStat) :
    process_info_t :=
  { pid := pid
    command := cmd_buf.take 255
    cpu_percent := (cpu_usage sys r).value
    mem_percent := (mem_percent sys r).value
    vsize := r.vsize / (1024 * 1024) }

/-- The CPU share in the words of the specification, read in `double` arithmetic: the CPU
seconds `(utime + stime) / clk` over the age `uptime - starttime / clk`, times 100, every
conversion and every operation rounded; 0 when the rounded age is not positive. -/
def rounded_cpu_percent (utime stime starttime uptime : Nat) (clk : Int) : ℚ :=
  if 0 < fl (fl (uptime : ℚ) - fl (fl (starttime : ℚ) / fl (clk : ℚ))) then
    fl (100 * fl (fl (fl ((wrapULong (utime + stime) : Nat) : ℚ) / fl (clk : ℚ))
      / fl (fl (uptime : ℚ) - fl (fl (starttime : ℚ) / fl (clk : ℚ)))))
  else 0

/-- No conversion and no operation in the computation of the CPU share rounds: the four
integers, the two quotients by `clk`, the age, the quotient of seconds by age and its
hundredfold are numbers of type `double`. -/
def NoRounding (utime stime starttime uptime : Nat) (clk : Int) : Prop :=
  fl ((utime : ℚ) + (stime : ℚ)) = (utime : ℚ) + (stime : ℚ)
    ∧ fl (clk : ℚ) = (clk : ℚ) ∧ fl (uptime : ℚ) = (uptime : ℚ)
    ∧ fl (starttime : ℚ) = (starttime : ℚ)
    ∧ fl ((starttime : ℚ) / (clk : ℚ)) = (starttime : ℚ) / (clk : ℚ)
    ∧ fl ((uptime : ℚ) - (starttime : ℚ) / (clk : ℚ)) = (uptime : ℚ) - (starttime : ℚ) / (clk : ℚ)
    ∧ fl (((utime : ℚ) + (stime : ℚ)) / (clk : ℚ)) = ((utime : ℚ) + (stime : ℚ)) / (clk : ℚ)
    ∧ fl (((utime : ℚ) + (stime : ℚ)) / (clk : ℚ)
          / ((uptime : ℚ) - (starttime : ℚ) / (clk : ℚ)))
        = ((utime : ℚ) + (stime : ℚ)) / (clk : ℚ) / ((uptime : ℚ) - (starttime : ℚ) / (clk : ℚ))
    ∧ fl (100 * (((utime : ℚ) + (stime : ℚ)) / (clk : ℚ)
          / ((uptime : ℚ) - (starttime : ℚ) / (clk : ℚ))))
        = 100 * (((utime : ℚ) + (stime : ℚ)) / (clk : ℚ)
          / ((uptime : ℚ) - (starttime : ℚ) / (clk : ℚ)))

/-- A value as `printf("%.1f")` shows it: rounded to one decimal. -/
def round_tenths (x : ℚ) : ℚ := (⌊x * 10 + 1 / 2⌋ : Int) / 10

/-- The scenario of the memory metric: 8000 MB of RAM (`8000 * 1024 * 1024` bytes). -/
def ram_8000_mb : SysReadings := { uptime := 1000, totalram := 8000 * 1024 * 1024, clk_tck := 100 }

/-- The same scenario with decimal megabytes (`8000 * 1000 * 1000` bytes). -/
def ram_8000_decimal_mb : SysReadings :=
  { uptime := 1000, totalram := 8000 * 1000 * 1000, clk_tck := 100 }

/-- A process with `vsize = 4_000_000_000` bytes. -/
def four_gb_process : RawStat :=
  { state := 'S', utime := 120, stime := 30, starttime := 5000, vsize := 4000000000 }

/-! ## C strings and the C library -/

/-- The terminator of a C string. -/
def NUL : Char := Char.ofNat 0

/-- The C string stored in a `char` array from offset `i` on: the bytes up to the first NUL.
A read beyond the terminator of one string yields whatever the array held before. -/
def cstrAt (buf : List Char) (i : Nat) : List Char :=
  (buf.drop i).takeWhile (fun c => c ≠ NUL)

/-- The function `isdigit` of `<ctype.h>`. -/
def isdigit (c : Char) : Bool := '0' ≤ c && c ≤ '9'

/-- The function `isspace` of `<ctype.h>` (C locale). -/
def isspace (c : Char) : Bool :=
  c = ' ' || c = '\t' || c = '\n' || c = Char.ofNat 11 || c = Char.ofNat 12 || c = '\r'

/-- Offset of the first occurrence of `c` in the string: `strchr`. -/
def strchr : List Char → Char → Option Nat
  | [], _ => none
  | x :: xs, c => if x = c then some 0 else (strchr xs c).map (fun i => i + 1)

/-- Offset of the last occurrence of `c` in the string: `strrchr`. -/
def strrchr : List Char → Char → Option Nat
  | [], _ => none
  | x :: xs, c =>
    match strrchr xs c with
    | some i => some (i + 1)
    | none => if x = c then some 0 else none

/-- The value of a run of decimal digits. -/
def decimal_value (digits : List Char) : Nat :=
  digits.foldl (fun acc c => acc * 10 + (c.toNat - '0'.toNat)) 0

/-- Largest value of `long`. -/
def LONG_MAX : Int := 2 ^ 63 - 1

/-- Smallest value of `long`. -/
def LONG_MIN : Int := - 2 ^ 63

/-- The function `strtol(s, NULL, 10)`: leading white space, an optional sign, then digits;
a value outside `long` is replaced by `LONG_MAX` or `LONG_MIN`. -/
def strtol (s : List Char) : Int :=
  match s.dropWhile isspace with
  | '-' :: rest => max LONG_MIN (- (decimal_value (rest.takeWhile isdigit) : Int))
  | '+' :: rest => min LONG_MAX (decimal_value (rest.takeWhile isdigit))
  | rest => min LONG_MAX (decimal_value (rest.takeWhile isdigit))

/-- The function `atoi`, which is `(int) strtol(s, NULL, 10)`: the `long` is cut down to
the 32 bits of an `int`. -/
def atoi (s : List Char) : Int := wrapInt (strtol s)

/-- The bytes one call of `fgets` takes from the stream: at most `n`, stopping after the
first newline. -/
def read_line : Nat → List Char → List Char
  | 0, _ => []
  | _ + 1, [] => []
  | n + 1, c :: cs => if c = '\n' then [c] else c :: read_line n cs

/-- The function `fgets(buf, size, stream)` on a freshly opened file with contents
`stream`: the array afterwards, or `none` when `fgets` returns `NULL` (nothing to read). -/
def fgets (buf : List Char) (size : Nat) (stream : List Char) : Option (List Char) :=
  if stream = [] then none
  else
    some (read_line (size - 1) stream ++ NUL :: buf.drop ((read_line (size - 1) stream).length + 1))

/-! ### `sscanf` -/

/-- The conversion specifiers that occur in the program. -/
inductive Conv where
  | c
  | d
  | u
  | lu
  | llu
deriving DecidableEq, Repr

/-- A directive of a `scanf` format: white space, or a conversion, with
`assign = false` for the assignment-suppressing `*`. -/
inductive Directive where
  | white
  | conv (assign : Bool) (spec : Conv)
deriving DecidableEq, Repr

/-- Reads a format string into its directives; `none` for a format outside the fragment
modelled here. -/
def read_format : List Char → Option (List Directive)
  | [] => some []
  | '%' :: '*' :: 'c' :: rest => (read_format rest).map (fun ds => Directive.conv false Conv.c :: ds)
  | '%' :: '*' :: 'd' :: rest => (read_format rest).map (fun ds => Directive.conv false Conv.d :: ds)
  | '%' :: '*' :: 'u' :: rest => (read_format rest).map (fun ds => Directive.conv false Conv.u :: ds)
  | '%' :: 'l' :: 'l' :: 'u' :: rest =>
    (read_format rest).map (fun ds => Directive.conv true Conv.llu :: ds)
  | '%' :: 'l' :: 'u' :: rest => (read_format rest).map (fun ds => Directive.conv true Conv.lu :: ds)
  | '%' :: 'c' :: rest => (read_format rest).map (fun ds => Directive.conv true Conv.c :: ds)
  | '%' :: 'd' :: rest => (read_format rest).map (fun ds => Directive.conv true Conv.d :: ds)
  | '%' :: 'u' :: rest => (read_format rest).map (fun ds => Directive.conv true Conv.u :: ds)
  | ' ' :: rest => (read_format rest).map (fun ds => Directive.white :: ds)
  | _ :: _ => none

/-- A value stored through a pointer argument of `sscanf`. -/
inductive ScanValue where
  | chr (c : Char)
  | num (n : Nat)
deriving DecidableEq, Repr

/-- The macro `EOF`. -/
def EOF : Int := -1

/-- The subject sequence of an integer conversion (as for `strtol` and `strtoul` in base
10): an optional sign and a non-empty run of digits.  Returns whether the sign is `-`, the
digits, and the input that is left; `none` is a matching failure. -/
def scan_int (input : List Char) : Option (Bool × List Char × List Char) :=
  match input with
  | '-' :: rest =>
    if rest.takeWhile isdigit = [] then none
    else some (true, rest.takeWhile isdigit, rest.dropWhile isdigit)
  | '+' :: rest =>
    if rest.takeWhile isdigit = [] then none
    else some (false, rest.takeWhile isdigit, rest.dropWhile isdigit)
  | _ =>
    if input.takeWhile isdigit = [] then none
    else some (false, input.takeWhile isdigit, input.dropWhile isdigit)

/-- The number an unsigned 64 bit conversion stores (`strtoul`): the value saturates at
`ULONG_MAX`, and a minus sign negates it modulo `2 ^ 64`. -/
def unsigned_value (negative : Bool) (digits : List Char) : Nat :=
  if decimal_value digits > ULONG_MAX then ULONG_MAX
  else if negative then wrapULong (ULONG_MAX + 1 - decimal_value digits)
  else decimal_value digits

/-- The number a conversion stores.  Only the unsigned 64 bit conversions store a number in
this program; the signed ones are always suppressed. -/
def stored_number (spec : Conv) (negative : Bool) (digits : List Char) : Nat :=
  match spec with
  | Conv.d => decimal_value digits
  | _ => unsigned_value negative digits

/-- The function `sscanf` running over the directives that are left: `converted` tells
whether a conversion has been completed, `vals` holds the values stored so far.  Returns
the return value of `sscanf` and the values stored. -/
def sscanf_go : List Directive → List Char → Bool → List ScanValue → Int × List ScanValue
  | [], _, _, vals => (vals.length, vals)
  | Directive.white :: ds, input, converted, vals =>
    sscanf_go ds (input.dropWhile isspace) converted vals
  | Directive.conv assign Conv.c :: ds, input, converted, vals =>
    match input with
    | [] => (if converted then (vals.length : Int) else EOF, vals)
    | c :: rest => sscanf_go ds rest true (if assign then vals ++ [ScanValue.chr c] else vals)
  | Directive.conv assign spec :: ds, input, converted, vals =>
    match input.dropWhile isspace with
    | [] => (if converted then (vals.length : Int) else EOF, vals)
    | c :: rest =>
      match scan_int (c :: rest) with
      | none => (vals.length, vals)
      | some (negative, digits, left) =>
        sscanf_go ds left true
          (if assign then vals ++ [ScanValue.num (stored_number spec negative digits)] else vals)

/-- The function `sscanf(input, format, …)`: its return value and the values it stores.
(A format outside the fragment of `read_format` would count as empty; none occurs.) -/
def sscanf (input : List Char) (format : String) : Int × List ScanValue :=
  sscanf_go ((read_format format.toList).getD []) input false []

/-- Whether a stored value is a character. -/
def ScanValue.is_chr : ScanValue → Bool
  | ScanValue.chr _ => true
  | ScanValue.num _ => false

/-- For each assigning conversion of a format, whether it stores a character. -/
def assigned_kinds : List Directive → List Bool
  | [] => []
  | Directive.white :: ds => assigned_kinds ds
  | Directive.conv true spec :: ds => decide (spec = Conv.c) :: assigned_kinds ds
  | Directive.conv false _ :: ds => assigned_kinds ds

/-! ## Reading `/proc` -/

/-- The format with which `get_process_list` reads the text after the command. -/
def stat_format : String :=
  "%c %*d %*d %*d %*d %*d %*u %*u %*u %*u %*u %lu %lu %*d %*d %*d %*d %*d %*d %llu %lu"

/-- The reading of the stat line held in the array `stat_line`: `cmd_start` is the first
`(`, `cmd_end` the last `)`, and if `cmd_start && cmd_end && cmd_end > cmd_start` the text
from `cmd_end + 2` on goes through `sscanf`.  Returns `items_after` and the values stored,
or `none` when the test fails.  (The call `sscanf(stat_line, "%*d", &pid)` before it
stores nothing.) -/
def parse_stat_line (stat_line : List Char) : Option (Int × List ScanValue) :=
  match strchr (cstrAt stat_line 0) '(', strrchr (cstrAt stat_line 0) ')' with
  | some cmd_start, some cmd_end =>
    if cmd_end > cmd_start then some (sscanf (cstrAt stat_line (cmd_end + 2)) stat_format)
    else none
  | _, _ => none

/-- The variables `state`, `utime`, `stime`, `starttime`, `vsize` after a call of `sscanf`
that stored all five. -/
def raw_stat_of (vals : List ScanValue) : Option RawStat :=
  match vals with
  | [ScanValue.chr state, ScanValue.num utime, ScanValue.num stime, ScanValue.num starttime,
      ScanValue.num vsize] =>
    some { state := state, utime := utime, stime := stime, starttime := starttime,
           vsize := vsize }
  | _ => none

/-- One entry of the directory `/proc` as `get_process_list` meets it: its name, the
contents of the files `comm` and `stat` of that process (`none` when `fopen` fails), and
what the arrays `cmd_buf` and `stat_line` hold when the iteration begins. -/
structure ProcEntry where
  d_name : List Char
  comm : Option (List Char)
  stat : Option (List Char)
  cmd_buf : List Char
  stat_line : List Char

/-- The array `cmd_buf` after the "Get command name" block: the line read from `comm`
with its newline replaced by NUL, or `unknown` when the file cannot be opened; when the
file is empty the array is left as it was. -/
def read_command (e : ProcEntry) : List Char :=
  match e.comm with
  | some stream =>
    match fgets e.cmd_buf 256 stream with
    | some buf =>
      if (cstrAt buf 0).length > 0 ∧ buf.get? ((cstrAt buf 0).length - 1) = some '\n' then
        buf.set ((cstrAt buf 0).length - 1) NUL
      else buf
    | none => e.cmd_buf
  | none => "unknown".toList ++ NUL :: e.cmd_buf.drop 8

/-- The array `stat_line` after `fgets(stat_line, sizeof(stat_line), stat_file)`, when the
file could be opened and a line was read. -/
def read_stat_line (e : ProcEntry) : Option (List Char) :=
  match e.stat with
  | some stream => fgets e.stat_line 1024 stream
  | none => none

/-- The body of the `while` loop of `get_process_list` for one directory entry: the table
afterwards (`*count` is its length). -/
def scan_entry (sys : SysReadings) (e : ProcEntry) (processes : List process_info_t) :
    List process_info_t :=
  if (e.d_name.head?.map isdigit) = some true then
    match read_stat_line e with
    | some stat_line =>
      match parse_stat_line stat_line with
      | some (items_after, vals) =>
        if items_after = 5 then
          match raw_stat_of vals with
          | some r =>
            processes ++ [make_entry sys (atoi e.d_name) (cstrAt (read_command e) 0) r]
          | none => processes
        else processes
      | none => processes
    | none => processes
  else processes

/-- The loop `while ((entry = readdir(proc_dir)) != NULL && *count < max_count)`. -/
def scan_proc (sys : SysReadings) (max_count : Int) :
    List ProcEntry → List process_info_t → List process_info_t
  | [], processes => processes
  | e :: rest, processes =>
    if (processes.length : Int) < max_count then
      scan_proc sys max_count rest (scan_entry sys e processes)
    else processes

/-- What `get_process_list` finds: the result of `sysinfo` (with the clock rate), `none`
when it fails, and the entries of `/proc`, `none` when `opendir` fails. -/
structure ProcFs where
  sysinfo : Option SysReadings
  proc_dir : Option (List ProcEntry)

/-- The function `get_process_list(processes, count, max_count)`: the table afterwards,
given the table before. -/
def get_process_list
    (qsort : (process_info_t → process_info_t → Int) → List process_info_t → List process_info_t)
    (fs : ProcFs) (processes : List process_info_t) (max_count : Int) : List process_info_t :=
  match fs.sysinfo with
  | none => processes
  | some sys =>
    match fs.proc_dir with
    | none => []
    | some entries => rank_processes qsort (scan_proc sys max_count entries [])

/-! ## The shape of a stat line -/

/-- A non-empty run of decimal digits. -/
def is_digits (s : List Char) : Bool := !s.isEmpty && s.all isdigit

/-- A decimal integer as the kernel prints it: digits, possibly after a sign. -/
def is_int_token (s : List Char) : Bool :=
  match s with
  | '-' :: ds => is_digits ds
  | '+' :: ds => is_digits ds
  | _ => is_digits s

/-- A stat line `<pid> (<cmd>) <state> <f4> … <f23><rest>` with single spaces between the
fields; `fields` lists `f4`, `f5`, … in order. -/
def stat_text (pid cmd : List Char) (state : Char) (fields : List (List Char))
    (rest : List Char) : List Char :=
  pid ++ ' ' :: '(' :: (cmd ++ ')' :: ' ' :: state :: (fields.flatMap (fun f => ' ' :: f) ++ rest))

/-- The text strictly between offsets `i` and `j` of a string. -/
def text_between (s : List Char) (i j : Nat) : List Char := (s.drop (i + 1)).take (j - (i + 1))

/-- The input does not go on with a digit. -/
def NoDigitHead (l : List Char) : Prop := ∀ c, l.head? = some c → isdigit c = false

/-- The array `stat_line` holding a stat line and, after its terminator, older bytes. -/
def stat_buffer (pid cmd : List Char) (state : Char) (fields : List (List Char))
    (rest junk : List Char) : List Char :=
  stat_text pid cmd state fields rest ++ NUL :: junk

/-! ## Sample data -/

/-- A snapshot of three entries, two of them with the same CPU usage. -/
def three : List process_info_t :=
  [⟨100, "init".toList, 5/2, 1, 10⟩, ⟨200, "sh".toList, 25/2, 2, 20⟩,
    ⟨300, "top".toList, 25/2, 3, 30⟩]

/-- A snapshot of ten entries. -/
def ten : List process_info_t :=
  (List.range 10).map (fun (i : Nat) => ⟨1000 + (i : Int), "worker".toList, 0, 0, 0⟩)

/-- Two iterations: `End` is pressed on a list of ten entries, then the next refresh
delivers only five. -/
def shrinking_run : List Frame :=
  [ { processes := ten, rows := 24, ch := ncursesKeys.KEY_END, answer := 0 },
    { processes := ten.take 5, rows := 24, ch := -1, answer := 0 } ]

/-- Three iterations in which the list only grows: `End`, then `Page Down`, then no key. -/
def growing_run : List Frame :=
  [ { processes := three, rows := 6, ch := ncursesKeys.KEY_END, answer := 0 },
    { processes := ten, rows := 6, ch := ncursesKeys.KEY_NPAGE, answer := 0 },
    { processes := ten, rows := 6, ch := -1, answer := 0 } ]

/-- An environment in which `SIGTERM` is refused and `SIGKILL` succeeds. -/
def sigterm_refused (_ : Int) (sig : Signal) : Int :=
  match sig with
  | Signal.SIGTERM => -1
  | Signal.SIGKILL => 0

/-- A stat line as the kernel writes it, for a process named `my (weird) app`. -/
def kernel_line : List Char :=
  ("1234 (my (weird) app) S 1 1234 1234 0 -1 4194304 100 0 0 0 12 34 0 0 20 0 1 0 5000 "
    ++ "4000000000 300 184467\n").toList

/-- A directory entry whose stat line has no parentheses. -/
def no_paren_entry : ProcEntry :=
  { d_name := "45".toList, comm := some "sh\n".toList, stat := some "45 sh S 1 45 45\n".toList,
    cmd_buf := [], stat_line := [] }

/-- One iteration on a terminal four lines high. -/
def four_line_terminal : List Frame :=
  [ { processes := three, rows := 4, ch := -1, answer := 0 } ]

/-- Two iterations on a terminal three lines high: `Page Down`, then no key. -/
def three_line_terminal : List Frame :=
  [ { processes := three, rows := 3, ch := ncursesKeys.KEY_NPAGE, answer := 0 },
    { processes := three, rows := 3, ch := -1, answer := 0 } ]

/-- The stat line of process 41: `utime = 100`, `stime = 25`, `starttime = 99000`. -/
def shell_entry : ProcEntry :=
  { d_name := "41".toList, comm := some "sh\n".toList,
    stat := some ("41 (sh) S 1 41 41 0 -1 4194304 100 0 0 0 100 25 0 0 20 0 1 0 99000 "
      ++ "1048576 300 184467\n").toList,
    cmd_buf := [], stat_line := [] }

/-- The stat line of process 42: `utime = 500`, `stime = 0`, `starttime = 99000`. -/
def compiler_entry : ProcEntry :=
  { d_name := "42".toList, comm := some "cc\n".toList,
    stat := some ("42 (cc) R 41 42 41 0 -1 4194304 100 0 0 0 500 0 0 0 20 0 1 0 99000 "
      ++ "2097152 300 184467\n").toList,
    cmd_buf := [], stat_line := [] }

/-- The stat line of process 43: `utime = 50`, `stime = 75`, `starttime = 99000`. -/
def top_entry : ProcEntry :=
  { d_name := "43".toList, comm := some "top\n".toList,
    stat := some ("43 (top) S 41 43 41 0 -1 4194304 100 0 0 0 50 75 0 0 20 0 1 0 99000 "
      ++ "3145728 300 184467\n").toList,
    cmd_buf := [], stat_line := [] }

/-- The stat line of process 44, which has used no CPU time. -/
def idle_entry : ProcEntry :=
  { d_name := "44".toList, comm := some "init\n".toList,
    stat := some ("44 (init) S 0 44 44 0 -1 4194304 100 0 0 0 0 0 0 0 20 0 1 0 0 "
      ++ "4194304 300 184467\n").toList,
    cmd_buf := [], stat_line := [] }

/-- The entries of a `/proc` with five processes, the second of them malformed. -/
def busy_dir : List ProcEntry :=
  [shell_entry, no_paren_entry, compiler_entry, top_entry, idle_entry]

/-- That `/proc`, read at an uptime of 1000 s with 100 clock ticks per second. -/
def busy_fs : ProcFs := { sysinfo := some ram_8000_mb, proc_dir := some busy_dir }

/-- The values `sscanf` stores for process 41. -/
def shell_raw : RawStat :=
  { state := 'S', utime := 100, stime := 25, starttime := 99000, vsize := 1048576 }

/-- The values `sscanf` stores for process 42. -/
def compiler_raw : RawStat :=
  { state := 'R', utime := 500, stime := 0, starttime := 99000, vsize := 2097152 }

/-- The values `sscanf` stores for process 43. -/
def top_raw : RawStat :=
  { state := 'S', utime := 50, stime := 75, starttime := 99000, vsize := 3145728 }

/-- The values `sscanf` stores for process 44. -/
def idle_raw : RawStat :=
  { state := 'S', utime := 0, stime := 0, starttime := 0, vsize := 4194304 }

/-- The table entry of process 41 (`cpu_percent = 12.5`). -/
def shell_process : process_info_t := make_entry ram_8000_mb 41 "sh".toList shell_raw

/-- The table entry of process 42 (`cpu_percent = 50`). -/
def compiler_process : process_info_t := make_entry ram_8000_mb 42 "cc".toList compiler_raw

/-- The table entry of process 43 (`cpu_percent = 12.5`). -/
def top_process : process_info_t := make_entry ram_8000_mb 43 "top".toList top_raw

/-- The table entry of process 44 (`cpu_percent = 0`). -/
def idle_process : process_info_t := make_entry ram_8000_mb 44 "init".toList idle_raw

/-- Readings after 3 s of uptime. -/
def three_seconds_up : SysReadings := { uptime := 3, totalram := 1024, clk_tck := 100 }

/-- A process started at boot that has used one clock tick. -/
def one_tick : RawStat := { state := 'R', utime := 1, stime := 0, starttime := 0, vsize := 0 }

/-- Readings after 2 s of uptime. -/
def two_seconds_up : SysReadings := { uptime := 2, totalram := 1024, clk_tck := 100 }

/-- A process started 1 s after boot that has used 3 s of CPU time on several cores. -/
def three_cores : RawStat :=
  { state := 'R', utime := 200, stime := 100, starttime := 100, vsize := 0 }

/-- Readings after 50 s of uptime. -/
def fifty_seconds_up : SysReadings := { uptime := 50, totalram := 1024, clk_tck := 100 }

/-- A process started in the same second in which the uptime is read. -/
def just_started : RawStat :=
  { state := 'R', utime := 100, stime := 50, starttime := 5000, vsize := 0 }

/-! # Theorems -/

/-! ## Machine integers -/

theorem wrapInt_of_range {x : Int} (h1 : INT_MIN ≤ x) (h2 : x ≤ INT_MAX) : wrapInt x = x := by
  unfold wrapInt; unfold INT_MIN at h1; unfold INT_MAX at h2; omega

theorem wrapInt_range (x : Int) : INT_MIN ≤ wrapInt x ∧ wrapInt x ≤ INT_MAX := by
  unfold wrapInt INT_MIN INT_MAX; omega

theorem processes_at_of_range (processes : List process_info_t) (i : Int)
    (h0 : 0 ≤ i) (h1 : i < processes.length) :
    ∃ p, processes_at processes i = some p := by
  have h : i.toNat < processes.length := by omega
  exact ⟨processes.get ⟨i.toNat, h⟩, by simp [processes_at, h0, List.get?_eq_get h]⟩

/-! ## Navigation keys -/

theorem handle_input_navigate (K : KeyCodes) (processes : List process_info_t)
    (display_rows selected_row ch answer : Int)
    (hq : ¬ (ch = ord 'q' ∨ ch = ord 'Q')) (hk : ¬ (ch = ord 'k' ∨ ch = ord 'K')) :
    handle_input K processes display_rows selected_row ch answer
      = some { selected_row := navigate K processes.length display_rows selected_row ch,
               running := true, kill_calls := [] } := by
  simp only [handle_input, hq, hk, if_false]

theorem navigate_spec (K : KeyCodes) (hK : K.Distinct)
    (count display_rows selected_row : Int)
    (hcount : 0 < count) (hcmax : count ≤ INT_MAX)
    (hrows : 1 ≤ display_rows) (hsel : 0 ≤ selected_row ∧ selected_row < count)
    (hsum : selected_row + display_rows ≤ INT_MAX) :
    navigate K count display_rows selected_row K.KEY_UP = max (selected_row - 1) 0
    ∧ navigate K count display_rows selected_row K.KEY_DOWN = min (selected_row + 1) (count - 1)
    ∧ navigate K count display_rows selected_row K.KEY_HOME = 0
    ∧ navigate K count display_rows selected_row K.KEY_END = count - 1
    ∧ navigate K count display_rows selected_row K.KEY_PPAGE = max (selected_row - display_rows) 0
    ∧ navigate K count display_rows selected_row K.KEY_NPAGE
        = min (selected_row + display_rows) (count - 1) := by
  simp only [KeyCodes.Distinct, KeyCodes.chain, List.nodup_cons, List.mem_cons, List.mem_singleton,
    not_or, List.not_mem_nil, not_false_eq_true, List.nodup_nil, and_true] at hK
  obtain ⟨-, -, -, -, ⟨e1, e2, e3, e4, e5⟩, ⟨f1, f2, f3, f4⟩, ⟨g1, g2, g3⟩, ⟨i1, i2⟩, j1⟩ := hK
  unfold INT_MAX at hcmax hsum
  obtain ⟨hsel0, hsel1⟩ := hsel
  have s : ∀ {a b : Int}, ¬ a = b → ¬ b = a := fun h h' => h h'.symm
  have w : ∀ x : Int, -2147483648 ≤ x → x ≤ 2147483647 → wrapInt x = x := by
    intro x h1 h2; unfold wrapInt; omega
  have w1 := w (selected_row - 1) (by omega) (by omega)
  have w2 := w (selected_row + 1) (by omega) (by omega)
  have w3 := w (count - 1) (by omega) (by omega)
  have w4 := w (selected_row - display_rows) (by omega) (by omega)
  have w5 := w (selected_row + display_rows) (by omega) (by omega)
  refine ⟨?_, ?_, ?_, ?_, ?_, ?_⟩
  · simp only [navigate, if_true, w1]
    split_ifs <;> omega
  · simp only [navigate, s e1, if_true, if_false, w2, w3]
    split_ifs <;> omega
  · simp only [navigate, s e2, s f1, if_true, if_false]
  · simp only [navigate, s e3, s f2, s g1, if_true, if_false, w3]
  · simp only [navigate, s e4, s f3, s g2, s i1, if_true, if_false, w4]
    split_ifs <;> omega
  · simp only [navigate, s e5, s f4, s g3, s i2, s j1, if_true, if_false, w5, w3]
    split_ifs <;> omega

theorem nav_key_not_quit_or_kill (K : KeyCodes) (hK : K.Distinct) (ch : Int)
    (hch : ch ∈ [K.KEY_UP, K.KEY_DOWN, K.KEY_HOME, K.KEY_END, K.KEY_PPAGE, K.KEY_NPAGE]) :
    ¬ (ch = ord 'q' ∨ ch = ord 'Q') ∧ ¬ (ch = ord 'k' ∨ ch = ord 'K') := by
  simp only [KeyCodes.Distinct, KeyCodes.chain, List.nodup_cons, List.mem_cons, List.mem_singleton,
    not_or, List.not_mem_nil, not_false_eq_true, List.nodup_nil, and_true] at hK
  obtain ⟨⟨-, -, -, a⟩, ⟨-, -, b⟩, ⟨-, c⟩, d, -⟩ := hK
  simp only [List.mem_cons, List.mem_singleton, List.not_mem_nil, or_false] at hch
  have s : ∀ {a b : Int}, ¬ a = b → ¬ b = a := fun h h' => h h'.symm
  rcases hch with rfl | rfl | rfl | rfl | rfl | rfl <;>
    simp only [not_or, s a.1, s a.2.1, s a.2.2.1, s a.2.2.2.1, s a.2.2.2.2.1, s a.2.2.2.2.2,
      s b.1, s b.2.1, s b.2.2.1, s b.2.2.2.1, s b.2.2.2.2.1, s b.2.2.2.2.2,
      s c.1, s c.2.1, s c.2.2.1, s c.2.2.2.1, s c.2.2.2.2.1, s c.2.2.2.2.2,
      s d.1, s d.2.1, s d.2.2.1, s d.2.2.2.1, s d.2.2.2.2.1, s d.2.2.2.2.2,
      not_false_eq_true, and_self]

/-- C1: with `count > 0`, a page size `display_rows >= 1` and `0 <= selected_row < count`
(all of them `int` values whose sum `selected_row + display_rows` is an `int`), each
navigation key leaves the loop running with a selection that is again in `[0, count)`:
up and down move by one and saturate, home gives `0`, end gives `count - 1`, page up and
page down move by `display_rows` and saturate at `0` and `count - 1`. -/
theorem navigation_keeps_selection_in_range (K : KeyCodes) (hK : K.Distinct)
    (processes : List process_info_t) (display_rows selected_row answer : Int)
    (hcount : 0 < (processes.length : Int)) (hcmax : (processes.length : Int) ≤ INT_MAX)
    (hrows : 1 ≤ display_rows) (hsel : 0 ≤ selected_row ∧ selected_row < processes.length)
    (hsum : selected_row + display_rows ≤ INT_MAX) :
    ∀ ch v, (ch, v) ∈
        [(K.KEY_UP, max (selected_row - 1) 0),
         (K.KEY_DOWN, min (selected_row + 1) ((processes.length : Int) - 1)),
         (K.KEY_HOME, 0),
         (K.KEY_END, (processes.length : Int) - 1),
         (K.KEY_PPAGE, max (selected_row - display_rows) 0),
         (K.KEY_NPAGE, min (selected_row + display_rows) ((processes.length : Int) - 1))] →
      handle_input K processes display_rows selected_row ch answer
          = some { selected_row := v, running := true, kill_calls := [] }
        ∧ 0 ≤ v ∧ v < processes.length := by
  intro ch v hmem
  obtain ⟨n1, n2, n3, n4, n5, n6⟩ :=
    navigate_spec K hK processes.length display_rows selected_row hcount hcmax hrows hsel hsum
  have hnav : ch ∈ [K.KEY_UP, K.KEY_DOWN, K.KEY_HOME, K.KEY_END, K.KEY_PPAGE, K.KEY_NPAGE] := by
    simp only [List.mem_cons, Prod.mk.injEq, List.mem_singleton, List.not_mem_nil,
      or_false] at hmem ⊢
    rcases hmem with h | h | h | h | h | h <;> simp [h.1]
  obtain ⟨hq, hk⟩ := nav_key_not_quit_or_kill K hK ch hnav
  rw [handle_input_navigate K processes display_rows selected_row ch answer hq hk]
  simp only [List.mem_cons, Prod.mk.injEq, List.mem_singleton, List.not_mem_nil,
    or_false] at hmem
  obtain ⟨hsel0, hsel1⟩ := hsel
  rcases hmem with ⟨rfl, rfl⟩ | ⟨rfl, rfl⟩ | ⟨rfl, rfl⟩ | ⟨rfl, rfl⟩ | ⟨rfl, rfl⟩ | ⟨rfl, rfl⟩
  · exact ⟨by rw [n1], by omega, by omega⟩
  · exact ⟨by rw [n2], by omega, by omega⟩
  · exact ⟨by rw [n3], by omega, by omega⟩
  · exact ⟨by rw [n4], by omega, by omega⟩
  · exact ⟨by rw [n5], by omega, by omega⟩
  · exact ⟨by rw [n6], by omega, by omega⟩

theorem navigation_keeps_selection_in_range_witness :
    handle_input ncursesKeys three 2 1 ncursesKeys.KEY_NPAGE 0
        = some { selected_row := 2, running := true, kill_calls := [] }
      ∧ (0 : Int) ≤ 2 ∧ (2 : Int) < (three.length : Int) :=
  navigation_keeps_selection_in_range ncursesKeys (by decide) three 2 1 0 (by decide)
    (by decide) (by decide) (by decide) (by decide) ncursesKeys.KEY_NPAGE 2 (by decide)

/-! ## Viewport -/

theorem mem_index_range (lo hi idx : Int) : idx ∈ index_range lo hi ↔ lo ≤ idx ∧ idx < hi := by
  simp only [index_range, List.mem_map, List.mem_range]
  constructor
  · rintro ⟨k, hk, rfl⟩
    omega
  · rintro ⟨h1, h2⟩
    refine ⟨(idx - lo).toNat, ?_, ?_⟩
    all_goals omega

theorem index_range_empty (lo hi : Int) (h : hi ≤ lo) : index_range lo hi = [] := by
  have : (hi - lo).toNat = 0 := by omega
  simp [index_range, this]

theorem index_range_cons (lo hi : Int) (h : lo < hi) :
    index_range lo hi = lo :: index_range (lo + 1) hi := by
  have : (hi - lo).toNat = (hi - (lo + 1)).toNat + 1 := by omega
  simp only [index_range, this, List.range_succ_eq_map, List.map_cons, List.map_map]
  simp only [Nat.cast_zero, add_zero, List.cons.injEq, true_and]
  apply List.map_congr_left
  intro k _
  simp only [Function.comp, Nat.cast_succ]
  omega

theorem draw_loop_spec (processes : List process_info_t) (display_rows start : Int)
    (hcount : (processes.length : Int) ≤ INT_MAX) (hstart : 0 ≤ start) :
    ∀ (fuel : Nat) (i : Int), 0 ≤ i → i ≤ display_rows → display_rows ≤ INT_MAX →
      i + start ≤ INT_MAX → display_rows - i < fuel →
      draw_loop processes display_rows start fuel i
        = some (index_range (start + i) (min (start + display_rows) processes.length)) := by
  intro fuel
  induction fuel with
  | zero => intro i _ _ _ _ h; omega
  | succ fuel ih =>
    intro i hi0 hi1 hdr hsum hfuel
    have hw : wrapInt (i + start) = i + start :=
      wrapInt_of_range (by unfold INT_MIN; omega) hsum
    simp only [draw_loop, hw]
    by_cases hc : i < display_rows ∧ i + start < (processes.length : Int)
    · obtain ⟨p, hp⟩ := processes_at_of_range processes (i + start) (by omega) hc.2
      have hw1 : wrapInt (i + 1) = i + 1 :=
        wrapInt_of_range (by unfold INT_MIN; omega) (by omega)
      simp only [hc, and_self, if_true, hp, hw1]
      rw [ih (i + 1) (by omega) (by omega) hdr (by omega) (by omega)]
      rw [index_range_cons (start + i) _ (by omega)]
      simp only [Option.map_some']
      rw [add_comm i start, ← add_assoc]
    · simp only [hc, if_false]
      rw [index_range_empty _ _ (by omega)]

theorem start_idx_spec (display_rows selected_row : Int)
    (hsel : 0 ≤ selected_row) (hselmax : selected_row ≤ INT_MAX) (hrows : 1 ≤ display_rows) :
    start_idx selected_row display_rows = some (selected_row / display_rows * display_rows)
    ∧ selected_row / display_rows * display_rows ≤ selected_row
    ∧ selected_row < selected_row / display_rows * display_rows + display_rows
    ∧ 0 ≤ selected_row / display_rows * display_rows := by
  have hm := Int.emod_add_ediv selected_row display_rows
  have h0 := Int.emod_nonneg selected_row (show display_rows ≠ 0 by omega)
  have h1 := Int.emod_lt_of_pos selected_row (show 0 < display_rows by omega)
  have hq0 : 0 ≤ selected_row / display_rows := Int.ediv_nonneg hsel (by omega)
  have hq1 : selected_row / display_rows ≤ selected_row := Int.ediv_le_self _ hsel
  rw [mul_comm] at hm
  have hp0 : 0 ≤ selected_row / display_rows * display_rows := mul_nonneg hq0 (by omega)
  unfold INT_MAX at hselmax
  have hne : ¬ (display_rows = 0 ∨ (selected_row = INT_MIN ∧ display_rows = -1)) := by omega
  have hw1 : wrapInt (selected_row / display_rows) = selected_row / display_rows :=
    wrapInt_of_range (by unfold INT_MIN; omega) (by unfold INT_MAX; omega)
  have hw2 : wrapInt (selected_row / display_rows * display_rows)
      = selected_row / display_rows * display_rows :=
    wrapInt_of_range (by unfold INT_MIN; omega) (by unfold INT_MAX; omega)
  refine ⟨?_, by omega, by omega, by omega⟩
  simp only [start_idx, hne, if_false, Int.tdiv_eq_ediv hsel (show 0 ≤ display_rows by omega),
    hw1, hw2]

theorem floor_div_eq (a b : Int) (hb : 1 ≤ b) : ⌊(a : ℚ) / (b : ℚ)⌋ = a / b := by
  obtain ⟨n, rfl⟩ : ∃ n : Nat, b = (n : Int) := ⟨b.toNat, by omega⟩
  exact_mod_cast Rat.floor_intCast_div_natCast a n

theorem drawn_rows_spec (processes : List process_info_t) (display_rows start : Int)
    (hcount : (processes.length : Int) ≤ INT_MAX) (hstart : 0 ≤ start)
    (hrows : 1 ≤ display_rows) (hrmax : display_rows ≤ INT_MAX) (hsmax : start ≤ INT_MAX) :
    drawn_rows processes display_rows start
      = some (index_range start (min (start + display_rows) processes.length)) := by
  have h := draw_loop_spec processes display_rows start hcount hstart (display_rows.toNat + 1) 0
    (le_refl 0) (by omega) hrmax (by omega) (by omega)
  simpa [drawn_rows] using h

/-- C4: for `selected_row >= 0` and a page size `display_rows >= 1` (both `int`
values, the table holding at most `INT_MAX` entries) the `start_idx` of `monitor` is
`floor(selected_row / display_rows) * display_rows`; it is a multiple of `display_rows`,
`start_idx <= selected_row < start_idx + display_rows`, and the rows drawn are exactly the
indices `idx` with `start_idx <= idx < min(start_idx + display_rows, process_count)`. -/
theorem viewport_start_is_floor_aligned (processes : List process_info_t)
    (display_rows selected_row : Int)
    (hsel : 0 ≤ selected_row) (hselmax : selected_row ≤ INT_MAX)
    (hrows : 1 ≤ display_rows) (hrmax : display_rows ≤ INT_MAX)
    (hcount : (processes.length : Int) ≤ INT_MAX) :
    ∃ start : Int,
      start_idx selected_row display_rows = some start
      ∧ start = ⌊(selected_row : ℚ) / (display_rows : ℚ)⌋ * display_rows
      ∧ display_rows ∣ start
      ∧ start ≤ selected_row ∧ selected_row < start + display_rows
      ∧ drawn_rows processes display_rows start
          = some (index_range start (min (start + display_rows) processes.length))
      ∧ ∀ idx, idx ∈ index_range start (min (start + display_rows) processes.length)
          ↔ start ≤ idx ∧ idx < min (start + display_rows) processes.length := by
  obtain ⟨h1, h2, h3, h4⟩ := start_idx_spec display_rows selected_row hsel hselmax hrows
  refine ⟨selected_row / display_rows * display_rows, h1, ?_, Dvd.intro_left _ rfl, h2, h3,
    ?_, fun idx => mem_index_range _ _ idx⟩
  · rw [floor_div_eq selected_row display_rows hrows]
  · exact drawn_rows_spec processes display_rows _ hcount h4 hrows hrmax (by omega)

theorem viewport_start_is_floor_aligned_witness :
    ∃ start : Int,
      start_idx 7 3 = some start
      ∧ start = ⌊((7 : Int) : ℚ) / ((3 : Int) : ℚ)⌋ * 3
      ∧ (3 : Int) ∣ start
      ∧ start ≤ 7 ∧ 7 < start + 3
      ∧ drawn_rows three 3 start = some (index_range start (min (start + 3) three.length))
      ∧ ∀ idx, idx ∈ index_range start (min (start + 3) three.length)
          ↔ start ≤ idx ∧ idx < min (start + 3) three.length :=
  viewport_start_is_floor_aligned three 3 7 (by decide) (by decide) (by decide) (by decide)
    (by decide)

/-! ## The selection across refreshes -/

theorem navigate_bounds (K : KeyCodes) (count display_rows selected_row ch : Int)
    (hcount : 1 ≤ count) (hcmax : count ≤ INT_MAX) (hrows : 1 ≤ display_rows)
    (hsel : 0 ≤ selected_row) (hsum : selected_row + display_rows ≤ INT_MAX) :
    0 ≤ navigate K count display_rows selected_row ch
    ∧ navigate K count display_rows selected_row ch ≤ max selected_row (count - 1) := by
  unfold INT_MAX at hcmax hsum
  have w : ∀ x : Int, -2147483648 ≤ x → x ≤ 2147483647 → wrapInt x = x := by
    intro x h1 h2; unfold wrapInt; omega
  have w1 := w (selected_row - 1) (by omega) (by omega)
  have w2 := w (selected_row + 1) (by omega) (by omega)
  have w3 := w (count - 1) (by omega) (by omega)
  have w4 := w (selected_row - display_rows) (by omega) (by omega)
  have w5 := w (selected_row + display_rows) (by omega) (by omega)
  simp only [navigate, w1, w2, w3, w4, w5]
  split_ifs <;> omega

theorem footer_entry_some (processes : List process_info_t) (selected_row : Int)
    (hsel : 0 ≤ selected_row) : ∃ e, footer_entry processes selected_row = some e := by
  unfold footer_entry
  by_cases h : selected_row < (processes.length : Int)
  · obtain ⟨p, hp⟩ := processes_at_of_range processes selected_row hsel h
    exact ⟨some p, by simp [h, hp]⟩
  · exact ⟨none, by simp [h]⟩

theorem render_some (processes : List process_info_t) (rows selected_row : Int)
    (hcount : (processes.length : Int) ≤ INT_MAX)
    (hsel : 0 ≤ selected_row) (hselmax : selected_row ≤ INT_MAX)
    (hrows : 1 ≤ display_rows_of rows) :
    ∃ v, render processes rows selected_row = some v ∧ v.selected_row = selected_row
      ∧ v.process_count = processes.length := by
  obtain ⟨h1, h3, -, h4⟩ := start_idx_spec (display_rows_of rows) selected_row hsel hselmax hrows
  have h2 := drawn_rows_spec processes (display_rows_of rows) _ hcount h4 hrows
    (wrapInt_range _).2 (by omega)
  obtain ⟨e, he⟩ := footer_entry_some processes selected_row hsel
  simp only [render, h1, h2, he]
  exact ⟨_, rfl, rfl, rfl⟩

theorem handle_input_some (K : KeyCodes) (processes : List process_info_t)
    (display_rows selected_row ch answer : Int) (hsel : 0 ≤ selected_row) :
    ∃ r, handle_input K processes display_rows selected_row ch answer = some r
      ∧ (r.selected_row = selected_row
        ∨ r.selected_row = navigate K processes.length display_rows selected_row ch) := by
  unfold handle_input
  by_cases hq : ch = ord 'q' ∨ ch = ord 'Q'
  · simp only [hq, if_true]; exact ⟨_, rfl, Or.inl rfl⟩
  · by_cases hk : ch = ord 'k' ∨ ch = ord 'K'
    · by_cases h : selected_row < (processes.length : Int)
      · obtain ⟨p, hp⟩ := processes_at_of_range processes selected_row hsel h
        by_cases ha : answer = ord 'y' ∨ answer = ord 'Y'
        · simp only [hq, hk, h, hp, ha, if_true, if_false]; exact ⟨_, rfl, Or.inl rfl⟩
        · simp only [hq, hk, h, hp, ha, if_true, if_false]; exact ⟨_, rfl, Or.inl rfl⟩
      · simp only [hq, hk, h, if_true, if_false]; exact ⟨_, rfl, Or.inl rfl⟩
    · simp only [hq, hk, if_false]; exact ⟨_, rfl, Or.inr rfl⟩

theorem monitor_loop_invariant (K : KeyCodes) :
    ∀ (frames : List Frame) (selected_row : Int), 0 ≤ selected_row →
      selected_row < MAX_PROCESSES → (∀ f ∈ frames, f.Good) →
      ∃ views, monitor_loop K selected_row frames = some views
        ∧ (∀ v ∈ views, 0 ≤ v.selected_row ∧ v.selected_row < MAX_PROCESSES)
        ∧ (frames.Chain' (fun f g => f.processes.length ≤ g.processes.length) →
            (∀ f, frames.head? = some f → selected_row < f.processes.length) →
            ∀ v ∈ views, v.selected_row < v.process_count) := by
  intro frames
  induction frames with
  | nil => intro sel _ _ _; exact ⟨[], rfl, by simp, by simp⟩
  | cons f rest ih =>
    intro sel h0 h1 hgood
    obtain ⟨g1, g2, g3, g4⟩ := hgood f (List.mem_cons_self _ _)
    have hM : (MAX_PROCESSES : Int) = 500 := rfl
    have hI : INT_MAX = 2147483647 := rfl
    have g2' : (f.processes.length : Int) ≤ 500 := by unfold MAX_PROCESSES at g2; omega
    obtain ⟨v, hv, hvs, hvc⟩ := render_some f.processes f.rows sel (by omega) h0 (by omega) g3
    obtain ⟨r, hr, hrs⟩ :=
      handle_input_some K f.processes (display_rows_of f.rows) sel f.ch f.answer h0
    obtain ⟨n0, n1⟩ := navigate_bounds K f.processes.length (display_rows_of f.rows) sel f.ch
      (by omega) (by omega) g3 h0 (by omega)
    have hr0 : 0 ≤ r.selected_row := by rcases hrs with h | h <;> omega
    have hr1 : r.selected_row ≤ max sel ((f.processes.length : Int) - 1) := by
      rcases hrs with h | h <;> omega
    obtain ⟨views, hviews, hA, hB⟩ := ih r.selected_row hr0 (by omega)
      (fun g hg => hgood g (List.mem_cons_of_mem _ hg))
    simp only [monitor_loop, hv, hr]
    by_cases hrun : r.running = true
    · refine ⟨v :: views, by simp only [hrun, if_true, hviews, Option.map_some'], ?_, ?_⟩
      · intro w hw
        rcases List.mem_cons.mp hw with rfl | hw
        · rw [hvs]; exact ⟨h0, h1⟩
        · exact hA w hw
      · intro hchain hhead w hw
        have hsel := hhead f rfl
        rcases List.mem_cons.mp hw with rfl | hw
        · rw [hvs, hvc]; exact_mod_cast hsel
        · refine hB (List.Chain'.tail hchain) ?_ w hw
          intro g hg
          have hfg : f.processes.length ≤ g.processes.length := by
            cases rest with
            | nil => simp at hg
            | cons g' rest' =>
              simp only [List.head?_cons, Option.some.injEq] at hg
              subst hg
              exact (List.chain'_cons.mp hchain).1
          omega
    · refine ⟨[v], by simp [hrun], ?_, ?_⟩
      · intro w hw
        rw [List.mem_singleton.mp hw, hvs]; exact ⟨h0, h1⟩
      · intro _ hhead w hw
        have hsel := hhead f rfl
        rw [List.mem_singleton.mp hw, hvs, hvc]; exact_mod_cast hsel


/-- C2, as stated, fails: `End` on ten entries selects row 9; the next refresh delivers five
entries and the frame is drawn with `selected_row = 9`, not clamped to `4`. -/
theorem refresh_leaves_selection_dangling :
    (∀ f ∈ shrinking_run, f.processes.length ≤ MAX_PROCESSES ∧ 1 ≤ display_rows_of f.rows)
    ∧ (monitor ncursesKeys shrinking_run).map
        (List.map (fun v => (v.selected_row, v.process_count))) = some [(0, 10), (9, 5)]
    ∧ ¬ (∀ views, monitor ncursesKeys shrinking_run = some views →
          ∀ v ∈ views, 0 < v.process_count →
            0 ≤ v.selected_row ∧ v.selected_row < v.process_count) := by
  have h2 : (monitor ncursesKeys shrinking_run).map
      (List.map (fun v => (v.selected_row, v.process_count))) = some [(0, 10), (9, 5)] := by
    decide
  refine ⟨by decide, h2, ?_⟩
  intro h
  cases hm : monitor ncursesKeys shrinking_run with
  | none => simp [hm] at h2
  | some views =>
    rw [hm] at h2
    simp only [Option.map_some', Option.some.injEq] at h2
    match views, h2, h views hm with
    | [v1, v2], h2, hv =>
      simp only [List.map_cons, List.map_nil, List.cons.injEq, Prod.mk.injEq, and_true] at h2
      have := hv v2 (by simp) (by omega)
      omega

theorem render_spec (processes : List process_info_t) (rows selected_row : Int)
    (hcount : (processes.length : Int) ≤ INT_MAX)
    (hsel : 0 ≤ selected_row) (hselmax : selected_row ≤ INT_MAX)
    (hrows : 1 ≤ display_rows_of rows) :
    ∃ v, render processes rows selected_row = some v ∧ v.selected_row = selected_row
      ∧ v.process_count = processes.length
      ∧ ((processes.length : Int) ≤ selected_row →
          v.footer = none ∧ selected_row ∉ v.drawn) := by
  obtain ⟨h1, h3, -, h4⟩ := start_idx_spec (display_rows_of rows) selected_row hsel hselmax hrows
  have h2 := drawn_rows_spec processes (display_rows_of rows) _ hcount h4 hrows
    (wrapInt_range _).2 (by omega)
  by_cases h : selected_row < (processes.length : Int)
  · obtain ⟨p, hp⟩ := processes_at_of_range processes selected_row hsel h
    have he : footer_entry processes selected_row = some (some p) := by
      simp [footer_entry, h, hp]
    simp only [render, h1, h2, he]
    exact ⟨_, rfl, rfl, rfl, fun hle => absurd h (not_lt.mpr hle)⟩
  · have he : footer_entry processes selected_row = some none := by
      simp [footer_entry, h]
    simp only [render, h1, h2, he]
    refine ⟨_, rfl, rfl, rfl, fun _ => ⟨rfl, ?_⟩⟩
    intro hm
    have := (mem_index_range _ _ _).mp hm
    omega

theorem handle_input_dangling (K : KeyCodes) (processes : List process_info_t)
    (display_rows selected_row ch answer : Int)
    (hd : (processes.length : Int) ≤ selected_row) (r : InputResult)
    (hr : handle_input K processes display_rows selected_row ch answer = some r) :
    r.kill_calls = []
      ∧ ((ch = ord 'k' ∨ ch = ord 'K') → r.selected_row = selected_row ∧ r.running = true) := by
  have hlt : ¬ selected_row < (processes.length : Int) := not_lt.mpr hd
  unfold handle_input at hr
  by_cases hq : ch = ord 'q' ∨ ch = ord 'Q'
  · simp only [hq, if_true, Option.some.injEq] at hr
    subst hr
    refine ⟨rfl, fun hk => ?_⟩
    exfalso
    rcases hq with h | h <;> rcases hk with h' | h' <;> rw [h] at h' <;> exact absurd h' (by decide)
  · by_cases hk : ch = ord 'k' ∨ ch = ord 'K'
    · simp only [hq, hk, hlt, if_true, if_false, Option.some.injEq] at hr
      subst hr
      exact ⟨rfl, fun _ => ⟨rfl, rfl⟩⟩
    · simp only [hq, hk, if_false, Option.some.injEq] at hr
      subst hr
      exact ⟨rfl, fun h => absurd h hk⟩

theorem monitor_loop_trace (K : KeyCodes) :
    ∀ (frames : List Frame) (selected_row : Int), 0 ≤ selected_row →
      selected_row < MAX_PROCESSES → (∀ f ∈ frames, f.Good) →
      ∃ views, monitor_loop K selected_row frames = some views
        ∧ views.length ≤ frames.length
        ∧ (∀ v, views.head? = some v → v.selected_row = selected_row)
        ∧ (∀ vf ∈ views.zip frames,
            vf.1.process_count = vf.2.processes.length ∧ 0 ≤ vf.1.selected_row
              ∧ (vf.1.process_count ≤ vf.1.selected_row → ShownAsNoSelection K vf.1 vf.2))
        ∧ (views.zip frames).Chain' (fun vf wg => CarriedOver K vf.1 vf.2 wg.1)
        ∧ (frames ≠ [] → views ≠ []) := by
  intro frames
  induction frames with
  | nil => intro sel _ _ _; exact ⟨[], rfl, by simp, by simp, by simp, by simp, by simp⟩
  | cons f rest ih =>
    intro sel h0 h1 hgood
    obtain ⟨g1, g2, g3, g4⟩ := hgood f (List.mem_cons_self _ _)
    have hM : (MAX_PROCESSES : Int) = 500 := rfl
    have hI : INT_MAX = 2147483647 := rfl
    have g2' : (f.processes.length : Int) ≤ 500 := by unfold MAX_PROCESSES at g2; omega
    obtain ⟨v, hv, hvs, hvc, hvd⟩ :=
      render_spec f.processes f.rows sel (by omega) h0 (by omega) g3
    obtain ⟨r, hr, hrs⟩ :=
      handle_input_some K f.processes (display_rows_of f.rows) sel f.ch f.answer h0
    obtain ⟨n0, n1⟩ := navigate_bounds K f.processes.length (display_rows_of f.rows) sel f.ch
      (by omega) (by omega) g3 h0 (by omega)
    have hr0 : 0 ≤ r.selected_row := by rcases hrs with h | h <;> omega
    have hr1 : r.selected_row ≤ max sel ((f.processes.length : Int) - 1) := by
      rcases hrs with h | h <;> omega
    obtain ⟨views, hviews, hlen, hhead, hfacts, hchain, -⟩ := ih r.selected_row hr0 (by omega)
      (fun g hg => hgood g (List.mem_cons_of_mem _ hg))
    have hfact_v : v.process_count = f.processes.length ∧ 0 ≤ v.selected_row
        ∧ (v.process_count ≤ v.selected_row → ShownAsNoSelection K v f) := by
      refine ⟨hvc, by rw [hvs]; exact h0, fun hd => ?_⟩
      rw [hvs, hvc] at hd
      obtain ⟨hf1, hf2⟩ := hvd hd
      refine ⟨hf1, by rw [hvs]; exact hf2, fun r' hr' => ?_⟩
      rw [hvs] at hr' ⊢
      exact handle_input_dangling K f.processes _ sel f.ch f.answer hd r' hr'
    simp only [monitor_loop, hv, hr]
    by_cases hrun : r.running = true
    · refine ⟨v :: views, by simp only [hrun, if_true, hviews, Option.map_some'],
        by simp only [List.length_cons]; omega, by simp [hvs], ?_, ?_, by simp⟩
      · intro vf hvf
        simp only [List.zip_cons_cons, List.mem_cons] at hvf
        rcases hvf with rfl | hvf
        · exact hfact_v
        · exact hfacts vf hvf
      · simp only [List.zip_cons_cons]
        rw [List.chain'_cons']
        refine ⟨?_, hchain⟩
        intro wg hwg
        have hw : wg.1.selected_row = r.selected_row ∧ wg.1.process_count = wg.2.processes.length := by
          cases views with
          | nil => simp at hwg
          | cons w views' =>
            cases rest with
            | nil => simp at hwg
            | cons g rest' =>
              simp only [List.zip_cons_cons, List.head?_cons, Option.mem_def,
                Option.some.injEq] at hwg
              subst hwg
              exact ⟨hhead w rfl, (hfacts (w, g) (by simp)).1⟩
        refine ⟨r, by rw [hvs]; exact hr, hw.1, ?_, ?_⟩
        · intro hin; rw [hvs, hvc] at hin; rw [hvc]; omega
        · intro hin hle; rw [hvs, hvc] at hin; rw [hvc] at hle; rw [hw.1]; omega
    · refine ⟨[v], by simp [hrun], by simp, by simp [hvs], ?_, by simp, by simp⟩
      intro vf hvf
      simp only [List.zip_cons_cons, List.zip_nil_left, List.mem_singleton] at hvf
      subst hvf
      exact hfact_v

/-- C2, amended: from `selected_row = 0`, over refreshes that deliver between 1 and
`MAX_PROCESSES` entries and arbitrary keys at a page size of at least 1, the loop draws its
views (at least one, if it runs at all) without reading outside the table; the first is
drawn with `selected_row = 0 < count`; every view has
`0 <= selected_row < MAX_PROCESSES`; a view with
`count <= selected_row` shows no selection (bottom line `none`, no row highlighted, no call
of `kill_process` whatever the key, the kill key changing nothing); and each view is drawn
with exactly the `selected_row` the key handling of the iteration before left, which is in
range again whenever the view before was in range and the refresh did not deliver fewer
entries than that view had. -/
theorem selection_across_refreshes (K : KeyCodes) (frames : List Frame)
    (hgood : ∀ f ∈ frames, f.Good) :
    ∃ views, monitor K frames = some views
      ∧ views.length ≤ frames.length ∧ (frames ≠ [] → views ≠ [])
      ∧ (∀ v, views.head? = some v → v.selected_row = 0 ∧ v.selected_row < v.process_count)
      ∧ (∀ vf ∈ views.zip frames,
          vf.1.process_count = vf.2.processes.length
            ∧ 0 ≤ vf.1.selected_row ∧ vf.1.selected_row < MAX_PROCESSES
            ∧ (vf.1.process_count ≤ vf.1.selected_row → ShownAsNoSelection K vf.1 vf.2))
      ∧ (views.zip frames).Chain' (fun vf wg => CarriedOver K vf.1 vf.2 wg.1) := by
  obtain ⟨views, h1, h2, -⟩ := monitor_loop_invariant K frames 0 (le_refl 0) (by decide) hgood
  obtain ⟨views', h1', hlen, hhead, hfacts, hchain, hne⟩ :=
    monitor_loop_trace K frames 0 (le_refl 0) (by decide) hgood
  rw [h1, Option.some.injEq] at h1'
  subst h1'
  refine ⟨views, h1, hlen, hne, ?_, ?_, hchain⟩
  · intro v hv
    have hs := hhead v hv
    refine ⟨hs, ?_⟩
    cases views with
    | nil => simp at hv
    | cons w views' =>
      cases frames with
      | nil => simp at hlen
      | cons f rest =>
        simp only [List.head?_cons, Option.some.injEq] at hv
        subst hv
        have hc := (hfacts (w, f) (by simp)).1
        have := (hgood f (List.mem_cons_self _ _)).1
        simp only at hc
        rw [hs, hc]
        exact_mod_cast this
  · intro vf hvf
    obtain ⟨a, b, c⟩ := hfacts vf hvf
    exact ⟨a, b, (h2 vf.1 (List.of_mem_zip hvf).1).2, c⟩

theorem selection_across_refreshes_witness :
    (∀ f ∈ shrinking_run, f.Good)
    ∧ ∃ views, monitor ncursesKeys shrinking_run = some views
      ∧ views.length ≤ shrinking_run.length ∧ (shrinking_run ≠ [] → views ≠ [])
      ∧ (∀ v, views.head? = some v → v.selected_row = 0 ∧ v.selected_row < v.process_count)
      ∧ (∀ vf ∈ views.zip shrinking_run,
          vf.1.process_count = vf.2.processes.length
            ∧ 0 ≤ vf.1.selected_row ∧ vf.1.selected_row < MAX_PROCESSES
            ∧ (vf.1.process_count ≤ vf.1.selected_row →
                ShownAsNoSelection ncursesKeys vf.1 vf.2))
      ∧ (views.zip shrinking_run).Chain'
          (fun vf wg => CarriedOver ncursesKeys vf.1 vf.2 wg.1) :=
  ⟨by decide, selection_across_refreshes ncursesKeys shrinking_run (by decide)⟩

/-! ## Kill confirmation -/

theorem kill_process_spec (sys_kill : Int → Signal → Int) (pid : Int) :
    (kill_process sys_kill pid).head? = some (KillEvent.sent pid Signal.SIGTERM)
    ∧ (kill_process sys_kill pid).count (KillEvent.sent pid Signal.SIGTERM) = 1
    ∧ (KillEvent.sent pid Signal.SIGKILL ∈ kill_process sys_kill pid
        ↔ sys_kill pid Signal.SIGTERM ≠ 0)
    ∧ (∀ e ∈ kill_process sys_kill pid, ∀ q sig, e = KillEvent.sent q sig → q = pid) := by
  unfold kill_process
  by_cases h1 : sys_kill pid Signal.SIGTERM = 0 <;> by_cases h2 : sys_kill pid Signal.SIGKILL = 0 <;>
    simp [h1, h2, List.count_cons]

/-- C3: when the kill key is pressed on a selection that names an entry `p` of the table,
the answer `y` or `Y` makes the iteration call `kill_process` exactly once, with `p.pid`,
and every other answer makes it call nothing; either way `selected_row` is unchanged and
the loop keeps running.  `kill_process` sends `SIGTERM` first, once, and `SIGKILL` only if
`SIGTERM` failed.  Conversely a call of `kill_process` is made only after the kill key on
`selected_row < process_count` and the answer `y` or `Y`. -/
theorem kill_confirmation_flow (K : KeyCodes) (sys_kill : Int → Signal → Int)
    (processes : List process_info_t) (display_rows selected_row ch answer : Int)
    (p : process_info_t) (hp : processes_at processes selected_row = some p)
    (hk : ch = ord 'k' ∨ ch = ord 'K') :
    ((answer = ord 'y' ∨ answer = ord 'Y') →
      ∃ r, handle_input K processes display_rows selected_row ch answer = some r
        ∧ r.kill_calls = [p.pid] ∧ r.events sys_kill = kill_process sys_kill p.pid
        ∧ r.selected_row = selected_row ∧ r.running = true)
    ∧ (¬ (answer = ord 'y' ∨ answer = ord 'Y') →
      ∃ r, handle_input K processes display_rows selected_row ch answer = some r
        ∧ r.kill_calls = [] ∧ r.events sys_kill = []
        ∧ r.selected_row = selected_row ∧ r.running = true)
    ∧ ((kill_process sys_kill p.pid).head? = some (KillEvent.sent p.pid Signal.SIGTERM)
      ∧ (kill_process sys_kill p.pid).count (KillEvent.sent p.pid Signal.SIGTERM) = 1
      ∧ (KillEvent.sent p.pid Signal.SIGKILL ∈ kill_process sys_kill p.pid
          ↔ sys_kill p.pid Signal.SIGTERM ≠ 0)
      ∧ (∀ e ∈ kill_process sys_kill p.pid, ∀ q sig, e = KillEvent.sent q sig → q = p.pid))
    ∧ (∀ (sel ch1 answer1 : Int) (r : InputResult),
        handle_input K processes display_rows sel ch1 answer1 = some r → r.kill_calls ≠ [] →
          (ch1 = ord 'k' ∨ ch1 = ord 'K') ∧ sel < processes.length
            ∧ (answer1 = ord 'y' ∨ answer1 = ord 'Y')
            ∧ r.kill_calls = (processes_at processes sel).toList.map (fun e => e.pid)) := by
  have hq : ¬ (ch = ord 'q' ∨ ch = ord 'Q') := by
    rcases hk with h | h <;> rw [h] <;> decide
  have hlt : selected_row < (processes.length : Int) := by
    unfold processes_at at hp
    split_ifs at hp with h0
    have := List.get?_eq_some.mp hp
    obtain ⟨h, -⟩ := this
    omega
  refine ⟨?_, ?_, kill_process_spec sys_kill p.pid, ?_⟩
  · intro ha
    simp only [handle_input, hq, hk, hlt, hp, ha, if_true, if_false]
    exact ⟨_, rfl, rfl, by simp [InputResult.events], rfl, rfl⟩
  · intro ha
    simp only [handle_input, hq, hk, hlt, hp, ha, if_true, if_false]
    exact ⟨_, rfl, rfl, by simp [InputResult.events], rfl, rfl⟩
  · intro sel ch1 answer1 r hr hne
    unfold handle_input at hr
    by_cases c1 : ch1 = ord 'q' ∨ ch1 = ord 'Q'
    · simp only [c1, if_true, Option.some.injEq] at hr
      subst hr; simp at hne
    · by_cases c2 : ch1 = ord 'k' ∨ ch1 = ord 'K'
      · by_cases c3 : sel < (processes.length : Int)
        · cases he : processes_at processes sel with
          | none => simp [c1, c2, c3, he] at hr
          | some e =>
            by_cases c4 : answer1 = ord 'y' ∨ answer1 = ord 'Y'
            · simp only [c1, c2, c3, c4, he, if_true, if_false, Option.some.injEq] at hr
              subst hr
              exact ⟨c2, c3, c4, by simp⟩
            · simp only [c1, c2, c3, c4, he, if_true, if_false, Option.some.injEq] at hr
              subst hr; simp at hne
        · simp only [c1, c2, c3, if_true, if_false, Option.some.injEq] at hr
          subst hr; simp at hne
      · simp only [c1, c2, if_false, Option.some.injEq] at hr
        subst hr; simp at hne

theorem kill_confirmation_flow_witness :
    (∃ r, handle_input ncursesKeys three 20 1 (ord 'k') (ord 'y') = some r
        ∧ r.kill_calls = [200]
        ∧ r.events sigterm_refused = kill_process sigterm_refused 200
        ∧ r.selected_row = 1 ∧ r.running = true)
    ∧ kill_process sigterm_refused 200
        = [KillEvent.sent 200 Signal.SIGTERM, KillEvent.sent 200 Signal.SIGKILL] :=
  ⟨(kill_confirmation_flow ncursesKeys sigterm_refused three 20 1 (ord 'k') (ord 'y')
      ⟨200, "sh".toList, 25/2, 2, 20⟩ rfl (by decide)).1 (by decide), by decide⟩

/-! ## Ranking -/

theorem compare_cpu_usage_spec (a b : process_info_t) :
    (compare_cpu_usage a b = -1 ↔ a.cpu_percent > b.cpu_percent)
    ∧ (compare_cpu_usage a b = 1 ↔ a.cpu_percent < b.cpu_percent)
    ∧ (compare_cpu_usage a b = 0 ↔ a.cpu_percent = b.cpu_percent)
    ∧ compare_cpu_usage a b = - compare_cpu_usage b a := by
  unfold compare_cpu_usage
  rcases lt_trichotomy a.cpu_percent b.cpu_percent with h | h | h
  · have h1 : ¬ a.cpu_percent > b.cpu_percent := not_lt.mpr (le_of_lt h)
    have h2 : a.cpu_percent ≠ b.cpu_percent := ne_of_lt h
    simp [h, h1, h2]
  · simp [h]
  · have h1 : ¬ a.cpu_percent < b.cpu_percent := not_lt.mpr (le_of_lt h)
    have h2 : a.cpu_percent ≠ b.cpu_percent := ne_of_gt h
    simp [h, h1, h2]

theorem compare_cpu_usage_le (a b : process_info_t) :
    compare_cpu_usage a b ≤ 0 ↔ b.cpu_percent ≤ a.cpu_percent := by
  unfold compare_cpu_usage
  rcases lt_trichotomy a.cpu_percent b.cpu_percent with h | h | h
  · have h1 : ¬ a.cpu_percent > b.cpu_percent := not_lt.mpr (le_of_lt h)
    simp [h, h1]
  · simp [h]
  · simp [h, le_of_lt h]

theorem compare_cpu_usage_consistent : ConsistentCompar compare_cpu_usage := by
  constructor
  · intro a b
    obtain ⟨-, -, -, h⟩ := compare_cpu_usage_spec a b
    omega
  · intro a b c h1 h2
    rw [compare_cpu_usage_le] at *
    exact le_trans h2 h1

theorem merge_runs_perm (cmp : process_info_t → process_info_t → Int) :
    ∀ b1 b2, (merge_runs cmp b1 b2).Perm (b1 ++ b2) := by
  intro b1 b2
  induction b1, b2 using merge_runs.induct cmp with
  | case1 b2 => simp [merge_runs]
  | case2 a b1 => simp [merge_runs]
  | case3 a b1 b b2 h ih =>
    rw [merge_runs, if_pos h]
    exact ih.cons a
  | case4 a b1 b b2 h ih =>
    rw [merge_runs, if_neg h]
    refine (ih.cons b).trans ?_
    have := (@List.perm_middle _ b (a :: b1) b2).symm
    simpa using this

theorem merge_runs_sorted {cmp : process_info_t → process_info_t → Int}
    (hc : ConsistentCompar cmp) :
    ∀ b1 b2, b1.Pairwise (fun a b => cmp a b ≤ 0) → b2.Pairwise (fun a b => cmp a b ≤ 0) →
      (merge_runs cmp b1 b2).Pairwise (fun a b => cmp a b ≤ 0) := by
  intro b1 b2
  induction b1, b2 using merge_runs.induct cmp with
  | case1 b2 => intro _ h; simpa [merge_runs] using h
  | case2 a b1 => intro h _; simpa [merge_runs] using h
  | case3 a b1 b b2 h ih =>
    intro h1 h2
    rw [merge_runs, if_pos h]
    rw [List.pairwise_cons] at h1 ⊢
    refine ⟨?_, ih h1.2 h2⟩
    intro y hy
    rcases List.mem_append.mp ((merge_runs_perm cmp b1 (b :: b2)).subset hy) with hy | hy
    · exact h1.1 y hy
    · rcases List.mem_cons.mp hy with rfl | hy
      · exact h
      · exact hc.2 a b y h ((List.pairwise_cons.mp h2).1 y hy)
  | case4 a b1 b b2 h ih =>
    intro h1 h2
    rw [merge_runs, if_neg h]
    rw [List.pairwise_cons] at h2 ⊢
    refine ⟨?_, ih h1 h2.2⟩
    have hba : cmp b a ≤ 0 := by have := hc.1 b a; omega
    intro y hy
    rcases List.mem_append.mp ((merge_runs_perm cmp (a :: b1) b2).subset hy) with hy | hy
    · rcases List.mem_cons.mp hy with rfl | hy
      · exact hba
      · exact hc.2 b a y hba ((List.pairwise_cons.mp h1).1 y hy)
    · exact h2.1 y hy

/-- Merging two sorted runs keeps, among the elements that compare equal to `x`, those of
the first run before those of the second, each in their order. -/
theorem merge_runs_ties {cmp : process_info_t → process_info_t → Int}
    (hc : ConsistentCompar cmp) (x : process_info_t) :
    ∀ b1 b2, b1.Pairwise (fun a b => cmp a b ≤ 0) →
      (merge_runs cmp b1 b2).filter (fun y => decide (cmp x y = 0))
        = b1.filter (fun y => decide (cmp x y = 0))
          ++ b2.filter (fun y => decide (cmp x y = 0)) := by
  intro b1 b2
  induction b1, b2 using merge_runs.induct cmp with
  | case1 b2 => intro _; simp [merge_runs]
  | case2 a b1 => intro _; simp [merge_runs]
  | case3 a b1 b b2 h ih =>
    intro h1
    rw [merge_runs, if_pos h, List.filter_cons, ih (List.pairwise_cons.mp h1).2]
    by_cases ha : cmp x a = 0 <;> simp [ha]
  | case4 a b1 b b2 h ih =>
    intro h1
    rw [merge_runs, if_neg h, List.filter_cons, ih h1]
    by_cases hb : cmp x b = 0
    · have hnone : (a :: b1).filter (fun y => decide (cmp x y = 0)) = [] := by
        rw [List.filter_eq_nil_iff]
        intro y hy hxy
        simp only [decide_eq_true_eq] at hxy
        have hay : cmp a y ≤ 0 := by
          rcases List.mem_cons.mp hy with rfl | hy
          · have := hc.1 y y; omega
          · exact (List.pairwise_cons.mp h1).1 y hy
        have hyx : cmp y x ≤ 0 := by have := hc.1 x y; omega
        have hxb : cmp x b ≤ 0 := by omega
        exact h (hc.2 a y b hay (hc.2 y x b hyx hxb))
      simp [hb, hnone]
    · simp [hb]

theorem glibc_msort_spec {cmp : process_info_t → process_info_t → Int}
    (hc : ConsistentCompar cmp) :
    ∀ b, (glibc_msort cmp b).Perm b
      ∧ (glibc_msort cmp b).Pairwise (fun a b => cmp a b ≤ 0)
      ∧ ∀ x, (glibc_msort cmp b).filter (fun y => decide (cmp x y = 0))
          = b.filter (fun y => decide (cmp x y = 0)) := by
  intro b
  induction b using glibc_msort.induct cmp with
  | case1 b h =>
    rw [glibc_msort, dif_pos h]
    refine ⟨List.Perm.refl _, ?_, fun _ => rfl⟩
    match b, h with
    | [], _ => exact List.Pairwise.nil
    | [a], _ => exact List.pairwise_singleton _ a
  | case2 b h ih1 ih2 =>
    rw [glibc_msort, dif_neg h]
    obtain ⟨p1, s1, f1⟩ := ih1
    obtain ⟨p2, s2, f2⟩ := ih2
    refine ⟨?_, merge_runs_sorted hc _ _ s1 s2, ?_⟩
    · refine (merge_runs_perm cmp _ _).trans ?_
      have := p1.append p2
      rwa [List.take_append_drop] at this
    · intro x
      rw [merge_runs_ties hc x _ _ s1, f1 x, f2 x, ← List.filter_append, List.take_append_drop]

theorem glibc_msort_contract : QsortContract glibc_msort := by
  intro cmp hc l
  exact ⟨(glibc_msort_spec hc l).1, (glibc_msort_spec hc l).2.1⟩

theorem glibc_msort_nil (cmp : process_info_t → process_info_t → Int) :
    glibc_msort cmp [] = [] := by
  rw [glibc_msort, dif_pos (by simp)]

theorem glibc_msort_one (cmp : process_info_t → process_info_t → Int) (a : process_info_t) :
    glibc_msort cmp [a] = [a] := by
  rw [glibc_msort, dif_pos (by simp)]

theorem glibc_msort_split (cmp : process_info_t → process_info_t → Int)
    (b : List process_info_t) (h : 2 ≤ b.length) :
    glibc_msort cmp b = merge_runs cmp (glibc_msort cmp (b.take (b.length / 2)))
      (glibc_msort cmp (b.drop (b.length / 2))) := by
  rw [glibc_msort, dif_neg (by omega)]

theorem get_process_list_ranked
    (qsort : (process_info_t → process_info_t → Int) → List process_info_t → List process_info_t)
    (fs : ProcFs) (sys : SysReadings) (entries : List ProcEntry)
    (hsys : fs.sysinfo = some sys) (hdir : fs.proc_dir = some entries)
    (before : List process_info_t) (max_count : Int) :
    get_process_list qsort fs before max_count
      = rank_processes qsort (scan_proc sys max_count entries []) := by
  simp only [get_process_list, hsys, hdir]

/-- C5: whatever `qsort` the C library provides (any function meeting the contract of
`qsort`), when `sysinfo` and `opendir` succeed the table that `get_process_list` leaves is a
permutation of the enumerated entries and is non-increasing in `cpu_percent`;
`compare_cpu_usage` returns -1, 1 or 0 exactly when the first `cpu_percent` is greater than,
less than or equal to the second, so `compare(a, b) = -compare(b, a)`, and the induced
relation is transitive. -/
theorem ranking_is_sorted_permutation
    (qsort : (process_info_t → process_info_t → Int) → List process_info_t → List process_info_t)
    (hq : QsortContract qsort) (fs : ProcFs) (sys : SysReadings) (entries : List ProcEntry)
    (hsys : fs.sysinfo = some sys) (hdir : fs.proc_dir = some entries)
    (before : List process_info_t) (max_count : Int) :
    (get_process_list qsort fs before max_count).Perm (scan_proc sys max_count entries [])
    ∧ (∀ (i j : Nat) (hi : i < j) (hj : j < (get_process_list qsort fs before max_count).length),
        ((get_process_list qsort fs before max_count).get ⟨i, lt_trans hi hj⟩).cpu_percent
          ≥ ((get_process_list qsort fs before max_count).get ⟨j, hj⟩).cpu_percent)
    ∧ (∀ a b : process_info_t,
        (compare_cpu_usage a b = -1 ↔ a.cpu_percent > b.cpu_percent)
        ∧ (compare_cpu_usage a b = 1 ↔ a.cpu_percent < b.cpu_percent)
        ∧ (compare_cpu_usage a b = 0 ↔ a.cpu_percent = b.cpu_percent)
        ∧ compare_cpu_usage a b = - compare_cpu_usage b a)
    ∧ (∀ a b c : process_info_t, compare_cpu_usage a b ≤ 0 → compare_cpu_usage b c ≤ 0 →
        compare_cpu_usage a c ≤ 0) := by
  have heq := get_process_list_ranked qsort fs sys entries hsys hdir before max_count
  obtain ⟨hperm, hsorted⟩ :=
    hq compare_cpu_usage compare_cpu_usage_consistent (scan_proc sys max_count entries [])
  have hs : (get_process_list qsort fs before max_count).Pairwise
      (fun a b => compare_cpu_usage a b ≤ 0) := by
    rw [heq]; exact hsorted
  refine ⟨by rw [heq]; exact hperm, ?_, compare_cpu_usage_spec, compare_cpu_usage_consistent.2⟩
  intro i j hi hj
  have := (List.pairwise_iff_get.mp hs) ⟨i, lt_trans hi hj⟩ ⟨j, hj⟩ hi
  exact (compare_cpu_usage_le _ _).mp this

theorem round_half_even_near (x : ℚ) (M : Int) (h : |x - M| < 1 / 2) :
    round_half_even x = M := by
  rw [abs_lt] at h
  unfold round_half_even
  by_cases hx : (M : ℚ) ≤ x
  · have hf : ⌊x⌋ = M := Int.floor_eq_iff.mpr ⟨hx, by linarith⟩
    rw [hf, if_pos (by linarith)]
  · have hf : ⌊x⌋ = M - 1 := Int.floor_eq_iff.mpr ⟨by push_cast; linarith, by push_cast; linarith⟩
    rw [hf]
    push_cast
    rw [if_neg (by linarith), if_pos (by linarith)]
    ring

theorem round_half_even_int (n : Int) : round_half_even (n : ℚ) = n :=
  round_half_even_near _ n (by simp)

theorem floor_le_round_half_even (x : ℚ) : ⌊x⌋ ≤ round_half_even x := by
  unfold round_half_even
  split_ifs <;> omega

theorem round_half_even_le (x : ℚ) (n : Int) (h : x ≤ n) : round_half_even x ≤ n := by
  have hfl : ⌊x⌋ ≤ n := by
    have : (⌊x⌋ : ℚ) ≤ n := le_trans (Int.floor_le x) h
    exact_mod_cast this
  have hlt : x - ⌊x⌋ ≠ 0 → ⌊x⌋ + 1 ≤ n := by
    intro hne
    have h1 : (⌊x⌋ : ℚ) < x := lt_of_le_of_ne (Int.floor_le x) (fun e => hne (by linarith))
    have : (⌊x⌋ : ℚ) < n := lt_of_lt_of_le h1 h
    have : ⌊x⌋ < n := by exact_mod_cast this
    omega
  unfold round_half_even
  split_ifs with h1 h2 h3
  · exact hfl
  · exact hlt (by linarith)
  · exact hfl
  · exact hlt (by linarith)

theorem le_round_half_even (x : ℚ) (n : Int) (h : (n : ℚ) ≤ x) : n ≤ round_half_even x :=
  le_trans (Int.le_floor.mpr h) (floor_le_round_half_even x)

theorem abs_round_half_even_sub (x : ℚ) : |(round_half_even x : ℚ) - x| ≤ 1 / 2 := by
  have h1 := Int.floor_le x
  have h2 := Int.lt_floor_add_one x
  rw [abs_le]
  unfold round_half_even
  split_ifs with a b c <;> push_cast <;> constructor <;> linarith

theorem binade_le (x : ℚ) (hx : x ≠ 0) : (2 : ℚ) ^ Int.log 2 |x| ≤ |x| := by
  have := Int.zpow_log_le_self (b := 2) (by norm_num) (abs_pos.mpr hx)
  simpa using this

theorem lt_binade_succ (x : ℚ) : |x| < (2 : ℚ) ^ (Int.log 2 |x| + 1) := by
  have := Int.lt_zpow_succ_log_self (b := 2) (by norm_num) |x|
  simpa using this

theorem binade_eq (x : ℚ) (e : Int) (h1 : (2 : ℚ) ^ e ≤ |x|) (h2 : |x| < (2 : ℚ) ^ (e + 1)) :
    Int.log 2 |x| = e := by
  have hpos : 0 < |x| := lt_of_lt_of_le (by positivity) h1
  have a : e ≤ Int.log 2 |x| := (Int.zpow_le_iff_le_log (b := 2) (by norm_num) hpos).mp
    (by simpa using h1)
  have b : Int.log 2 |x| < e + 1 := (Int.lt_zpow_iff_log_lt (b := 2) (by norm_num) hpos).mp
    (by simpa using h2)
  omega

theorem fl_zero : fl 0 = 0 := by simp [fl]

theorem scaled_ge (x : ℚ) (hx : x ≠ 0) :
    (2 : ℚ) ^ (52 : Int) ≤ |x| * (2 : ℚ) ^ (52 - Int.log 2 |x|) := by
  have h := binade_le x hx
  have hp : (0 : ℚ) < (2 : ℚ) ^ (52 - Int.log 2 |x|) := by positivity
  calc (2 : ℚ) ^ (52 : Int) = (2 : ℚ) ^ Int.log 2 |x| * (2 : ℚ) ^ (52 - Int.log 2 |x|) := by
        rw [← zpow_add₀ (by norm_num : (2 : ℚ) ≠ 0)]; congr 1; ring
    _ ≤ |x| * (2 : ℚ) ^ (52 - Int.log 2 |x|) := mul_le_mul_of_nonneg_right h hp.le

theorem fl_pos (x : ℚ) (hx : 0 < x) : 0 < fl x := by
  have hne : x ≠ 0 := ne_of_gt hx
  have hs := scaled_ge x hne
  have h1 : ((1 : Int) : ℚ) ≤ x * (2 : ℚ) ^ (52 - Int.log 2 |x|) := by
    have e : |x| * (2 : ℚ) ^ (52 - Int.log 2 |x|) = x * (2 : ℚ) ^ (52 - Int.log 2 |x|) := by
      congr 1; exact abs_of_pos hx
    rw [e] at hs
    refine le_trans ?_ hs
    norm_num
  have h2 := le_round_half_even _ 1 h1
  have h3 : (0 : ℚ) < (round_half_even (x * (2 : ℚ) ^ (52 - Int.log 2 |x|)) : ℚ) := by
    exact_mod_cast (by omega : 0 < round_half_even (x * (2 : ℚ) ^ (52 - Int.log 2 |x|)))
  simp only [fl, hne, if_false]
  positivity

theorem fl_neg (x : ℚ) (hx : x < 0) : fl x < 0 := by
  have hne : x ≠ 0 := ne_of_lt hx
  have hs := scaled_ge x hne
  have h1 : x * (2 : ℚ) ^ (52 - Int.log 2 |x|) ≤ ((-1 : Int) : ℚ) := by
    have e : |x| * (2 : ℚ) ^ (52 - Int.log 2 |x|)
        = - (x * (2 : ℚ) ^ (52 - Int.log 2 |x|)) := by
      rw [neg_mul_eq_neg_mul]; congr 1; exact abs_of_neg hx
    rw [e] at hs
    have : (1 : ℚ) ≤ (2 : ℚ) ^ (52 : Int) := by norm_num
    push_cast
    linarith
  have h2 := round_half_even_le _ (-1) h1
  have h3 : (round_half_even (x * (2 : ℚ) ^ (52 - Int.log 2 |x|)) : ℚ) < 0 := by
    exact_mod_cast (by omega : round_half_even (x * (2 : ℚ) ^ (52 - Int.log 2 |x|)) < 0)
  simp only [fl, hne, if_false]
  exact div_neg_of_neg_of_pos h3 (by positivity)

theorem fl_nonneg (x : ℚ) (hx : 0 ≤ x) : 0 ≤ fl x := by
  rcases eq_or_lt_of_le hx with h | h
  · rw [← h, fl_zero]
  · exact (fl_pos x h).le

theorem fl_pos_iff (x : ℚ) : 0 < fl x ↔ 0 < x := by
  constructor
  · intro h
    by_contra hx
    rcases eq_or_lt_of_le (not_lt.mp hx) with h0 | h0
    · rw [h0, fl_zero] at h; exact lt_irrefl _ h
    · exact lt_asymm h (fl_neg x h0)
  · exact fl_pos x

theorem fl_eq_zero_iff (x : ℚ) : fl x = 0 ↔ x = 0 := by
  constructor
  · intro h
    by_contra hx
    rcases lt_or_gt_of_ne hx with h0 | h0
    · exact ne_of_lt (fl_neg x h0) h
    · exact ne_of_gt (fl_pos x h0) h
  · rintro rfl; exact fl_zero

/-- Evaluation of `fl`: in the binade `2 ^ e <= |x| < 2 ^ (e + 1)` the result is the
multiple `M * 2 ^ (e - 52)` of the spacing nearest to `x`. -/
theorem fl_eval (x : ℚ) (e M : Int) (h1 : (2 : ℚ) ^ e ≤ |x|) (h2 : |x| < (2 : ℚ) ^ (e + 1))
    (hM : |x * (2 : ℚ) ^ (52 - e) - M| < 1 / 2) : fl x = (M : ℚ) / (2 : ℚ) ^ (52 - e) := by
  have hne : x ≠ 0 := by
    intro h; rw [h, abs_zero] at h1
    exact absurd h1 (not_le.mpr (by positivity))
  simp only [fl, hne, if_false, binade_eq x e h1 h2, round_half_even_near _ M hM]

/-- Numbers with a significand of at most 53 bits are not changed. -/
theorem fl_exact (m k : Int) (hm : |m| < 2 ^ 53) :
    fl ((m : ℚ) * (2 : ℚ) ^ k) = (m : ℚ) * (2 : ℚ) ^ k := by
  by_cases h0 : m = 0
  · simp [h0, fl_zero]
  have hne : (m : ℚ) * (2 : ℚ) ^ k ≠ 0 := by
    have : (m : ℚ) ≠ 0 := by exact_mod_cast h0
    positivity
  have hle := binade_le _ hne
  have habs : |(m : ℚ) * (2 : ℚ) ^ k| < (2 : ℚ) ^ (53 + k) := by
    rw [abs_mul, abs_of_pos (by positivity : (0 : ℚ) < (2 : ℚ) ^ k),
      zpow_add₀ (by norm_num : (2 : ℚ) ≠ 0)]
    refine mul_lt_mul_of_pos_right ?_ (by positivity)
    have : ((|m| : Int) : ℚ) < ((2 ^ 53 : Int) : ℚ) := by exact_mod_cast hm
    rw [zpow_ofNat]
    push_cast at this
    exact this
  have hlt : Int.log 2 |(m : ℚ) * (2 : ℚ) ^ k| < 53 + k := by
    have := lt_of_le_of_lt hle habs
    exact (zpow_lt_zpow_iff_right₀ (by norm_num : (1 : ℚ) < 2)).mp this
  obtain ⟨d, hd⟩ : ∃ d : Nat, (d : Int) = 52 - Int.log 2 |(m : ℚ) * (2 : ℚ) ^ k| + k :=
    ⟨(52 - Int.log 2 |(m : ℚ) * (2 : ℚ) ^ k| + k).toNat, by omega⟩
  have hs : (m : ℚ) * (2 : ℚ) ^ k * (2 : ℚ) ^ (52 - Int.log 2 |(m : ℚ) * (2 : ℚ) ^ k|)
      = ((m * 2 ^ d : Int) : ℚ) := by
    rw [mul_assoc, ← zpow_add₀ (by norm_num : (2 : ℚ) ≠ 0)]
    have : k + (52 - Int.log 2 |(m : ℚ) * (2 : ℚ) ^ k|) = (d : Int) := by omega
    rw [this]
    push_cast
    rw [zpow_natCast]
  simp only [fl, hne, if_false]
  rw [hs, round_half_even_int, ← hs]
  field_simp

theorem fl_int (m : Int) (hm : |m| < 2 ^ 53) : fl (m : ℚ) = m := by
  have := fl_exact m 0 hm
  simpa using this

/-- The relative error of one rounding is at most `2 ^ -53`. -/
theorem fl_error (x : ℚ) : |fl x - x| ≤ |x| / 2 ^ 53 := by
  by_cases hne : x = 0
  · simp [hne, fl_zero]
  have hs := scaled_ge x hne
  have hp : (0 : ℚ) < (2 : ℚ) ^ (52 - Int.log 2 |x|) := by positivity
  have hr := abs_round_half_even_sub (x * (2 : ℚ) ^ (52 - Int.log 2 |x|))
  simp only [fl, hne, if_false]
  have e1 : (round_half_even (x * (2 : ℚ) ^ (52 - Int.log 2 |x|)) : ℚ)
        / (2 : ℚ) ^ (52 - Int.log 2 |x|) - x
      = ((round_half_even (x * (2 : ℚ) ^ (52 - Int.log 2 |x|)) : ℚ)
          - x * (2 : ℚ) ^ (52 - Int.log 2 |x|)) / (2 : ℚ) ^ (52 - Int.log 2 |x|) := by
    field_simp
    ring
  rw [e1, abs_div, abs_of_pos hp, div_le_div_iff₀ hp (by norm_num)]
  have h52 : (2 : ℚ) ^ (52 : Int) = 2 ^ 52 := by norm_num
  rw [h52] at hs
  calc |(round_half_even (x * (2 : ℚ) ^ (52 - Int.log 2 |x|)) : ℚ)
          - x * (2 : ℚ) ^ (52 - Int.log 2 |x|)| * 2 ^ 53
      ≤ 1 / 2 * 2 ^ 53 := by gcongr
    _ = 2 ^ 52 := by norm_num
    _ ≤ |x| * (2 : ℚ) ^ (52 - Int.log 2 |x|) := hs

theorem fl_eq_of (y x : ℚ) (m : Int) (d : Nat) (hy : y = x) (hx : x * 2 ^ d = (m : ℚ))
    (hm : |m| < 2 ^ 53) : fl y = x := by
  have h : x = (m : ℚ) * (2 : ℚ) ^ (-(d : Int)) := by
    rw [zpow_neg, zpow_natCast, ← hx]
    field_simp
  rw [hy, h]
  exact fl_exact m _ hm

/-- Evaluation of `fl` below 2: for `2 ^ -n <= |x| < 2 ^ (1 - n)` the result is the multiple
`M / 2 ^ (52 + n)` of the spacing nearest to `x`. -/
theorem fl_eval_small (x : ℚ) (n : Nat) (M : Int) (h1 : 1 ≤ |x| * 2 ^ n)
    (h2 : |x| * 2 ^ n < 2) (hM : |x * 2 ^ (52 + n) - (M : ℚ)| < 1 / 2) :
    fl x = (M : ℚ) / 2 ^ (52 + n) := by
  have hp : (0 : ℚ) < 2 ^ n := by positivity
  have e1 : (2 : ℚ) ^ (-(n : Int)) = 1 / 2 ^ n := by
    rw [zpow_neg, zpow_natCast, one_div]
  have e2 : (2 : ℚ) ^ (-(n : Int) + 1) = 2 / 2 ^ n := by
    rw [zpow_add₀ (by norm_num : (2 : ℚ) ≠ 0), e1]
    norm_num
    ring
  have e3 : (2 : ℚ) ^ (52 - -(n : Int)) = 2 ^ (52 + n) := by
    rw [← zpow_natCast]
    congr 1
    push_cast
    ring
  have := fl_eval x (-(n : Int)) M (by rw [e1, div_le_iff₀ hp]; exact h1)
    (by rw [e2, lt_div_iff₀ hp]; exact h2) (by rw [e3]; exact hM)
  rw [this, e3]

/-- Rounding does not cross a non-negative integer below `2 ^ 53`. -/
theorem nat_le_fl (u : Nat) (x : ℚ) (hu : u < 2 ^ 53) (h : (u : ℚ) ≤ x) : (u : ℚ) ≤ fl x := by
  rcases Nat.eq_zero_or_pos u with h0 | h0
  · rw [h0, Nat.cast_zero] at h ⊢
    exact fl_nonneg x h
  have hu1 : (1 : ℚ) ≤ (u : ℚ) := by exact_mod_cast h0
  have hx : 0 < x := by linarith
  have hne : x ≠ 0 := ne_of_gt hx
  have hs := scaled_ge x hne
  have hlt := lt_binade_succ x
  have hle := binade_le x hne
  have hp : (0 : ℚ) < (2 : ℚ) ^ (52 - Int.log 2 |x|) := by positivity
  simp only [fl, hne, if_false]
  rw [le_div_iff₀ hp]
  by_cases he : Int.log 2 |x| ≤ 52
  · obtain ⟨d, hd⟩ : ∃ d : Nat, (d : Int) = 52 - Int.log 2 |x| := ⟨_, Int.toNat_of_nonneg (by omega)⟩
    have hN : (u : ℚ) * (2 : ℚ) ^ (52 - Int.log 2 |x|) = (((u * 2 ^ d : Nat) : Int) : ℚ) := by
      rw [← hd, zpow_natCast]; push_cast; ring
    rw [hN]
    have : (((u * 2 ^ d : Nat) : Int) : ℚ) ≤ x * (2 : ℚ) ^ (52 - Int.log 2 |x|) := by
      rw [← hN]
      exact mul_le_mul_of_nonneg_right h hp.le
    exact_mod_cast le_round_half_even _ _ this
  · have h53 : (2 : ℚ) ^ (53 : Int) ≤ (2 : ℚ) ^ Int.log 2 |x| :=
      zpow_le_zpow_right₀ (by norm_num) (by omega)
    have hub : (u : ℚ) < (2 : ℚ) ^ (53 : Int) := by
      have : ((u : Nat) : ℚ) < ((2 ^ 53 : Nat) : ℚ) := by exact_mod_cast hu
      rw [zpow_ofNat]
      push_cast at this
      exact this
    have hr : ((2 ^ 52 : Int) : ℚ) ≤ x * (2 : ℚ) ^ (52 - Int.log 2 |x|) := by
      have e : |x| * (2 : ℚ) ^ (52 - Int.log 2 |x|) = x * (2 : ℚ) ^ (52 - Int.log 2 |x|) := by
        congr 1; exact abs_of_pos hx
      rw [e] at hs
      refine le_trans ?_ hs
      norm_num
    have hr2 := le_round_half_even _ _ hr
    have hr3 : ((2 : ℚ) ^ (52 : Int)) ≤ (round_half_even (x * (2 : ℚ) ^ (52 - Int.log 2 |x|)) : ℚ) := by
      have : ((2 ^ 52 : Int) : ℚ) ≤ (round_half_even (x * (2 : ℚ) ^ (52 - Int.log 2 |x|)) : ℚ) := by
        exact_mod_cast hr2
      rw [zpow_ofNat]
      push_cast at this
      exact this
    have hsplit : (2 : ℚ) ^ Int.log 2 |x| * (2 : ℚ) ^ (52 - Int.log 2 |x|) = (2 : ℚ) ^ (52 : Int) := by
      rw [← zpow_add₀ (by norm_num : (2 : ℚ) ≠ 0)]; congr 1; ring
    calc (u : ℚ) * (2 : ℚ) ^ (52 - Int.log 2 |x|)
        ≤ (2 : ℚ) ^ Int.log 2 |x| * (2 : ℚ) ^ (52 - Int.log 2 |x|) :=
          mul_le_mul_of_nonneg_right (le_trans hub.le h53) hp.le
      _ = (2 : ℚ) ^ (52 : Int) := hsplit
      _ ≤ _ := hr3

theorem fl_le_of_nonneg (x : ℚ) (hx : 0 ≤ x) : fl x ≤ x + x / 2 ^ 53 := by
  have := fl_error x
  rw [abs_of_nonneg hx] at this
  have := (abs_le.mp this).2
  linarith

/-! ## Derived metrics -/

theorem fl_clk_ne_zero (clk : Int) (h : clk ≠ 0) : fl (clk : ℚ) ≠ 0 := by
  rw [Ne, fl_eq_zero_iff]
  exact_mod_cast h

theorem fl_hundred : fl (((100 : Int) : ℚ)) = 100 := by
  have := fl_int 100 (by norm_num)
  simpa using this

theorem cpu_usage_of_clk (sys : SysReadings) (r : RawStat) (hclk : sys.clk_tck ≠ 0) :
    seconds sys r
        = Double.finite (fl (fl ((total_time r : Nat) : ℚ) / fl (sys.clk_tck : ℚ)))
    ∧ process_uptime sys r
        = Double.finite (fl (fl (sys.uptime : ℚ) - fl (fl (r.starttime : ℚ) / fl (sys.clk_tck : ℚ))))
    ∧ cpu_usage sys r
        = Double.finite (rounded_cpu_percent r.utime r.stime r.starttime sys.uptime sys.clk_tck) := by
  have hc := fl_clk_ne_zero sys.clk_tck hclk
  have hs : seconds sys r
      = Double.finite (fl (fl ((total_time r : Nat) : ℚ) / fl (sys.clk_tck : ℚ))) := by
    simp only [seconds, Double.of_nat, Double.of_int, Double.div, hc, if_false]
  have ha : process_uptime sys r
      = Double.finite
          (fl (fl (sys.uptime : ℚ) - fl (fl (r.starttime : ℚ) / fl (sys.clk_tck : ℚ)))) := by
    simp only [process_uptime, Double.of_nat, Double.of_int, Double.div, hc, if_false,
      Double.sub]
  refine ⟨hs, ha, ?_⟩
  unfold cpu_usage rounded_cpu_percent
  rw [hs, ha]
  by_cases h : 0 < fl (fl (sys.uptime : ℚ) - fl (fl (r.starttime : ℚ) / fl (sys.clk_tck : ℚ)))
  · simp only [Double.gt_zero, h, decide_True, if_true, Double.div, ne_of_gt h, if_false,
      Double.of_int, Double.mul, fl_hundred, total_time]
  · simp only [Double.gt_zero, h, decide_False, if_false, Double.of_int, Int.cast_zero, fl_zero,
      Bool.false_eq_true]

theorem cpu_usage_no_clock (sys : SysReadings) (r : RawStat) (hclk : sys.clk_tck = 0) :
    cpu_usage sys r = Double.finite 0 := by
  have hS : ¬ fl (r.starttime : ℚ) < 0 := not_lt.mpr (fl_nonneg _ (Nat.cast_nonneg _))
  have hgt : (process_uptime sys r).gt_zero = false := by
    simp only [process_uptime, Double.of_nat, Double.of_int, hclk, Int.cast_zero, fl_zero,
      Double.div, if_true]
    by_cases h0 : fl (r.starttime : ℚ) = 0
    · simp only [h0, if_true, Double.sub, Double.gt_zero]
    · simp only [h0, if_false, hS, decide_False, Double.sub, Double.gt_zero, Bool.not_false,
        Bool.not_true]
  simp only [cpu_usage, hgt, Bool.false_eq_true, if_false, Double.of_int, Int.cast_zero, fl_zero]

theorem cpu_usage_finite (sys : SysReadings) (r : RawStat) :
    ∃ v, cpu_usage sys r = Double.finite v := by
  by_cases h : sys.clk_tck = 0
  · exact ⟨_, cpu_usage_no_clock sys r h⟩
  · exact ⟨_, (cpu_usage_of_clk sys r h).2.2⟩

theorem mem_percent_finite (sys : SysReadings) (r : RawStat) (h : sys.totalram ≠ 0) :
    mem_percent sys r
      = Double.finite (fl (fl (fl (r.vsize : ℚ) / fl (sys.totalram : ℚ)) * 100)) := by
  have hne : fl (sys.totalram : ℚ) ≠ 0 := by
    rw [Ne, fl_eq_zero_iff]
    exact_mod_cast h
  simp only [mem_percent, Double.of_nat, Double.div, hne, if_false, Double.mul]

theorem stored_cpu_percent (sys : SysReadings) (pid : Int) (cmd_buf : List Char) (r : RawStat)
    (hclk : sys.clk_tck ≠ 0) :
    (make_entry sys pid cmd_buf r).cpu_percent
      = rounded_cpu_percent r.utime r.stime r.starttime sys.uptime sys.clk_tck := by
  simp only [make_entry, (cpu_usage_of_clk sys r hclk).2.2, Double.value]

theorem stored_mem_percent (sys : SysReadings) (pid : Int) (cmd_buf : List Char) (r : RawStat)
    (h : sys.totalram ≠ 0) :
    (make_entry sys pid cmd_buf r).mem_percent
      = fl (fl (fl (r.vsize : ℚ) / fl (sys.totalram : ℚ)) * 100) := by
  simp only [make_entry, mem_percent_finite sys r h, Double.value]

/-- Step by step evaluation of the rounded CPU share. -/
theorem rounded_cpu_percent_eval (utime stime starttime uptime : Nat) (clk : Int)
    (T c U S x a s q v : ℚ)
    (hT : fl ((wrapULong (utime + stime) : Nat) : ℚ) = T) (hc : fl (clk : ℚ) = c)
    (hU : fl (uptime : ℚ) = U) (hS : fl (starttime : ℚ) = S) (hx : fl (S / c) = x)
    (ha : fl (U - x) = a) (hs : fl (T / c) = s) (hq : fl (s / a) = q)
    (hv : fl (100 * q) = v) (hpos : 0 < a) :
    rounded_cpu_percent utime stime starttime uptime clk = v := by
  unfold rounded_cpu_percent
  rw [hT, hc, hU, hS, hx, ha, hs, hq, hv, if_pos hpos]

theorem fl_nat (n : Nat) (h : n < 2 ^ 53) : fl (n : ℚ) = n := by
  have := fl_int (n : Int) (by rw [abs_of_nonneg (Int.natCast_nonneg n)]; exact_mod_cast h)
  simpa using this

theorem rounded_cpu_percent_eval_zero (utime stime starttime uptime : Nat) (clk : Int)
    (c U S x a : ℚ) (hc : fl (clk : ℚ) = c) (hU : fl (uptime : ℚ) = U)
    (hS : fl (starttime : ℚ) = S) (hx : fl (S / c) = x) (ha : fl (U - x) = a) (hle : a ≤ 0) :
    rounded_cpu_percent utime stime starttime uptime clk = 0 := by
  unfold rounded_cpu_percent
  rw [hc, hU, hS, hx, ha, if_neg (not_lt.mpr hle)]

/-- The sign of the rounded age is that of the exact age when the uptime in clock ticks and
`starttime` are below `2 ^ 53`. -/
theorem rounded_age_pos_iff (starttime uptime : Nat) (clk : Int) (hclk : 0 < clk)
    (hstart : starttime < 2 ^ 53) (hup : (uptime : Int) * clk < 2 ^ 53) :
    0 < fl (fl (uptime : ℚ) - fl (fl (starttime : ℚ) / fl (clk : ℚ)))
      ↔ 0 < (uptime : ℚ) - (starttime : ℚ) / (clk : ℚ) := by
  have hclkq : (0 : ℚ) < (clk : ℚ) := by exact_mod_cast hclk
  have hS0 : (0 : ℚ) ≤ (starttime : ℚ) := Nat.cast_nonneg _
  rw [fl_pos_iff]
  rcases Nat.eq_zero_or_pos uptime with h0 | h0
  · subst h0
    have h1 : 0 ≤ fl (fl (starttime : ℚ) / fl (clk : ℚ)) :=
      fl_nonneg _ (div_nonneg (fl_nonneg _ hS0) (fl_pos _ hclkq).le)
    have h2 : 0 ≤ (starttime : ℚ) / (clk : ℚ) := div_nonneg hS0 hclkq.le
    simp only [Nat.cast_zero, fl_zero, zero_sub, Left.neg_pos_iff]
    constructor
    · intro h; exact absurd h (not_lt.mpr h1)
    · intro h; exact absurd h (not_lt.mpr h2)
  have hupq : (uptime : ℚ) * (clk : ℚ) < 2 ^ 53 := by exact_mod_cast hup
  have hU1 : (1 : Int) ≤ (uptime : Int) := by exact_mod_cast h0
  have hU : uptime < 2 ^ 53 := by
    have h1 : (uptime : Int) ≤ (uptime : Int) * clk :=
      le_mul_of_one_le_right (Int.natCast_nonneg _) hclk
    have : (uptime : Int) < 2 ^ 53 := lt_of_le_of_lt h1 hup
    exact_mod_cast this
  have hclk53 : |clk| < 2 ^ 53 := by
    rw [abs_of_pos hclk]
    exact lt_of_le_of_lt (le_mul_of_one_le_left hclk.le hU1) hup
  rw [fl_nat uptime hU, fl_nat starttime hstart, fl_int clk hclk53]
  have hx0 : 0 ≤ (starttime : ℚ) / (clk : ℚ) := div_nonneg hS0 hclkq.le
  constructor
  · intro h
    by_contra hcon
    have hle : (uptime : ℚ) ≤ (starttime : ℚ) / (clk : ℚ) := by linarith
    have := nat_le_fl uptime _ hU hle
    linarith
  · intro h
    have hlt : (starttime : ℚ) / (clk : ℚ) < (uptime : ℚ) := by linarith
    have hSlt : (starttime : ℚ) < (uptime : ℚ) * (clk : ℚ) := (div_lt_iff₀ hclkq).mp hlt
    have hSi : (starttime : Int) + 1 ≤ (uptime : Int) * clk := by
      have : ((starttime : Int) : ℚ) < (((uptime : Int) * clk : Int) : ℚ) := by
        push_cast; exact hSlt
      have : (starttime : Int) < (uptime : Int) * clk := by exact_mod_cast this
      omega
    have hSq : (starttime : ℚ) + 1 ≤ (uptime : ℚ) * (clk : ℚ) := by exact_mod_cast hSi
    have hx1 : (starttime : ℚ) / (clk : ℚ) ≤ (uptime : ℚ) - 1 / (clk : ℚ) := by
      rw [div_le_iff₀ hclkq, sub_mul, one_div, inv_mul_cancel₀ (ne_of_gt hclkq)]
      linarith
    have hfl := fl_le_of_nonneg _ hx0
    have h53 : (uptime : ℚ) / 2 ^ 53 < 1 / (clk : ℚ) := by
      rw [div_lt_div_iff₀ (by positivity) hclkq]
      linarith
    have hx53 : (starttime : ℚ) / (clk : ℚ) / 2 ^ 53 < (uptime : ℚ) / 2 ^ 53 :=
      div_lt_div_of_pos_right hlt (by positivity)
    linarith

/-- Where nothing rounds, the stored value is the exact quotient. -/
theorem rounded_cpu_percent_exact (utime stime starttime uptime : Nat) (clk : Int)
    (hsum : utime + stime ≤ ULONG_MAX) (hex : NoRounding utime stime starttime uptime clk)
    (hage : 0 < (uptime : ℚ) - (starttime : ℚ) / (clk : ℚ)) :
    rounded_cpu_percent utime stime starttime uptime clk
      = 100 * (((utime : ℚ) + (stime : ℚ)) / (clk : ℚ))
          / ((uptime : ℚ) - (starttime : ℚ) / (clk : ℚ)) := by
  obtain ⟨h1, h2, h3, h4, h5, h6, h7, h8, h9⟩ := hex
  have hw : ((wrapULong (utime + stime) : Nat) : ℚ) = (utime : ℚ) + (stime : ℚ) := by
    have : wrapULong (utime + stime) = utime + stime := by
      unfold wrapULong; unfold ULONG_MAX at hsum; omega
    rw [this]; push_cast; rfl
  rw [rounded_cpu_percent_eval utime stime starttime uptime clk _ _ _ _ _ _ _ _ _
    (by rw [hw]; exact h1) h2 h3 h4 h5 h6 h7 h8 h9 hage, mul_div_assoc]

/-- C9, as stated, fails: the stored value is a `double`.  One clock tick used in 3 s of
uptime at 100 ticks per second gives the exact quotient `100 * (1 / 100) / 3 = 1 / 3`,
which no `double` is; the program stores `3002399751580331 / 2 ^ 53`
(0.33333333333333337).  Read in `double` arithmetic, the grouping `100 * seconds / age`
of the statement gives another number again, `6004799503160661 / 2 ^ 54`
(0.3333333333333333). -/
theorem cpu_percent_is_not_the_exact_quotient :
    (make_entry three_seconds_up 1 [] one_tick).cpu_percent = 3002399751580331 / 2 ^ 53
    ∧ 100 * ((((1 : Nat) : ℚ) + ((0 : Nat) : ℚ)) / ((100 : Int) : ℚ))
        / (((3 : Nat) : ℚ) - ((0 : Nat) : ℚ) / ((100 : Int) : ℚ)) = 1 / 3
    ∧ (make_entry three_seconds_up 1 [] one_tick).cpu_percent
        ≠ 100 * ((((1 : Nat) : ℚ) + ((0 : Nat) : ℚ)) / ((100 : Int) : ℚ))
            / (((3 : Nat) : ℚ) - ((0 : Nat) : ℚ) / ((100 : Int) : ℚ))
    ∧ fl (fl (100 * fl (fl (((1 : Nat) : ℚ) + ((0 : Nat) : ℚ)) / fl ((100 : Int) : ℚ)))
        / fl (fl ((3 : Nat) : ℚ) - fl (fl ((0 : Nat) : ℚ) / fl ((100 : Int) : ℚ))))
        = 6004799503160661 / 2 ^ 54
    ∧ (make_entry three_seconds_up 1 [] one_tick).cpu_percent
        ≠ fl (fl (100 * fl (fl (((1 : Nat) : ℚ) + ((0 : Nat) : ℚ)) / fl ((100 : Int) : ℚ)))
            / fl (fl ((3 : Nat) : ℚ) - fl (fl ((0 : Nat) : ℚ) / fl ((100 : Int) : ℚ)))) := by
  have f1 : fl (1 : ℚ) = 1 := fl_eq_of 1 1 1 0 rfl (by norm_num) (by norm_num)
  have f100 : fl (100 : ℚ) = 100 := fl_eq_of 100 100 100 0 rfl (by norm_num) (by norm_num)
  have f3 : fl (3 : ℚ) = 3 := fl_eq_of 3 3 3 0 rfl (by norm_num) (by norm_num)
  have fs : fl ((1 : ℚ) / 100) = 5764607523034235 / 2 ^ 59 := by
    have := fl_eval_small (1 / 100) 7 5764607523034235 (by norm_num [abs_of_pos])
      (by norm_num [abs_of_pos]) (by norm_num [abs_lt])
    simpa using this
  have fq : fl ((5764607523034235 : ℚ) / 2 ^ 59 / 3) = 7686143364045647 / 2 ^ 61 := by
    have := fl_eval_small ((5764607523034235 : ℚ) / 2 ^ 59 / 3) 9 7686143364045647
      (by norm_num [abs_of_pos]) (by norm_num [abs_of_pos]) (by norm_num [abs_lt])
    simpa using this
  have fv : fl (100 * ((7686143364045647 : ℚ) / 2 ^ 61)) = 3002399751580331 / 2 ^ 53 := by
    have := fl_eval_small (100 * ((7686143364045647 : ℚ) / 2 ^ 61)) 2 6004799503160662
      (by norm_num [abs_of_pos]) (by norm_num [abs_of_pos]) (by norm_num [abs_lt])
    rw [this]; norm_num
  have gs : fl (100 * ((5764607523034235 : ℚ) / 2 ^ 59)) = 1 := by
    have := fl_eval_small (100 * ((5764607523034235 : ℚ) / 2 ^ 59)) 0 4503599627370496
      (by norm_num [abs_of_pos]) (by norm_num [abs_of_pos]) (by norm_num [abs_lt])
    rw [this]; norm_num
  have gq : fl ((1 : ℚ) / 3) = 6004799503160661 / 2 ^ 54 := by
    have := fl_eval_small (1 / 3) 2 6004799503160661 (by norm_num [abs_of_pos])
      (by norm_num [abs_of_pos]) (by norm_num [abs_lt])
    simpa using this
  have hstored : (make_entry three_seconds_up 1 [] one_tick).cpu_percent
      = 3002399751580331 / 2 ^ 53 := by
    refine (stored_cpu_percent three_seconds_up 1 [] one_tick (by decide)).trans ?_
    exact rounded_cpu_percent_eval 1 0 0 3 100 1 100 3 0 0 3
      (5764607523034235 / 2 ^ 59) (7686143364045647 / 2 ^ 61) _
      (by norm_num [wrapULong, f1]) (by norm_num [f100]) (by norm_num [f3])
      (by norm_num [fl_zero]) (by norm_num [fl_zero]) (by norm_num [f3])
      (by rw [fs]) (by rw [fq]) (by rw [fv]) (by norm_num)
  have halt : fl (fl (100 * fl (fl (((1 : Nat) : ℚ) + ((0 : Nat) : ℚ)) / fl ((100 : Int) : ℚ)))
        / fl (fl ((3 : Nat) : ℚ) - fl (fl ((0 : Nat) : ℚ) / fl ((100 : Int) : ℚ))))
        = 6004799503160661 / 2 ^ 54 := by
    simp only [Nat.cast_one, Nat.cast_zero, add_zero, Int.cast_ofNat, Nat.cast_ofNat, f1, f100,
      fs, gs, fl_zero, zero_div, sub_zero, f3, gq]
  refine ⟨hstored, by norm_num, ?_, halt, ?_⟩
  · rw [hstored]; norm_num
  · rw [hstored, halt]; norm_num

/-- C9, amended: the stored `cpu_percent` is always the number of a finite `double`.  For a
clock rate other than 0 it is the quotient of the specification evaluated in `double`
arithmetic (`rounded_cpu_percent`: 0 when the rounded age is not positive), for a clock rate
of 0 it is 0.  For a clock rate `clk > 0` it is not negative, `seconds` and `process_uptime`
are finite (no division by zero takes place), and a stored value other than 0 was divided by
an age `> 0`; when moreover `starttime` and `uptime * clk` are below `2 ^ 53`, the rounded
age is positive exactly when `uptime - starttime / clk` is.  Where no conversion and no
operation rounds and the age is positive, it is the exact quotient
`100 * ((utime + stime) / clk) / (uptime - starttime / clk)`.  It is not clamped: 300 clock
ticks used in the second second of uptime store 300.  Without the test `process_uptime > 0`
a process started in the second in which the uptime is read would store an infinity: its
age is 0 and `seconds / process_uptime` is infinite; the program stores 0. -/
theorem cpu_percent_rounded_formula (sys : SysReadings) (pid : Int) (cmd_buf : List Char)
    (r : RawStat) :
    (∃ v, cpu_usage sys r = Double.finite v ∧ (make_entry sys pid cmd_buf r).cpu_percent = v)
    ∧ (sys.clk_tck ≠ 0 →
        (make_entry sys pid cmd_buf r).cpu_percent
          = rounded_cpu_percent r.utime r.stime r.starttime sys.uptime sys.clk_tck)
    ∧ (sys.clk_tck = 0 → (make_entry sys pid cmd_buf r).cpu_percent = 0)
    ∧ (0 < sys.clk_tck →
        0 ≤ (make_entry sys pid cmd_buf r).cpu_percent
        ∧ ∃ s a, seconds sys r = Double.finite s ∧ process_uptime sys r = Double.finite a
            ∧ ((make_entry sys pid cmd_buf r).cpu_percent ≠ 0 → 0 < a))
    ∧ (0 < sys.clk_tck → r.starttime < 2 ^ 53 → (sys.uptime : Int) * sys.clk_tck < 2 ^ 53 →
        (0 < fl (fl (sys.uptime : ℚ) - fl (fl (r.starttime : ℚ) / fl (sys.clk_tck : ℚ)))
          ↔ 0 < (sys.uptime : ℚ) - (r.starttime : ℚ) / (sys.clk_tck : ℚ)))
    ∧ (sys.clk_tck ≠ 0 → r.utime + r.stime ≤ ULONG_MAX →
        NoRounding r.utime r.stime r.starttime sys.uptime sys.clk_tck →
        0 < (sys.uptime : ℚ) - (r.starttime : ℚ) / (sys.clk_tck : ℚ) →
        (make_entry sys pid cmd_buf r).cpu_percent
          = 100 * (((r.utime : ℚ) + (r.stime : ℚ)) / (sys.clk_tck : ℚ))
              / ((sys.uptime : ℚ) - (r.starttime : ℚ) / (sys.clk_tck : ℚ)))
    ∧ ((make_entry two_seconds_up pid cmd_buf three_cores).cpu_percent = 300
        ∧ 100 * ((((200 : Nat) : ℚ) + ((100 : Nat) : ℚ)) / ((100 : Int) : ℚ))
            / (((2 : Nat) : ℚ) - ((100 : Nat) : ℚ) / ((100 : Int) : ℚ)) = 300)
    ∧ (process_uptime fifty_seconds_up just_started = Double.finite 0
        ∧ Double.div (seconds fifty_seconds_up just_started)
            (process_uptime fifty_seconds_up just_started) = Double.inf false
        ∧ (make_entry fifty_seconds_up pid cmd_buf just_started).cpu_percent = 0) := by
  have f100 : fl (100 : ℚ) = 100 := fl_eq_of 100 100 100 0 rfl (by norm_num) (by norm_num)
  refine ⟨?_, ?_, ?_, ?_, ?_, ?_, ⟨?_, by norm_num⟩, ?_⟩
  · obtain ⟨v, hv⟩ := cpu_usage_finite sys r
    exact ⟨v, hv, by simp only [make_entry, hv, Double.value]⟩
  · exact stored_cpu_percent sys pid cmd_buf r
  · intro hclk
    simp only [make_entry, cpu_usage_no_clock sys r hclk, Double.value]
  · intro hclk
    have hne : sys.clk_tck ≠ 0 := ne_of_gt hclk
    obtain ⟨hs, ha, hc⟩ := cpu_usage_of_clk sys r hne
    have hclkq : (0 : ℚ) < (sys.clk_tck : ℚ) := by exact_mod_cast hclk
    have hsec : 0 ≤ fl (fl ((wrapULong (r.utime + r.stime) : Nat) : ℚ) / fl (sys.clk_tck : ℚ)) :=
      fl_nonneg _ (div_nonneg (fl_nonneg _ (Nat.cast_nonneg _)) (fl_pos _ hclkq).le)
    have hval := stored_cpu_percent sys pid cmd_buf r hne
    rw [hval]
    refine ⟨?_, _, _, hs, ha, ?_⟩
    · unfold rounded_cpu_percent
      split_ifs with h
      · exact fl_nonneg _ (mul_nonneg (by norm_num) (fl_nonneg _ (div_nonneg hsec h.le)))
      · exact le_refl 0
    · unfold rounded_cpu_percent
      split_ifs with h
      · intro _; exact h
      · intro h0; exact absurd rfl h0
  · intro hclk hstart hup
    exact rounded_age_pos_iff r.starttime sys.uptime sys.clk_tck hclk hstart hup
  · intro hclk hsum hex hage
    rw [stored_cpu_percent sys pid cmd_buf r hclk]
    exact rounded_cpu_percent_exact _ _ _ _ _ hsum hex hage
  · refine (stored_cpu_percent two_seconds_up pid cmd_buf three_cores (by decide)).trans ?_
    exact rounded_cpu_percent_eval 200 100 100 2 100 300 100 2 100 1 1 3 3 300
      (fl_eq_of _ 300 300 0 (by norm_num [wrapULong]) (by norm_num) (by norm_num))
      (fl_eq_of _ 100 100 0 (by norm_num) (by norm_num) (by norm_num))
      (fl_eq_of _ 2 2 0 (by norm_num) (by norm_num) (by norm_num))
      (fl_eq_of _ 100 100 0 (by norm_num) (by norm_num) (by norm_num))
      (fl_eq_of _ 1 1 0 (by norm_num) (by norm_num) (by norm_num))
      (fl_eq_of _ 1 1 0 (by norm_num) (by norm_num) (by norm_num))
      (fl_eq_of _ 3 3 0 (by norm_num) (by norm_num) (by norm_num))
      (fl_eq_of _ 3 3 0 (by norm_num) (by norm_num) (by norm_num))
      (fl_eq_of _ 300 300 0 (by norm_num) (by norm_num) (by norm_num))
      (by norm_num)
  · obtain ⟨hs, ha, hc⟩ := cpu_usage_of_clk fifty_seconds_up just_started (by decide)
    have e50 : fl (((50 : Nat) : ℚ)) = 50 :=
      fl_eq_of _ 50 50 0 (by norm_num) (by norm_num) (by norm_num)
    have e5000 : fl (((5000 : Nat) : ℚ)) = 5000 :=
      fl_eq_of _ 5000 5000 0 (by norm_num) (by norm_num) (by norm_num)
    have e100 : fl (((100 : Int) : ℚ)) = 100 :=
      fl_eq_of _ 100 100 0 (by norm_num) (by norm_num) (by norm_num)
    have ediv : fl ((5000 : ℚ) / 100) = 50 :=
      fl_eq_of _ 50 50 0 (by norm_num) (by norm_num) (by norm_num)
    have esub : fl ((50 : ℚ) - 50) = 0 :=
      fl_eq_of _ 0 0 0 (by norm_num) (by norm_num) (by norm_num)
    have e150 : fl (((wrapULong (100 + 50) : Nat) : ℚ)) = 150 :=
      fl_eq_of _ 150 150 0 (by norm_num [wrapULong]) (by norm_num) (by norm_num)
    have esec : fl ((150 : ℚ) / 100) = 3 / 2 :=
      fl_eq_of _ (3 / 2) 3 1 (by norm_num) (by norm_num) (by norm_num)
    have hage : process_uptime fifty_seconds_up just_started = Double.finite 0 := by
      rw [ha]
      show Double.finite (fl (fl ((50 : Nat) : ℚ) - fl (fl ((5000 : Nat) : ℚ)
        / fl ((100 : Int) : ℚ)))) = Double.finite 0
      rw [e50, e5000, e100, ediv, esub]
    have hsecs : seconds fifty_seconds_up just_started = Double.finite (3 / 2) := by
      rw [hs]
      show Double.finite (fl (fl ((wrapULong (100 + 50) : Nat) : ℚ) / fl ((100 : Int) : ℚ)))
        = Double.finite (3 / 2)
      rw [e150, e100, esec]
    refine ⟨hage, ?_, ?_⟩
    · rw [hage, hsecs]
      simp [Double.div]
      norm_num
    · refine (stored_cpu_percent fifty_seconds_up pid cmd_buf just_started (by decide)).trans ?_
      exact rounded_cpu_percent_eval_zero 100 50 5000 50 100 100 50 5000 50 0 e100 e50 e5000
        ediv esub (le_refl 0)

theorem shell_no_rounding : NoRounding 100 25 99000 1000 100 :=
  ⟨fl_eq_of _ _ 125 0 rfl (by norm_num) (by norm_num),
    fl_eq_of _ _ 100 0 rfl (by norm_num) (by norm_num),
    fl_eq_of _ _ 1000 0 rfl (by norm_num) (by norm_num),
    fl_eq_of _ _ 99000 0 rfl (by norm_num) (by norm_num),
    fl_eq_of _ _ 990 0 rfl (by norm_num) (by norm_num),
    fl_eq_of _ _ 10 0 rfl (by norm_num) (by norm_num),
    fl_eq_of _ _ 5 2 rfl (by norm_num) (by norm_num),
    fl_eq_of _ _ 1 3 rfl (by norm_num) (by norm_num),
    fl_eq_of _ _ 25 1 rfl (by norm_num) (by norm_num)⟩

theorem cpu_percent_rounded_formula_witness :
    (make_entry ram_8000_mb 41 [] shell_raw).cpu_percent
        = rounded_cpu_percent 100 25 99000 1000 100
    ∧ (0 ≤ (make_entry ram_8000_mb 41 [] shell_raw).cpu_percent
        ∧ ∃ s a, seconds ram_8000_mb shell_raw = Double.finite s
            ∧ process_uptime ram_8000_mb shell_raw = Double.finite a
            ∧ ((make_entry ram_8000_mb 41 [] shell_raw).cpu_percent ≠ 0 → 0 < a))
    ∧ (0 < fl (fl ((1000 : Nat) : ℚ) - fl (fl ((99000 : Nat) : ℚ) / fl ((100 : Int) : ℚ)))
        ↔ 0 < ((1000 : Nat) : ℚ) - ((99000 : Nat) : ℚ) / ((100 : Int) : ℚ))
    ∧ NoRounding 100 25 99000 1000 100
    ∧ (make_entry ram_8000_mb 41 [] shell_raw).cpu_percent
        = 100 * ((((100 : Nat) : ℚ) + ((25 : Nat) : ℚ)) / ((100 : Int) : ℚ))
            / (((1000 : Nat) : ℚ) - ((99000 : Nat) : ℚ) / ((100 : Int) : ℚ))
    ∧ 100 * ((((100 : Nat) : ℚ) + ((25 : Nat) : ℚ)) / ((100 : Int) : ℚ))
            / (((1000 : Nat) : ℚ) - ((99000 : Nat) : ℚ) / ((100 : Int) : ℚ)) = 25 / 2 :=
  ⟨(cpu_percent_rounded_formula ram_8000_mb 41 [] shell_raw).2.1 (by decide),
    (cpu_percent_rounded_formula ram_8000_mb 41 [] shell_raw).2.2.2.1 (by decide),
    (cpu_percent_rounded_formula ram_8000_mb 41 [] shell_raw).2.2.2.2.1 (by decide)
      (by decide) (by decide),
    shell_no_rounding,
    (cpu_percent_rounded_formula ram_8000_mb 41 [] shell_raw).2.2.2.2.2.1 (by decide)
      (by decide) shell_no_rounding
      (by show (0 : ℚ) < ((1000 : Nat) : ℚ) - ((99000 : Nat) : ℚ) / ((100 : Int) : ℚ)
          norm_num),
    by norm_num⟩

theorem mem_percent_values :
    (make_entry ram_8000_mb 1234 [] four_gb_process).mem_percent = 390625 / 8192
    ∧ (make_entry ram_8000_decimal_mb 1234 [] four_gb_process).mem_percent = 50 := by
  have e1 : fl ((4000000000 : Nat) : ℚ) = 4000000000 :=
    fl_eq_of _ 4000000000 4000000000 0 (by norm_num) (by norm_num) (by norm_num)
  constructor
  · have e2 : fl ((8000 * 1024 * 1024 : Nat) : ℚ) = 8388608000 :=
      fl_eq_of _ 8388608000 8388608000 0 (by norm_num) (by norm_num) (by norm_num)
    have e3 : fl ((4000000000 : ℚ) / 8388608000) = 15625 / 32768 :=
      fl_eq_of _ (15625 / 32768) 15625 15 (by norm_num) (by norm_num) (by norm_num)
    have e4 : fl ((15625 : ℚ) / 32768 * 100) = 390625 / 8192 :=
      fl_eq_of _ (390625 / 8192) 390625 13 (by norm_num) (by norm_num) (by norm_num)
    refine (stored_mem_percent ram_8000_mb 1234 [] four_gb_process (by decide)).trans ?_
    show fl (fl (fl ((4000000000 : Nat) : ℚ) / fl ((8000 * 1024 * 1024 : Nat) : ℚ)) * 100)
      = 390625 / 8192
    rw [e1, e2, e3, e4]
  · have e2 : fl ((8000 * 1000 * 1000 : Nat) : ℚ) = 8000000000 :=
      fl_eq_of _ 8000000000 8000000000 0 (by norm_num) (by norm_num) (by norm_num)
    have e3 : fl ((4000000000 : ℚ) / 8000000000) = 1 / 2 :=
      fl_eq_of _ (1 / 2) 1 1 (by norm_num) (by norm_num) (by norm_num)
    have e4 : fl ((1 : ℚ) / 2 * 100) = 50 :=
      fl_eq_of _ 50 50 0 (by norm_num) (by norm_num) (by norm_num)
    refine (stored_mem_percent ram_8000_decimal_mb 1234 [] four_gb_process (by decide)).trans ?_
    show fl (fl (fl ((4000000000 : Nat) : ℚ) / fl ((8000 * 1000 * 1000 : Nat) : ℚ)) * 100) = 50
    rw [e1, e2, e3, e4]

theorem round_tenths_eq (x : ℚ) (z : Int) (h1 : (z : ℚ) ≤ x * 10 + 1 / 2)
    (h2 : x * 10 + 1 / 2 < (z : ℚ) + 1) : round_tenths x = (z : ℚ) / 10 := by
  unfold round_tenths
  rw [Int.floor_eq_iff.mpr ⟨h1, h2⟩]

/-- C10, as stated, fails: with 8000 MB of RAM and `vsize = 4_000_000_000` the stored
`mem_percent` does not round to 48.4, whether the megabytes are binary or decimal. -/
theorem mem_percent_scenario_is_not_48_4 :
    round_tenths (make_entry ram_8000_mb 1234 [] four_gb_process).mem_percent ≠ 484 / 10
    ∧ round_tenths (make_entry ram_8000_decimal_mb 1234 [] four_gb_process).mem_percent
        ≠ 484 / 10 := by
  rw [mem_percent_values.1, mem_percent_values.2,
    round_tenths_eq (390625 / 8192) 477 (by norm_num) (by norm_num),
    round_tenths_eq 50 500 (by norm_num) (by norm_num)]
  constructor <;> norm_num

/-- C10, amended: with 8000 MB of RAM (`8000 * 1024 * 1024` bytes) and
`vsize = 4_000_000_000` the stored `mem_percent` is 47.6837158203125, shown as 47.7, and
the stored `vsize` is 3814. -/
theorem mem_percent_scenario :
    (make_entry ram_8000_mb 1234 [] four_gb_process).mem_percent = 390625 / 8192
    ∧ round_tenths (make_entry ram_8000_mb 1234 [] four_gb_process).mem_percent = 477 / 10
    ∧ (make_entry ram_8000_mb 1234 [] four_gb_process).vsize = 3814 := by
  refine ⟨mem_percent_values.1, ?_, by decide⟩
  rw [mem_percent_values.1, round_tenths_eq (390625 / 8192) 477 (by norm_num) (by norm_num)]
  norm_num

/-! ## The ranking of a sample -/

theorem busy_scan :
    scan_proc ram_8000_mb 500 busy_dir []
      = [shell_process, compiler_process, top_process, idle_process] := by
  rfl

theorem shell_cpu : rounded_cpu_percent 100 25 99000 1000 100 = 25 / 2 :=
  rounded_cpu_percent_eval 100 25 99000 1000 100 125 100 1000 99000 990 10 (5 / 4) (1 / 8) _
    (fl_eq_of _ 125 125 0 (by norm_num [wrapULong]) (by norm_num) (by norm_num))
    (fl_eq_of _ 100 100 0 (by norm_num) (by norm_num) (by norm_num))
    (fl_eq_of _ 1000 1000 0 (by norm_num) (by norm_num) (by norm_num))
    (fl_eq_of _ 99000 99000 0 (by norm_num) (by norm_num) (by norm_num))
    (fl_eq_of _ 990 990 0 (by norm_num) (by norm_num) (by norm_num))
    (fl_eq_of _ 10 10 0 (by norm_num) (by norm_num) (by norm_num))
    (fl_eq_of _ (5 / 4) 5 2 (by norm_num) (by norm_num) (by norm_num))
    (fl_eq_of _ (1 / 8) 1 3 (by norm_num) (by norm_num) (by norm_num))
    (fl_eq_of _ (25 / 2) 25 1 (by norm_num) (by norm_num) (by norm_num))
    (by norm_num)

theorem busy_cpu :
    shell_process.cpu_percent = 25 / 2 ∧ compiler_process.cpu_percent = 50
      ∧ top_process.cpu_percent = 25 / 2 ∧ idle_process.cpu_percent = 0 := by
  refine ⟨?_, ?_, ?_, ?_⟩
  · refine (stored_cpu_percent ram_8000_mb 41 "sh".toList shell_raw (by decide)).trans ?_
    exact shell_cpu
  · refine (stored_cpu_percent ram_8000_mb 42 "cc".toList compiler_raw (by decide)).trans ?_
    exact rounded_cpu_percent_eval 500 0 99000 1000 100 500 100 1000 99000 990 10 5 (1 / 2) _
      (fl_eq_of _ 500 500 0 (by norm_num [wrapULong]) (by norm_num) (by norm_num))
      (fl_eq_of _ 100 100 0 (by norm_num) (by norm_num) (by norm_num))
      (fl_eq_of _ 1000 1000 0 (by norm_num) (by norm_num) (by norm_num))
      (fl_eq_of _ 99000 99000 0 (by norm_num) (by norm_num) (by norm_num))
      (fl_eq_of _ 990 990 0 (by norm_num) (by norm_num) (by norm_num))
      (fl_eq_of _ 10 10 0 (by norm_num) (by norm_num) (by norm_num))
      (fl_eq_of _ 5 5 0 (by norm_num) (by norm_num) (by norm_num))
      (fl_eq_of _ (1 / 2) 1 1 (by norm_num) (by norm_num) (by norm_num))
      (fl_eq_of _ 50 50 0 (by norm_num) (by norm_num) (by norm_num))
      (by norm_num)
  · refine (stored_cpu_percent ram_8000_mb 43 "top".toList top_raw (by decide)).trans ?_
    exact rounded_cpu_percent_eval 50 75 99000 1000 100 125 100 1000 99000 990 10 (5 / 4) (1 / 8) _
      (fl_eq_of _ 125 125 0 (by norm_num [wrapULong]) (by norm_num) (by norm_num))
      (fl_eq_of _ 100 100 0 (by norm_num) (by norm_num) (by norm_num))
      (fl_eq_of _ 1000 1000 0 (by norm_num) (by norm_num) (by norm_num))
      (fl_eq_of _ 99000 99000 0 (by norm_num) (by norm_num) (by norm_num))
      (fl_eq_of _ 990 990 0 (by norm_num) (by norm_num) (by norm_num))
      (fl_eq_of _ 10 10 0 (by norm_num) (by norm_num) (by norm_num))
      (fl_eq_of _ (5 / 4) 5 2 (by norm_num) (by norm_num) (by norm_num))
      (fl_eq_of _ (1 / 8) 1 3 (by norm_num) (by norm_num) (by norm_num))
      (fl_eq_of _ (25 / 2) 25 1 (by norm_num) (by norm_num) (by norm_num))
      (by norm_num)
  · refine (stored_cpu_percent ram_8000_mb 44 "init".toList idle_raw (by decide)).trans ?_
    exact rounded_cpu_percent_eval 0 0 0 1000 100 0 100 1000 0 0 1000 0 0 _
      (fl_eq_of _ 0 0 0 (by norm_num [wrapULong]) (by norm_num) (by norm_num))
      (fl_eq_of _ 100 100 0 (by norm_num) (by norm_num) (by norm_num))
      (fl_eq_of _ 1000 1000 0 (by norm_num) (by norm_num) (by norm_num))
      (fl_eq_of _ 0 0 0 (by norm_num) (by norm_num) (by norm_num))
      (fl_eq_of _ 0 0 0 (by norm_num) (by norm_num) (by norm_num))
      (fl_eq_of _ 1000 1000 0 (by norm_num) (by norm_num) (by norm_num))
      (fl_eq_of _ 0 0 0 (by norm_num) (by norm_num) (by norm_num))
      (fl_eq_of _ 0 0 0 (by norm_num) (by norm_num) (by norm_num))
      (fl_eq_of _ 0 0 0 (by norm_num) (by norm_num) (by norm_num))
      (by norm_num)

theorem merge_runs_first (cmp : process_info_t → process_info_t → Int) (a b : process_info_t)
    (b1 b2 : List process_info_t) (h : cmp a b ≤ 0) :
    merge_runs cmp (a :: b1) (b :: b2) = a :: merge_runs cmp b1 (b :: b2) := by
  rw [merge_runs, if_pos h]

theorem merge_runs_second (cmp : process_info_t → process_info_t → Int) (a b : process_info_t)
    (b1 b2 : List process_info_t) (h : ¬ cmp a b ≤ 0) :
    merge_runs cmp (a :: b1) (b :: b2) = b :: merge_runs cmp (a :: b1) b2 := by
  rw [merge_runs, if_neg h]

theorem merge_runs_nil_left (cmp : process_info_t → process_info_t → Int)
    (b2 : List process_info_t) : merge_runs cmp [] b2 = b2 := by
  rw [merge_runs]

theorem merge_runs_nil_right (cmp : process_info_t → process_info_t → Int)
    (b1 : List process_info_t) : merge_runs cmp b1 [] = b1 := by
  cases b1 <;> rw [merge_runs]

theorem busy_ranked :
    glibc_msort compare_cpu_usage [shell_process, compiler_process, top_process, idle_process]
      = [compiler_process, shell_process, top_process, idle_process] := by
  obtain ⟨h1, h2, h3, h4⟩ := busy_cpu
  have c12 : ¬ compare_cpu_usage shell_process compiler_process ≤ 0 := by
    rw [compare_cpu_usage_le, h1, h2]; norm_num
  have c34 : compare_cpu_usage top_process idle_process ≤ 0 := by
    rw [compare_cpu_usage_le, h3, h4]; norm_num
  have c23 : compare_cpu_usage compiler_process top_process ≤ 0 := by
    rw [compare_cpu_usage_le, h2, h3]; norm_num
  have c13 : compare_cpu_usage shell_process top_process ≤ 0 := by
    rw [compare_cpu_usage_le, h1, h3]
  have ht : ∀ a b c d : process_info_t,
      List.take ([a, b, c, d].length / 2) [a, b, c, d] = [a, b]
        ∧ List.drop ([a, b, c, d].length / 2) [a, b, c, d] = [c, d] := by
    intro a b c d
    simp
  have hp : ∀ a b : process_info_t,
      glibc_msort compare_cpu_usage [a, b]
        = merge_runs compare_cpu_usage [a] [b] := by
    intro a b
    rw [glibc_msort_split _ _ (by simp)]
    have : List.take ([a, b].length / 2) [a, b] = [a]
        ∧ List.drop ([a, b].length / 2) [a, b] = [b] := by simp
    rw [this.1, this.2, glibc_msort_one, glibc_msort_one]
  rw [glibc_msort_split _ _ (by simp), (ht _ _ _ _).1, (ht _ _ _ _).2, hp, hp,
    merge_runs_second _ _ _ _ _ c12, merge_runs_nil_right,
    merge_runs_first _ _ _ _ _ c34, merge_runs_nil_left,
    merge_runs_first _ _ _ _ _ c23, merge_runs_first _ _ _ _ _ c13, merge_runs_nil_left]

theorem ranking_is_sorted_permutation_witness :
    scan_proc ram_8000_mb 500 busy_dir []
        = [shell_process, compiler_process, top_process, idle_process]
    ∧ get_process_list glibc_msort busy_fs [] 500
        = [compiler_process, shell_process, top_process, idle_process]
    ∧ [compiler_process, shell_process, top_process, idle_process].map (fun p => p.cpu_percent)
        = [50, 25 / 2, 25 / 2, 0]
    ∧ (get_process_list glibc_msort busy_fs [] 500).Perm (scan_proc ram_8000_mb 500 busy_dir [])
    ∧ (∀ (i j : Nat) (hi : i < j) (hj : j < (get_process_list glibc_msort busy_fs [] 500).length),
        ((get_process_list glibc_msort busy_fs [] 500).get ⟨i, lt_trans hi hj⟩).cpu_percent
          ≥ ((get_process_list glibc_msort busy_fs [] 500).get ⟨j, hj⟩).cpu_percent) :=
  ⟨busy_scan,
    by rw [get_process_list_ranked glibc_msort busy_fs ram_8000_mb busy_dir rfl rfl [] 500,
      busy_scan]; exact busy_ranked,
    by simp only [List.map, busy_cpu.1, busy_cpu.2.1, busy_cpu.2.2.1, busy_cpu.2.2.2],
    (ranking_is_sorted_permutation glibc_msort glibc_msort_contract busy_fs ram_8000_mb
      busy_dir rfl rfl [] 500).1,
    (ranking_is_sorted_permutation glibc_msort glibc_msort_contract busy_fs ram_8000_mb
      busy_dir rfl rfl [] 500).2.1⟩

theorem sscanf_go_chr (assign : Bool) (ds : List Directive) (input : List Char)
    (converted : Bool) (vals : List ScanValue) :
    sscanf_go (Directive.conv assign Conv.c :: ds) input converted vals
      = match input with
        | [] => (if converted then (vals.length : Int) else EOF, vals)
        | c :: rest =>
          sscanf_go ds rest true (if assign then vals ++ [ScanValue.chr c] else vals) := by
  simp only [sscanf_go]

theorem sscanf_go_int (assign : Bool) (spec : Conv) (hspec : spec ≠ Conv.c)
    (ds : List Directive) (input : List Char) (converted : Bool) (vals : List ScanValue) :
    sscanf_go (Directive.conv assign spec :: ds) input converted vals
      = match input.dropWhile isspace with
        | [] => (if converted then (vals.length : Int) else EOF, vals)
        | c :: rest =>
          match scan_int (c :: rest) with
          | none => (vals.length, vals)
          | some (negative, digits, left) =>
            sscanf_go ds left true
              (if assign then vals ++ [ScanValue.num (stored_number spec negative digits)]
               else vals) := by
  cases spec
  · exact absurd rfl hspec
  all_goals simp only [sscanf_go]

theorem sscanf_go_shape (ds : List Directive) :
    ∀ (input : List Char) (converted : Bool) (vals : List ScanValue),
      ∃ ext tail, (sscanf_go ds input converted vals).2 = vals ++ ext
        ∧ ext.map ScanValue.is_chr ++ tail = assigned_kinds ds
        ∧ ((sscanf_go ds input converted vals).1 = ((vals ++ ext).length : Int)
            ∨ (sscanf_go ds input converted vals).1 = EOF) := by
  induction ds with
  | nil => intro input cv vals; exact ⟨[], [], by simp [sscanf_go], by simp [assigned_kinds], Or.inl (by simp [sscanf_go])⟩
  | cons d ds ih =>
    intro input cv vals
    cases d with
    | white =>
      obtain ⟨ext, tail, h1, h2, h3⟩ := ih (input.dropWhile isspace) cv vals
      exact ⟨ext, tail, by simpa [sscanf_go] using h1, by simpa [assigned_kinds] using h2,
        by simpa [sscanf_go] using h3⟩
    | conv assign spec =>
      have stop : ∀ r : Int × List ScanValue, r.2 = vals →
          (r.1 = (vals.length : Int) ∨ r.1 = EOF) →
          ∃ ext tail, r.2 = vals ++ ext
            ∧ ext.map ScanValue.is_chr ++ tail = assigned_kinds (Directive.conv assign spec :: ds)
            ∧ (r.1 = ((vals ++ ext).length : Int) ∨ r.1 = EOF) := by
        intro r h2 h1
        exact ⟨[], assigned_kinds (Directive.conv assign spec :: ds), by simpa using h2,
          by simp, by simpa using h1⟩
      have go : ∀ (left : List Char) (v : ScanValue), v.is_chr = decide (spec = Conv.c) →
          ∃ ext tail,
            (sscanf_go ds left true (if assign then vals ++ [v] else vals)).2 = vals ++ ext
            ∧ ext.map ScanValue.is_chr ++ tail = assigned_kinds (Directive.conv assign spec :: ds)
            ∧ ((sscanf_go ds left true (if assign then vals ++ [v] else vals)).1
                  = ((vals ++ ext).length : Int)
                ∨ (sscanf_go ds left true (if assign then vals ++ [v] else vals)).1 = EOF) := by
        intro left v hv
        cases assign with
        | true =>
          obtain ⟨ext, tail, h1, h2, h3⟩ := ih left true (vals ++ [v])
          refine ⟨v :: ext, tail, by simpa using h1, ?_, by simpa using h3⟩
          simp [assigned_kinds, hv, h2]
        | false =>
          obtain ⟨ext, tail, h1, h2, h3⟩ := ih left true vals
          exact ⟨ext, tail, by simpa using h1, by simpa [assigned_kinds] using h2,
            by simpa using h3⟩
      by_cases hspec : spec = Conv.c
      · subst hspec
        rw [sscanf_go_chr]
        cases input with
        | nil => exact stop _ rfl (by cases cv <;> simp)
        | cons c rest => exact go rest (ScanValue.chr c) (by simp [ScanValue.is_chr])
      · rw [sscanf_go_int assign spec hspec]
        cases hin : input.dropWhile isspace with
        | nil => exact stop _ rfl (by cases cv <;> simp)
        | cons c rest =>
          cases hs : scan_int (c :: rest) with
          | none =>
            simp only [hs]
            exact stop (↑vals.length, vals) rfl (Or.inl rfl)
          | some t =>
            obtain ⟨negative, digits, left⟩ := t
            simp only [hs]
            exact go left _ (by simp [ScanValue.is_chr, hspec])


theorem stat_directives_eq :
    (read_format stat_format.toList).getD []
      = [Directive.conv true Conv.c,
         Directive.white, Directive.conv false Conv.d, Directive.white, Directive.conv false Conv.d,
         Directive.white, Directive.conv false Conv.d, Directive.white, Directive.conv false Conv.d,
         Directive.white, Directive.conv false Conv.d,
         Directive.white, Directive.conv false Conv.u, Directive.white, Directive.conv false Conv.u,
         Directive.white, Directive.conv false Conv.u, Directive.white, Directive.conv false Conv.u,
         Directive.white, Directive.conv false Conv.u,
         Directive.white, Directive.conv true Conv.lu, Directive.white, Directive.conv true Conv.lu,
         Directive.white, Directive.conv false Conv.d, Directive.white, Directive.conv false Conv.d,
         Directive.white, Directive.conv false Conv.d, Directive.white, Directive.conv false Conv.d,
         Directive.white, Directive.conv false Conv.d, Directive.white, Directive.conv false Conv.d,
         Directive.white, Directive.conv true Conv.llu,
         Directive.white, Directive.conv true Conv.lu] := by
  decide

theorem stat_kinds :
    assigned_kinds ((read_format stat_format.toList).getD []) = [true, false, false, false, false] := by
  decide

theorem sscanf_stat_five (input : List Char) (vals : List ScanValue)
    (h : sscanf input stat_format = (5, vals)) : ∃ r, raw_stat_of vals = some r := by
  obtain ⟨ext, tail, h1, h2, h3⟩ :=
    sscanf_go_shape ((read_format stat_format.toList).getD []) input false []
  unfold sscanf at h
  rw [h] at h1 h3
  rw [stat_kinds] at h2
  simp only [List.nil_append] at h1 h3
  subst h1
  have hlen : vals.length = 5 := by
    rcases h3 with h3 | h3
    · exact_mod_cast h3.symm
    · simp [EOF] at h3
  match vals, hlen, h2 with
  | [a, b, c, d, e], _, h2 =>
    simp only [List.map_cons, List.map_nil, List.cons_append, List.nil_append, List.cons.injEq] at h2
    obtain ⟨ha, hb, hc, hd, he, -⟩ := h2
    cases a <;> cases b <;> cases c <;> cases d <;> cases e <;>
      simp [ScanValue.is_chr] at ha hb hc hd he
    exact ⟨_, rfl⟩


theorem scan_entry_cases (sys : SysReadings) (e : ProcEntry) (processes : List process_info_t) :
    (e.d_name.head?.map isdigit = some true
      ∧ ∃ stat_line vals r, read_stat_line e = some stat_line
          ∧ parse_stat_line stat_line = some (5, vals) ∧ raw_stat_of vals = some r
          ∧ scan_entry sys e processes
              = processes ++ [make_entry sys (atoi e.d_name) (cstrAt (read_command e) 0) r])
    ∨ (¬ (e.d_name.head?.map isdigit = some true
          ∧ ∃ stat_line vals, read_stat_line e = some stat_line
              ∧ parse_stat_line stat_line = some (5, vals))
        ∧ scan_entry sys e processes = processes) := by
  unfold scan_entry
  by_cases hd : e.d_name.head?.map isdigit = some true
  · cases hl : read_stat_line e with
    | none => right; simp [hd]
    | some stat_line =>
      cases hp : parse_stat_line stat_line with
      | none => right; simp [hd, hp]
      | some t =>
        obtain ⟨items, vals⟩ := t
        by_cases h5 : items = 5
        · subst h5
          have hs : ∃ r, raw_stat_of vals = some r := by
            unfold parse_stat_line at hp
            split at hp
            · split_ifs at hp
              exact sscanf_stat_five _ vals (Option.some.inj hp)
            · exact absurd hp (by simp)
          obtain ⟨r, hr⟩ := hs
          left
          exact ⟨hd, stat_line, vals, r, rfl, hp, hr, by simp [hd, hp, hr]⟩
        · right
          refine ⟨?_, by simp [hd, hp, h5]⟩
          rintro ⟨-, sl, vals', h1, h2⟩
          cases h1
          rw [hp] at h2
          simp only [Option.some.injEq, Prod.mk.injEq] at h2
          exact h5 h2.1
  · right; simp [hd]

/-- The records that are dropped: a directory entry whose stat file cannot be read, whose
stat line has no `(` or no `)`, whose last `)` does not come after its first `(`, or for
which `sscanf` does not return 5, leaves the table as it was; an entry is appended, and
`count` grows by exactly one, if and only if the test on the parentheses passed and
`sscanf` returned 5; and the loop goes on with the next directory entry. -/
theorem malformed_records_are_dropped (sys : SysReadings) (e : ProcEntry)
    (processes : List process_info_t) (rest : List ProcEntry) (max_count : Int) :
    (read_stat_line e = none → scan_entry sys e processes = processes)
    ∧ (∀ stat_line, read_stat_line e = some stat_line →
        (strchr (cstrAt stat_line 0) '(' = none
          ∨ strrchr (cstrAt stat_line 0) ')' = none
          ∨ (∃ cmd_start cmd_end, strchr (cstrAt stat_line 0) '(' = some cmd_start
              ∧ strrchr (cstrAt stat_line 0) ')' = some cmd_end ∧ cmd_end ≤ cmd_start)
          ∨ (∃ cmd_end, strrchr (cstrAt stat_line 0) ')' = some cmd_end
              ∧ (sscanf (cstrAt stat_line (cmd_end + 2)) stat_format).1 ≠ 5)) →
        scan_entry sys e processes = processes)
    ∧ (scan_entry sys e processes = processes
        ∨ ∃ entry, scan_entry sys e processes = processes ++ [entry])
    ∧ ((scan_entry sys e processes).length = processes.length + 1
        ↔ (e.d_name.head?.map isdigit = some true
            ∧ ∃ stat_line vals, read_stat_line e = some stat_line
                ∧ parse_stat_line stat_line = some (5, vals)))
    ∧ ((scan_entry sys e processes).length = processes.length
        ↔ ¬ (e.d_name.head?.map isdigit = some true
            ∧ ∃ stat_line vals, read_stat_line e = some stat_line
                ∧ parse_stat_line stat_line = some (5, vals)))
    ∧ ((processes.length : Int) < max_count →
        scan_proc sys max_count (e :: rest) processes
          = scan_proc sys max_count rest (scan_entry sys e processes)) := by
  have hcases := scan_entry_cases sys e processes
  refine ⟨?_, ?_, ?_, ?_, ?_, ?_⟩
  · intro h
    rcases hcases with ⟨-, sl, vals, r, h1, -⟩ | ⟨-, h2⟩
    · rw [h] at h1; exact absurd h1 (by simp)
    · exact h2
  · intro stat_line hl hbad
    rcases hcases with ⟨-, sl, vals, r, h1, h2, -⟩ | ⟨-, h2⟩
    · exfalso
      rw [hl] at h1
      cases h1
      unfold parse_stat_line at h2
      rcases hbad with h | h | ⟨i, j, hi, hj, hij⟩ | ⟨j, hj, hne⟩
      · simp [h] at h2
      · rw [h] at h2
        cases hc : strchr (cstrAt stat_line 0) '(' <;> simp [hc] at h2
      · rw [hi, hj] at h2
        simp [not_lt.mpr hij] at h2
      · rw [hj] at h2
        cases hc : strchr (cstrAt stat_line 0) '(' with
        | none => simp [hc] at h2
        | some i =>
          simp only [hc] at h2
          split_ifs at h2
          simp only [Option.some.injEq] at h2
          rw [h2] at hne
          exact hne rfl
    · exact h2
  · rcases hcases with ⟨-, sl, vals, r, -, -, -, h⟩ | ⟨-, h⟩
    · exact Or.inr ⟨_, h⟩
    · exact Or.inl h
  · rcases hcases with ⟨hd, sl, vals, r, h1, h2, -, h⟩ | ⟨hn, h⟩
    · exact ⟨fun _ => ⟨hd, sl, vals, h1, h2⟩, fun _ => by simp [h]⟩
    · exact ⟨fun hlen => by simp [h] at hlen, fun hyes => absurd hyes hn⟩
  · rcases hcases with ⟨hd, sl, vals, r, h1, h2, -, h⟩ | ⟨hn, h⟩
    · exact ⟨fun hlen => by simp [h] at hlen, fun hno => absurd ⟨hd, sl, vals, h1, h2⟩ hno⟩
    · exact ⟨fun _ => hn, fun _ => by rw [h]⟩
  · intro hlt
    simp only [scan_proc, hlt, if_true]

theorem malformed_records_are_dropped_witness :
    read_stat_line no_paren_entry = some ("45 sh S 1 45 45\n".toList ++ [NUL])
    ∧ scan_entry ram_8000_mb no_paren_entry three = three :=
  ⟨by decide,
    (malformed_records_are_dropped ram_8000_mb no_paren_entry three [] 500).2.1
      ("45 sh S 1 45 45\n".toList ++ [NUL]) (by decide) (Or.inl (by decide))⟩

/-! ## Reading the stat line -/

theorem takeWhile_until_nul (a junk : List Char) (h : NUL ∉ a) :
    (a ++ NUL :: junk).takeWhile (fun c => c ≠ NUL) = a := by
  induction a with
  | nil => simp [List.takeWhile]
  | cons x xs ih =>
    have hx : x ≠ NUL := fun e => h (by simp [e])
    have hxs : NUL ∉ xs := fun e => h (List.mem_cons_of_mem _ e)
    have := ih hxs
    simp only [List.cons_append, List.takeWhile_cons, ne_eq, hx, not_false_eq_true,
      decide_True, if_true, List.cons.injEq, true_and]
    simpa using this

theorem cstrAt_of_string (a junk : List Char) (i : Nat) (h : NUL ∉ a) (hi : i ≤ a.length) :
    cstrAt (a ++ NUL :: junk) i = a.drop i := by
  unfold cstrAt
  rw [List.drop_append_of_le_length hi]
  exact takeWhile_until_nul _ _ (fun hm => h (List.mem_of_mem_drop hm))

theorem strchr_first (a b : List Char) (c : Char) (h : c ∉ a) :
    strchr (a ++ c :: b) c = some a.length := by
  induction a with
  | nil => simp [strchr]
  | cons x xs ih =>
    have hx : x ≠ c := fun e => h (by simp [e])
    have hxs : c ∉ xs := fun e => h (List.mem_cons_of_mem _ e)
    simp [strchr, hx, ih hxs]

theorem strrchr_absent (l : List Char) (c : Char) (h : c ∉ l) : strrchr l c = none := by
  induction l with
  | nil => simp [strrchr]
  | cons x xs ih =>
    have hx : x ≠ c := fun e => h (by simp [e])
    have hxs : c ∉ xs := fun e => h (List.mem_cons_of_mem _ e)
    simp [strrchr, hx, ih hxs]

theorem strrchr_last (a b : List Char) (c : Char) (h : c ∉ b) :
    strrchr (a ++ c :: b) c = some a.length := by
  induction a with
  | nil => simp [strrchr, strrchr_absent b c h]
  | cons x xs ih => simp [strrchr, ih]

theorem digits_run (ds more : List Char) (hd : ds.all isdigit = true) (hm : NoDigitHead more) :
    (ds ++ more).takeWhile isdigit = ds ∧ (ds ++ more).dropWhile isdigit = more := by
  induction ds with
  | nil =>
    cases more with
    | nil => simp
    | cons c cs =>
      have := hm c rfl
      simp [List.takeWhile, List.dropWhile, this]
  | cons x xs ih =>
    simp only [List.all_cons, Bool.and_eq_true] at hd
    obtain ⟨h1, h2⟩ := ih hd.2
    simp [List.takeWhile, List.dropWhile, hd.1, h1, h2]

theorem scan_int_digits (tok more : List Char) (ht : is_digits tok = true)
    (hm : NoDigitHead more) : scan_int (tok ++ more) = some (false, tok, more) := by
  unfold is_digits at ht
  simp only [Bool.and_eq_true, Bool.not_eq_true', List.isEmpty_eq_false] at ht
  obtain ⟨hne, hall⟩ := ht
  obtain ⟨h1, h2⟩ := digits_run tok more hall hm
  cases tok with
  | nil => exact absurd rfl hne
  | cons x xs =>
    have hx : isdigit x = true := by simp only [List.all_cons, Bool.and_eq_true] at hall; exact hall.1
    have hminus : x ≠ '-' := by rintro rfl; exact absurd hx (by decide)
    have hplus : x ≠ '+' := by rintro rfl; exact absurd hx (by decide)
    simp only [List.cons_append] at h1 h2 ⊢
    unfold scan_int
    split
    · rename_i heq; simp only [List.cons.injEq] at heq; exact absurd heq.1 hminus
    · rename_i heq; simp only [List.cons.injEq] at heq; exact absurd heq.1 hplus
    · simp [h1, h2]

theorem scan_int_token (tok more : List Char) (ht : is_int_token tok = true)
    (hm : NoDigitHead more) : ∃ negative digits, scan_int (tok ++ more) = some (negative, digits, more) := by
  unfold is_int_token at ht
  split at ht
  · rename_i ds
    unfold is_digits at ht
    simp only [Bool.and_eq_true, Bool.not_eq_true', List.isEmpty_eq_false] at ht
    obtain ⟨h1, h2⟩ := digits_run ds more ht.2 hm
    refine ⟨true, ds, ?_⟩
    simp only [List.cons_append, scan_int, h1, h2]
    simp [ht.1]
  · rename_i ds
    unfold is_digits at ht
    simp only [Bool.and_eq_true, Bool.not_eq_true', List.isEmpty_eq_false] at ht
    obtain ⟨h1, h2⟩ := digits_run ds more ht.2 hm
    refine ⟨false, ds, ?_⟩
    simp only [List.cons_append, scan_int, h1, h2]
    simp [ht.1]
  · exact ⟨false, tok, scan_int_digits tok more ht hm⟩

theorem token_head (tok : List Char) (ht : is_int_token tok = true) :
    ∃ x xs, tok = x :: xs ∧ isspace x = false := by
  unfold is_int_token at ht
  split at ht
  · exact ⟨'-', _, rfl, by decide⟩
  · exact ⟨'+', _, rfl, by decide⟩
  · unfold is_digits at ht
    simp only [Bool.and_eq_true, Bool.not_eq_true', List.isEmpty_eq_false] at ht
    cases tok with
    | nil => exact absurd rfl ht.1
    | cons x xs =>
      refine ⟨x, xs, rfl, ?_⟩
      have hx : isdigit x = true := by
        have := ht.2; simp only [List.all_cons, Bool.and_eq_true] at this; exact this.1
      cases hs : isspace x with
      | false => rfl
      | true =>
        exfalso
        simp only [isspace, Bool.or_eq_true, decide_eq_true_eq] at hs
        rcases hs with ((((h | h) | h) | h) | h) | h <;> (rw [h] at hx; exact absurd hx (by decide))

theorem step_skip (spec : Conv) (hspec : spec ≠ Conv.c) (ds : List Directive)
    (tok more : List Char) (converted : Bool) (vals : List ScanValue)
    (ht : is_int_token tok = true) (hm : NoDigitHead more) :
    sscanf_go (Directive.white :: Directive.conv false spec :: ds) (' ' :: (tok ++ more))
        converted vals
      = sscanf_go ds more true vals := by
  obtain ⟨x, xs, rfl, hx⟩ := token_head tok ht
  obtain ⟨negative, digits, hscan⟩ := scan_int_token (x :: xs) more ht hm
  have hsp : isspace ' ' = true := by decide
  rw [sscanf_go, sscanf_go_int false spec hspec]
  simp only [List.dropWhile, hsp, List.cons_append, hx, List.append_eq] at hscan ⊢
  simp only [hscan]
  rfl

theorem is_int_token_of_digits (tok : List Char) (ht : is_digits tok = true) :
    is_int_token tok = true := by
  obtain ⟨h1, h2⟩ : tok ≠ [] ∧ tok.all isdigit = true := by
    simpa [is_digits] using ht
  cases tok with
  | nil => exact absurd rfl h1
  | cons x xs =>
    have hx : isdigit x = true := by simp only [List.all_cons, Bool.and_eq_true] at h2; exact h2.1
    have hminus : x ≠ '-' := by rintro rfl; exact absurd hx (by decide)
    have hplus : x ≠ '+' := by rintro rfl; exact absurd hx (by decide)
    unfold is_int_token
    split
    · rename_i heq; simp only [List.cons.injEq] at heq; exact absurd heq.1 hminus
    · rename_i heq; simp only [List.cons.injEq] at heq; exact absurd heq.1 hplus
    · exact ht

theorem token_chars (tok : List Char) (ht : is_int_token tok = true) :
    ∀ c ∈ tok, c ≠ NUL ∧ c ≠ ')' := by
  have hd : ∀ l : List Char, l.all isdigit = true → ∀ c ∈ l, c ≠ NUL ∧ c ≠ ')' := by
    intro l hl c hc
    have := List.all_eq_true.mp hl c hc
    constructor <;> (rintro rfl; exact absurd this (by decide))
  unfold is_int_token at ht
  split at ht
  · intro c hc
    rcases List.mem_cons.mp hc with rfl | hc
    · exact ⟨by decide, by decide⟩
    · exact hd _ ((Bool.and_eq_true _ _ ▸ ht).2) c hc
  · intro c hc
    rcases List.mem_cons.mp hc with rfl | hc
    · exact ⟨by decide, by decide⟩
    · exact hd _ ((Bool.and_eq_true _ _ ▸ ht).2) c hc
  · exact hd _ ((Bool.and_eq_true _ _ ▸ ht).2)

theorem step_store (spec : Conv) (hspec : spec = Conv.lu ∨ spec = Conv.llu)
    (ds : List Directive) (tok more : List Char) (converted : Bool) (vals : List ScanValue)
    (ht : is_digits tok = true) (hv : decimal_value tok ≤ ULONG_MAX) (hm : NoDigitHead more) :
    sscanf_go (Directive.white :: Directive.conv true spec :: ds) (' ' :: (tok ++ more))
        converted vals
      = sscanf_go ds more true (vals ++ [ScanValue.num (decimal_value tok)]) := by
  have ht' : is_int_token tok = true := is_int_token_of_digits tok ht
  obtain ⟨x, xs, rfl, hx⟩ := token_head tok ht'
  have hscan := scan_int_digits (x :: xs) more ht hm
  have hsp : isspace ' ' = true := by decide
  have hne : spec ≠ Conv.c := by rcases hspec with h | h <;> rw [h] <;> decide
  have hval : stored_number spec false (x :: xs) = decimal_value (x :: xs) := by
    have : ¬ decimal_value (x :: xs) > ULONG_MAX := not_lt.mpr hv
    rcases hspec with h | h <;> simp [h, stored_number, unsigned_value, this]
  rw [sscanf_go, sscanf_go_int true spec hne]
  simp only [List.dropWhile, hsp, List.cons_append, hx, List.append_eq] at hscan ⊢
  simp only [hscan, hval]
  rfl


theorem flat_fields_chars (fields : List (List Char))
    (h : ∀ f ∈ fields, is_int_token f = true) :
    ∀ c ∈ fields.flatMap (fun f => ' ' :: f), c ≠ NUL ∧ c ≠ ')' := by
  intro c hc
  obtain ⟨f, hf, hcf⟩ := List.mem_flatMap.mp hc
  rcases List.mem_cons.mp hcf with rfl | hcf
  · exact ⟨by decide, by decide⟩
  · exact token_chars f (h f hf) c hcf

theorem noDigitHead_space (l : List Char) : NoDigitHead (' ' :: l) := by
  intro c hc
  simp only [List.head?_cons, Option.some.injEq] at hc
  subst hc
  decide

theorem text_between_spec (pre cmd post : List Char) (c : Char) :
    text_between (pre ++ c :: (cmd ++ post)) pre.length (pre.length + 1 + cmd.length) = cmd := by
  unfold text_between
  have h1 : pre ++ c :: (cmd ++ post) = (pre ++ [c]) ++ (cmd ++ post) := by simp
  have h2 : pre.length + 1 = (pre ++ [c]).length := by simp
  rw [h1, h2, List.drop_left, Nat.add_sub_cancel_left, List.take_left]

theorem sscanf_stat_text (state : Char)
    (f4 f5 f6 f7 f8 f9 f10 f11 f12 f13 f14 f15 f16 f17 f18 f19 f20 f21 f22 f23 rest : List Char)
    (hall : ∀ f ∈ [f4, f5, f6, f7, f8, f9, f10, f11, f12, f13, f14, f15, f16, f17, f18, f19, f20, f21, f22, f23], is_int_token f = true)
    (hs14 : is_digits f14 = true ∧ decimal_value f14 ≤ ULONG_MAX)
    (hs15 : is_digits f15 = true ∧ decimal_value f15 ≤ ULONG_MAX)
    (hs22 : is_digits f22 = true ∧ decimal_value f22 ≤ ULONG_MAX)
    (hs23 : is_digits f23 = true ∧ decimal_value f23 ≤ ULONG_MAX)
    (hr3 : NoDigitHead rest) :
    sscanf (state :: ([f4, f5, f6, f7, f8, f9, f10, f11, f12, f13, f14, f15, f16, f17, f18, f19, f20, f21, f22, f23].flatMap (fun f => ' ' :: f) ++ rest)) stat_format
      = (5, [ScanValue.chr state, ScanValue.num (decimal_value f14),
          ScanValue.num (decimal_value f15), ScanValue.num (decimal_value f22),
          ScanValue.num (decimal_value f23)]) := by
  unfold sscanf
  rw [stat_directives_eq, sscanf_go_chr]
  simp only [List.flatMap_cons, List.flatMap_nil, List.cons_append, List.append_assoc,
    List.nil_append, if_true, List.append_nil]
  rw [step_skip Conv.d (by decide) _ f4 _ _ _ (hall f4 (by simp)) (noDigitHead_space _)]
  rw [step_skip Conv.d (by decide) _ f5 _ _ _ (hall f5 (by simp)) (noDigitHead_space _)]
  rw [step_skip Conv.d (by decide) _ f6 _ _ _ (hall f6 (by simp)) (noDigitHead_space _)]
  rw [step_skip Conv.d (by decide) _ f7 _ _ _ (hall f7 (by simp)) (noDigitHead_space _)]
  rw [step_skip Conv.d (by decide) _ f8 _ _ _ (hall f8 (by simp)) (noDigitHead_space _)]
  rw [step_skip Conv.u (by decide) _ f9 _ _ _ (hall f9 (by simp)) (noDigitHead_space _)]
  rw [step_skip Conv.u (by decide) _ f10 _ _ _ (hall f10 (by simp)) (noDigitHead_space _)]
  rw [step_skip Conv.u (by decide) _ f11 _ _ _ (hall f11 (by simp)) (noDigitHead_space _)]
  rw [step_skip Conv.u (by decide) _ f12 _ _ _ (hall f12 (by simp)) (noDigitHead_space _)]
  rw [step_skip Conv.u (by decide) _ f13 _ _ _ (hall f13 (by simp)) (noDigitHead_space _)]
  rw [step_store Conv.lu (Or.inl rfl) _ f14 _ _ _ hs14.1 hs14.2 (noDigitHead_space _)]
  rw [step_store Conv.lu (Or.inl rfl) _ f15 _ _ _ hs15.1 hs15.2 (noDigitHead_space _)]
  rw [step_skip Conv.d (by decide) _ f16 _ _ _ (hall f16 (by simp)) (noDigitHead_space _)]
  rw [step_skip Conv.d (by decide) _ f17 _ _ _ (hall f17 (by simp)) (noDigitHead_space _)]
  rw [step_skip Conv.d (by decide) _ f18 _ _ _ (hall f18 (by simp)) (noDigitHead_space _)]
  rw [step_skip Conv.d (by decide) _ f19 _ _ _ (hall f19 (by simp)) (noDigitHead_space _)]
  rw [step_skip Conv.d (by decide) _ f20 _ _ _ (hall f20 (by simp)) (noDigitHead_space _)]
  rw [step_skip Conv.d (by decide) _ f21 _ _ _ (hall f21 (by simp)) (noDigitHead_space _)]
  rw [step_store Conv.llu (Or.inr rfl) _ f22 _ _ _ hs22.1 hs22.2 (noDigitHead_space _)]
  rw [step_store Conv.lu (Or.inl rfl) _ f23 _ _ _ hs23.1 hs23.2 hr3]
  simp [sscanf_go]

/-- C7: for a stat line `<pid> (<cmd>) <f3> <f4> … <f23>…` with single spaces, whatever
characters `<cmd>` holds (spaces and parentheses included), the first `(` and the last `)`
of the line enclose exactly `<cmd>`, and `sscanf` on the text after the last `)` returns 5
having stored `state = f3`, `utime = f14`, `stime = f15`, `starttime = f22`,
`vsize = f23`.  Here `<pid>` is a run of digits, `f4`…`f23` are decimal integers, those
stored being unsigned and at most `ULONG_MAX`, and what follows `f23` on the line neither
starts with a digit nor holds a `)`. -/
theorem stat_line_parsing (pid cmd : List Char) (state : Char)
    (f4 f5 f6 f7 f8 f9 f10 f11 f12 f13 f14 f15 f16 f17 f18 f19 f20 f21 f22 f23 rest junk : List Char)
    (hpid : pid.all isdigit = true) (hcmd : NUL ∉ cmd)
    (hstate : state ≠ ')' ∧ state ≠ NUL)
    (hskip : ∀ f ∈ [f4, f5, f6, f7, f8, f9, f10, f11, f12, f13, f16, f17, f18, f19, f20, f21],
      is_int_token f = true)
    (hstored : ∀ f ∈ [f14, f15, f22, f23], is_digits f = true ∧ decimal_value f ≤ ULONG_MAX)
    (hrest : ')' ∉ rest ∧ NUL ∉ rest ∧ NoDigitHead rest) :
    ∃ cmd_start cmd_end,
      strchr (cstrAt (stat_buffer pid cmd state [f4, f5, f6, f7, f8, f9, f10, f11, f12, f13, f14, f15, f16, f17, f18, f19, f20, f21, f22, f23] rest junk) 0) '(' = some cmd_start
      ∧ strrchr (cstrAt (stat_buffer pid cmd state [f4, f5, f6, f7, f8, f9, f10, f11, f12, f13, f14, f15, f16, f17, f18, f19, f20, f21, f22, f23] rest junk) 0) ')' = some cmd_end
      ∧ cmd_start < cmd_end
      ∧ text_between (cstrAt (stat_buffer pid cmd state [f4, f5, f6, f7, f8, f9, f10, f11, f12, f13, f14, f15, f16, f17, f18, f19, f20, f21, f22, f23] rest junk) 0) cmd_start cmd_end
          = cmd
      ∧ parse_stat_line (stat_buffer pid cmd state [f4, f5, f6, f7, f8, f9, f10, f11, f12, f13, f14, f15, f16, f17, f18, f19, f20, f21, f22, f23] rest junk)
          = some (5, [ScanValue.chr state, ScanValue.num (decimal_value f14),
              ScanValue.num (decimal_value f15), ScanValue.num (decimal_value f22),
              ScanValue.num (decimal_value f23)])
      ∧ raw_stat_of [ScanValue.chr state, ScanValue.num (decimal_value f14),
              ScanValue.num (decimal_value f15), ScanValue.num (decimal_value f22),
              ScanValue.num (decimal_value f23)]
          = some { state := state, utime := decimal_value f14, stime := decimal_value f15,
                   starttime := decimal_value f22, vsize := decimal_value f23 } := by
  have hs14 := hstored f14 (by simp)
  have hs15 := hstored f15 (by simp)
  have hs22 := hstored f22 (by simp)
  have hs23 := hstored f23 (by simp)
  have hall : ∀ f ∈ [f4, f5, f6, f7, f8, f9, f10, f11, f12, f13, f14, f15, f16, f17, f18, f19, f20, f21, f22, f23], is_int_token f = true := by
    simp only [List.forall_mem_cons, List.not_mem_nil, false_implies, implies_true,
      and_true] at hskip ⊢
    obtain ⟨k4, k5, k6, k7, k8, k9, k10, k11, k12, k13, k16, k17, k18, k19, k20, k21⟩ := hskip
    exact ⟨k4, k5, k6, k7, k8, k9, k10, k11, k12, k13, is_int_token_of_digits _ hs14.1, is_int_token_of_digits _ hs15.1, k16, k17, k18, k19, k20, k21, is_int_token_of_digits _ hs22.1, is_int_token_of_digits _ hs23.1⟩
  obtain ⟨hr1, hr2, hr3⟩ := hrest
  have hflat := flat_fields_chars [f4, f5, f6, f7, f8, f9, f10, f11, f12, f13, f14, f15, f16, f17, f18, f19, f20, f21, f22, f23] hall
  -- the text after the command
  have htail_nul : NUL ∉ state :: ([f4, f5, f6, f7, f8, f9, f10, f11, f12, f13, f14, f15, f16, f17, f18, f19, f20, f21, f22, f23].flatMap (fun f => ' ' :: f) ++ rest) := by
    intro hm
    rcases List.mem_cons.mp hm with h | h
    · exact hstate.2 h.symm
    · rcases List.mem_append.mp h with h | h
      · exact (hflat _ h).1 rfl
      · exact hr2 h
  have htail_paren : ')' ∉ ' ' :: state :: ([f4, f5, f6, f7, f8, f9, f10, f11, f12, f13, f14, f15, f16, f17, f18, f19, f20, f21, f22, f23].flatMap (fun f => ' ' :: f) ++ rest) := by
    intro hm
    rcases List.mem_cons.mp hm with h | hm
    · exact absurd h (by decide)
    rcases List.mem_cons.mp hm with h | h
    · exact hstate.1 h.symm
    · rcases List.mem_append.mp h with h | h
      · exact (hflat _ h).2 rfl
      · exact hr1 h
  have hpid_chars : ∀ c ∈ pid, c ≠ NUL ∧ c ≠ '(' ∧ c ≠ ' ' := by
    intro c hc
    have := List.all_eq_true.mp hpid c hc
    refine ⟨?_, ?_, ?_⟩ <;> (rintro rfl; exact absurd this (by decide))
  have hline_nul : NUL ∉ stat_text pid cmd state [f4, f5, f6, f7, f8, f9, f10, f11, f12, f13, f14, f15, f16, f17, f18, f19, f20, f21, f22, f23] rest := by
    unfold stat_text
    intro hm
    rcases List.mem_append.mp hm with h | h
    · exact (hpid_chars _ h).1 rfl
    rcases List.mem_cons.mp h with h | h
    · exact absurd h (by decide)
    rcases List.mem_cons.mp h with h | h
    · exact absurd h (by decide)
    rcases List.mem_append.mp h with h | h
    · exact hcmd h
    rcases List.mem_cons.mp h with h | h
    · exact absurd h (by decide)
    rcases List.mem_cons.mp h with h | h
    · exact absurd h (by decide)
    · exact htail_nul h
  have hstr : cstrAt (stat_buffer pid cmd state [f4, f5, f6, f7, f8, f9, f10, f11, f12, f13, f14, f15, f16, f17, f18, f19, f20, f21, f22, f23] rest junk) 0
      = stat_text pid cmd state [f4, f5, f6, f7, f8, f9, f10, f11, f12, f13, f14, f15, f16, f17, f18, f19, f20, f21, f22, f23] rest := by
    unfold stat_buffer
    rw [cstrAt_of_string _ _ 0 hline_nul (Nat.zero_le _)]
    rfl
  have hopen : strchr (stat_text pid cmd state [f4, f5, f6, f7, f8, f9, f10, f11, f12, f13, f14, f15, f16, f17, f18, f19, f20, f21, f22, f23] rest) '(' = some (pid.length + 1) := by
    have h := strchr_first (pid ++ [' '])
      (cmd ++ ')' :: ' ' :: state :: ([f4, f5, f6, f7, f8, f9, f10, f11, f12, f13, f14, f15, f16, f17, f18, f19, f20, f21, f22, f23].flatMap (fun f => ' ' :: f) ++ rest)) '('
      (by
        intro hm
        rcases List.mem_append.mp hm with h | h
        · exact (hpid_chars _ h).2.1 rfl
        · exact absurd (List.mem_singleton.mp h) (by decide))
    simpa [stat_text] using h
  have hclose : strrchr (stat_text pid cmd state [f4, f5, f6, f7, f8, f9, f10, f11, f12, f13, f14, f15, f16, f17, f18, f19, f20, f21, f22, f23] rest) ')'
      = some (pid.length + 2 + cmd.length) := by
    have h := strrchr_last (pid ++ ' ' :: '(' :: cmd)
      (' ' :: state :: ([f4, f5, f6, f7, f8, f9, f10, f11, f12, f13, f14, f15, f16, f17, f18, f19, f20, f21, f22, f23].flatMap (fun f => ' ' :: f) ++ rest)) ')' htail_paren
    simp only [List.append_assoc, List.cons_append, List.length_append, List.length_cons] at h
    unfold stat_text
    rw [h]
    congr 1
    omega
  refine ⟨pid.length + 1, pid.length + 2 + cmd.length, by rw [hstr, hopen], by rw [hstr, hclose],
    by omega, ?_, ?_, rfl⟩
  · rw [hstr]
    have h := text_between_spec (pid ++ [' ']) cmd
      (')' :: ' ' :: state :: ([f4, f5, f6, f7, f8, f9, f10, f11, f12, f13, f14, f15, f16, f17, f18, f19, f20, f21, f22, f23].flatMap (fun f => ' ' :: f) ++ rest)) '('
    simpa [stat_text, Nat.add_assoc] using h
  · have hdrop : cstrAt (stat_buffer pid cmd state [f4, f5, f6, f7, f8, f9, f10, f11, f12, f13, f14, f15, f16, f17, f18, f19, f20, f21, f22, f23] rest junk)
        (pid.length + 2 + cmd.length + 2)
        = state :: ([f4, f5, f6, f7, f8, f9, f10, f11, f12, f13, f14, f15, f16, f17, f18, f19, f20, f21, f22, f23].flatMap (fun f => ' ' :: f) ++ rest) := by
      unfold stat_buffer
      rw [cstrAt_of_string _ _ _ hline_nul (by simp [stat_text]; omega)]
      have h1 : stat_text pid cmd state [f4, f5, f6, f7, f8, f9, f10, f11, f12, f13, f14, f15, f16, f17, f18, f19, f20, f21, f22, f23] rest
          = (pid ++ ' ' :: '(' :: (cmd ++ [')', ' '])) ++
            state :: ([f4, f5, f6, f7, f8, f9, f10, f11, f12, f13, f14, f15, f16, f17, f18, f19, f20, f21, f22, f23].flatMap (fun f => ' ' :: f) ++ rest) := by
        simp [stat_text]
      have h2 : pid.length + 2 + cmd.length + 2
          = (pid ++ ' ' :: '(' :: (cmd ++ [')', ' '])).length := by
        simp; omega
      rw [h1, h2, List.drop_left]
    unfold parse_stat_line
    rw [hstr, hopen, hclose]
    have hgt : pid.length + 2 + cmd.length > pid.length + 1 := by omega
    simp only [hgt, if_true, hdrop, Option.some.injEq]
    exact sscanf_stat_text state f4 f5 f6 f7 f8 f9 f10 f11 f12 f13 f14 f15 f16 f17 f18 f19 f20 f21 f22 f23 rest hall hs14 hs15 hs22 hs23 hr3

theorem read_line_spec (more : List Char) :
    ∀ (n : Nat) (line : List Char), '\n' ∉ line → line.length < n →
      read_line n (line ++ '\n' :: more) = line ++ ['\n'] := by
  intro n
  induction n with
  | zero => intro line _ h; omega
  | succ n ih =>
    intro line hnl hlen
    cases line with
    | nil => simp [read_line]
    | cons x xs =>
      have hx : x ≠ '\n' := fun e => hnl (by simp [e])
      have hxs : '\n' ∉ xs := fun e => hnl (List.mem_cons_of_mem _ e)
      simp only [List.length_cons] at hlen
      simp [read_line, hx, ih xs hxs (by omega)]

theorem fgets_line (buf : List Char) (size : Nat) (line more : List Char)
    (hnl : '\n' ∉ line) (hlen : line.length + 2 ≤ size) :
    fgets buf size (line ++ '\n' :: more)
      = some (line ++ '\n' :: NUL :: buf.drop (line.length + 2)) := by
  unfold fgets
  rw [read_line_spec more (size - 1) line hnl (by omega)]
  simp

theorem stat_line_parsing_witness :
    fgets [] 1024 (kernel_line.dropLast ++ ['\n']) = some (kernel_line.dropLast ++ ['\n', NUL])
    ∧ kernel_line.dropLast ++ ['\n'] = kernel_line
    ∧ stat_buffer "1234".toList "my (weird) app".toList 'S'
        ["1".toList, "1234".toList, "1234".toList, "0".toList, "-1".toList, "4194304".toList, "100".toList, "0".toList, "0".toList, "0".toList, "12".toList, "34".toList, "0".toList, "0".toList, "20".toList, "0".toList, "1".toList, "0".toList, "5000".toList, "4000000000".toList]
        " 300 184467\n".toList [] = kernel_line ++ [NUL]
    ∧ ∃ cmd_start cmd_end,
      strchr (cstrAt (kernel_line ++ [NUL]) 0) '(' = some cmd_start
      ∧ strrchr (cstrAt (kernel_line ++ [NUL]) 0) ')' = some cmd_end
      ∧ cmd_start < cmd_end
      ∧ text_between (cstrAt (kernel_line ++ [NUL]) 0) cmd_start cmd_end
          = "my (weird) app".toList
      ∧ parse_stat_line (kernel_line ++ [NUL])
          = some (5, [ScanValue.chr 'S', ScanValue.num 12, ScanValue.num 34,
              ScanValue.num 5000, ScanValue.num 4000000000]) := by
  have hbuf : stat_buffer "1234".toList "my (weird) app".toList 'S'
        ["1".toList, "1234".toList, "1234".toList, "0".toList, "-1".toList, "4194304".toList, "100".toList, "0".toList, "0".toList, "0".toList, "12".toList, "34".toList, "0".toList, "0".toList, "20".toList, "0".toList, "1".toList, "0".toList, "5000".toList, "4000000000".toList]
        " 300 184467\n".toList [] = kernel_line ++ [NUL] := by decide
  obtain ⟨i, j, h1, h2, h3, h4, h5, -⟩ :=
    stat_line_parsing "1234".toList "my (weird) app".toList 'S'
      "1".toList "1234".toList "1234".toList "0".toList "-1".toList "4194304".toList "100".toList "0".toList "0".toList "0".toList "12".toList "34".toList "0".toList "0".toList "20".toList "0".toList "1".toList "0".toList "5000".toList "4000000000".toList
      " 300 184467\n".toList [] (by decide) (by decide) (by decide) (by decide) (by decide)
      ⟨by decide, by decide, noDigitHead_space _⟩
  rw [hbuf] at h1 h2 h4 h5
  exact ⟨fgets_line [] 1024 _ [] (by decide) (by decide), by decide, hbuf, i, j, h1, h2, h3, h4,
    by rw [h5]; decide⟩

/-! ## Small terminals -/

theorem display_rows_of_usable (rows : Int) (h5 : 5 ≤ rows) (hmax : rows ≤ INT_MAX) :
    1 ≤ display_rows_of rows ∧ display_rows_of rows = rows - 4 := by
  unfold display_rows_of wrapInt; unfold INT_MAX at hmax; omega

/-- C11, failing inputs: on a terminal four lines high the page size `rows - 4` is zero and
the division in `start_idx` traps, whatever the selection, before the first frame is
drawn; on a terminal three lines high the page size is -1, so that `Page Up` moves the
selection from 2 to 3 in a list of three and `Page Down` moves it from 0 to -1, after
which the next frame reads `processes[-1]`. -/
theorem small_terminal_breaks_viewport :
    display_rows_of 4 = 0
    ∧ (∀ selected_row : Int, start_idx selected_row (display_rows_of 4) = none)
    ∧ (∀ (processes : List process_info_t) (selected_row : Int),
        render processes 4 selected_row = none)
    ∧ monitor ncursesKeys four_line_terminal = none
    ∧ display_rows_of 3 = -1
    ∧ (three.length : Int) = 3
    ∧ navigate ncursesKeys three.length (display_rows_of 3) 2 ncursesKeys.KEY_PPAGE = 3
    ∧ navigate ncursesKeys three.length (display_rows_of 3) 0 ncursesKeys.KEY_NPAGE = -1
    ∧ monitor ncursesKeys three_line_terminal = none := by
  have h4 : display_rows_of 4 = 0 := by decide
  have hs : ∀ selected_row : Int, start_idx selected_row (display_rows_of 4) = none := by
    intro selected_row
    simp [start_idx, h4]
  have hr : ∀ (processes : List process_info_t) (selected_row : Int),
      render processes 4 selected_row = none := by
    intro processes selected_row
    simp only [render, hs selected_row]
  refine ⟨h4, hs, hr, ?_, by decide, by decide, by decide, by decide, by decide⟩
  simp only [monitor, four_line_terminal, monitor_loop, hr]

/-! ## A stat line that ends with the command -/

end LightLimit
